import Mathlib

/-!
# ShipWise packing engine — formal model

A shallow embedding of the 3D bin-packing engine of the repository
(`Advanced3DBinPacker`, its strategies, and `calculateOptimalPacking`).

Modelling conventions:
* JavaScript numbers are modelled as `ℚ` (dimensions, weights, costs, scores);
  item counts are `ℕ`; `availableQuantity` is `ℤ` (the code can decrement it
  below zero).
* String-valued fields (`id`, `name`, orientation labels, messages) are
  modelled as natural-number identifiers; orientation labels are determined by
  the orientation index.
* `Math.sqrt` is modelled by `ratSqrt`, which is exact whenever the radicand
  is the square of a rational (all concrete inputs used in the theorems below
  are chosen so that this holds).
* `Date.now()` / `new Date().toISOString()` are modelled by an explicit clock
  argument `now : ℕ` to `calculateOptimalPacking`.
* Mutation of `carton.availableQuantity` in place is modelled by threading the
  working carton list through each strategy and returning the updated list.
-/

set_option autoImplicit false

namespace ShipWise

/-- Largest `r' ≥ r` with `r' * r' ≤ n`, reached by unit steps bounded by the
`fuel` argument (a structurally recursive integer square root search). -/
def intSqrtFrom (n : ℕ) : ℕ → ℕ → ℕ
  | r, 0 => r
  | r, fuel + 1 => if (r + 1) * (r + 1) ≤ n then intSqrtFrom n (r + 1) fuel else r

/-- `⌊√n⌋` for naturals, by bounded linear search. -/
def intSqrt (n : ℕ) : ℕ := intSqrtFrom n 0 n

/-- Model of `Math.sqrt`.  Exact on squares of rationals: if `q = r * r` with
`0 ≤ r : ℚ` then `ratSqrt q = r`.  (On other nonnegative inputs it is some
rational approximation; every concrete input below has a rational square
root, so the model agrees with the source there.) -/
def ratSqrt (q : ℚ) : ℚ := (intSqrt q.num.toNat : ℚ) / (intSqrt q.den : ℚ)

/-- Model of `Math.round` (round half towards positive infinity). -/
def jsRound (q : ℚ) : ℚ := (⌊q + 1/2⌋ : ℚ)

/-- Model of `Math.ceil (a / b)` on natural numbers (used for layer counts). -/
def jsCeilDiv (a b : ℕ) : ℕ := ⌈(a : ℚ) / (b : ℚ)⌉₊

/-- `Product` entity (lines 248–274 of the engine source): a normalized
packable unit.  `volume` and `density` are derived, so they are definitions
rather than fields. -/
structure Product where
  id : ℕ
  name : ℕ
  length : ℚ
  breadth : ℚ
  height : ℚ
  weight : ℚ
  quantity : ℕ
  isFragile : Bool
  maxStackHeight : ℚ
  maxStackWeight : ℚ
  canRotate : Bool
  priority : ℚ
  value : ℚ
  damageCost : ℚ
deriving DecidableEq, Repr

/-- `this.volume = length * breadth * height` in the `Product` constructor. -/
def Product.volume (p : Product) : ℚ := p.length * p.breadth * p.height

/-- `this.density = weight / this.volume` in the `Product` constructor. -/
def Product.density (p : Product) : ℚ := p.weight / p.volume

/-- `Carton` entity (lines 277–301): a carton type together with how many
physical instances remain (`availableQuantity`). -/
structure Carton where
  id : ℕ
  name : ℕ
  length : ℚ
  breadth : ℚ
  height : ℚ
  maxWeight : ℚ
  availableQuantity : ℤ
  cost : ℚ
  shippingCost : ℚ
  priority : ℚ
  popularity : ℚ
  fragileSupport : Bool
  maxStackLayers : ℕ
deriving DecidableEq, Repr

/-- `this.volume = length * breadth * height` in the `Carton` constructor. -/
def Carton.volume (c : Carton) : ℚ := c.length * c.breadth * c.height

/-- `Position3D` (lines 304–310). -/
structure Position3D where
  x : ℚ
  y : ℚ
  z : ℚ
deriving DecidableEq, Repr

/-- An axis-aligned orientation: the permuted dimension triple together with
its stable index 0–5 (`getAllOrientations`, lines 643–654). -/
structure Orientation where
  dims : ℚ × ℚ × ℚ
  index : ℕ
deriving DecidableEq, Repr

/-- The six orientations of a product, in the fixed canonical order of the
source; only orientation 0 if the product cannot rotate (lines 643–654). -/
def getAllOrientations (p : Product) : List Orientation :=
  let orientations : List Orientation :=
    [ ⟨(p.length, p.breadth, p.height), 0⟩
    , ⟨(p.length, p.height, p.breadth), 1⟩
    , ⟨(p.breadth, p.length, p.height), 2⟩
    , ⟨(p.breadth, p.height, p.length), 3⟩
    , ⟨(p.height, p.length, p.breadth), 4⟩
    , ⟨(p.height, p.breadth, p.length), 5⟩ ]
  if p.canRotate then orientations else [⟨(p.length, p.breadth, p.height), 0⟩]

/-- `PackedItem.getOrientedDimensions` (lines 324–335): the dimension triple
of orientation `orientation` (call sites always pass an index 0–5). -/
def getOrientedDimensions (p : Product) (orientation : ℕ) : ℚ × ℚ × ℚ :=
  match orientation with
  | 0 => (p.length, p.breadth, p.height)
  | 1 => (p.length, p.height, p.breadth)
  | 2 => (p.breadth, p.length, p.height)
  | 3 => (p.breadth, p.height, p.length)
  | 4 => (p.height, p.length, p.breadth)
  | _ => (p.height, p.breadth, p.length)

/-- `PackedItem` (lines 312–336): one placed unit with its position, the
orientation used and its 1-based stack level. -/
structure PackedItem where
  productId : ℕ
  productName : ℕ
  position : Position3D
  orientation : ℕ
  stackLevel : ℕ
  dimLength : ℚ
  dimBreadth : ℚ
  dimHeight : ℚ
  weight : ℚ
  volume : ℚ
deriving DecidableEq, Repr

/-- The `PackedItem` constructor (lines 313–322). -/
def mkPackedItem (p : Product) (position : Position3D) (orientation stackLevel : ℕ) :
    PackedItem :=
  let d := getOrientedDimensions p orientation
  { productId := p.id
  , productName := p.name
  , position := position
  , orientation := orientation
  , stackLevel := stackLevel
  , dimLength := d.1
  , dimBreadth := d.2.1
  , dimHeight := d.2.2
  , weight := p.weight
  , volume := p.volume }

/-- The stacking summary produced by `analyzeStacking` (lines 773–787). -/
structure StackingInfo where
  totalLayers : ℕ
  itemsPerLayer : ℕ
  averageWeightPerLayer : ℚ
  stackingSafety : Bool
  stackingEfficiency : ℚ
  isFragileStacking : Bool
deriving DecidableEq, Repr

/-- `analyzeStacking` (lines 773–787).  `Math.max(...)` over the stack levels
is modelled as a fold with neutral element 0; the function is only applied to
nonempty item lists. The `carton` parameter is unused in the source body. -/
def analyzeStacking (packedItems : List PackedItem) (product : Product)
    (_carton : Carton) : StackingInfo :=
  let layers := packedItems.foldl (fun m it => max m it.stackLevel) 0
  let itemsPerLayer := (packedItems.filter (fun it => it.stackLevel = 1)).length
  let averageWeightPerLayer := (itemsPerLayer : ℚ) * product.weight
  { totalLayers := layers
  , itemsPerLayer := itemsPerLayer
  , averageWeightPerLayer := averageWeightPerLayer
  , stackingSafety := decide (averageWeightPerLayer ≤ product.maxStackWeight)
  , stackingEfficiency := if 1 < layers then 1 else 1/2
  , isFragileStacking := p_frag product layers }
where
  p_frag (product : Product) (layers : ℕ) : Bool := product.isFragile && decide (1 < layers)

/-- `calculateSpaceUtilization` (lines 695–698). -/
def calculateSpaceUtilization (packedItems : List PackedItem) (carton : Carton) : ℚ :=
  (packedItems.foldl (fun s it => s + it.volume) 0) / carton.volume

/-- `calculateCenterOfMass` (lines 700–721): weight-averaged centroid of the
placed items' geometric centers.  The `carton` parameter is unused in the
source body. -/
def calculateCenterOfMass (packedItems : List PackedItem) (_carton : Carton) :
    Position3D :=
  match packedItems with
  | [] => ⟨0, 0, 0⟩
  | _ =>
    let totalWeight := packedItems.foldl (fun s it => s + it.weight) 0
    let wx := packedItems.foldl
      (fun s it => s + (it.position.x + it.dimLength / 2) * it.weight) 0
    let wy := packedItems.foldl
      (fun s it => s + (it.position.y + it.dimBreadth / 2) * it.weight) 0
    let wz := packedItems.foldl
      (fun s it => s + (it.position.z + it.dimHeight / 2) * it.weight) 0
    ⟨wx / totalWeight, wy / totalWeight, wz / totalWeight⟩

/-- `calculateMaxStackLayers` (lines 634–640): the binding minimum of physical
height, per-stack weight bearing, the fragility cap and the carton's own
layer cap. -/
def calculateMaxStackLayers (product : Product) (carton : Carton) (itemHeight : ℚ) : ℕ :=
  let maxLayersByHeight := ⌊carton.height / itemHeight⌋₊
  let maxLayersByWeight := ⌊product.maxStackWeight / product.weight⌋₊
  let maxLayersByFragility :=
    if product.isFragile then min 3 maxLayersByHeight else maxLayersByHeight
  min (min maxLayersByHeight maxLayersByWeight)
    (min maxLayersByFragility carton.maxStackLayers)

/-- `generate3DLayout` (lines 608–631): enumerate slot positions layer by
layer (bottom-up), row-major within a layer; the `itemIndex < totalItems`
guards of the source amount to taking the first `totalItems` slots. -/
def generate3DLayout (product : Product) (orientation : Orientation)
    (itemsPerLength itemsPerBreadth totalItems : ℕ)
    (pLength pBreadth pHeight : ℚ) : List PackedItem :=
  (((List.range (jsCeilDiv totalItems (itemsPerLength * itemsPerBreadth))).map
    (fun (layer : ℕ) =>
      ((List.range itemsPerBreadth).map (fun (breadthIndex : ℕ) =>
        ((List.range itemsPerLength).map (fun (lengthIndex : ℕ) =>
          mkPackedItem product
            ⟨(lengthIndex : ℚ) * pLength, (breadthIndex : ℚ) * pBreadth,
              (layer : ℚ) * pHeight⟩
            orientation.index (layer + 1))))).flatten)).flatten).take totalItems

/-- The layout produced by `calculateOptimal3DLayout` (lines 555–605).
`arrangement` of the source repeats `lengthwise`/`breadthwise`/`layers`, and
the result also repeats `stackingInfo`/`packedItems`; the repeated fields are
stored once. -/
structure Layout where
  itemsPacked : ℕ
  itemsPerLayer : ℕ
  layers : ℕ
  lengthwise : ℕ
  breadthwise : ℕ
  packedItems : List PackedItem
  stackingInfo : StackingInfo
  spaceUtilization : ℚ
  centerOfMass : Position3D
deriving DecidableEq, Repr

/-- `calculateOptimal3DLayout` (lines 555–605): the Fit Calculator for one
orientation of one product in a single instance of one carton. -/
def calculateOptimal3DLayout (product : Product) (carton : Carton)
    (orientation : Orientation) (maxQuantity : ℕ) : Option Layout :=
  let pLength := orientation.dims.1
  let pBreadth := orientation.dims.2.1
  let pHeight := orientation.dims.2.2
  if pLength > carton.length ∨ pBreadth > carton.breadth ∨ pHeight > carton.height then
    none
  else
    let itemsPerLength := ⌊carton.length / pLength⌋₊
    let itemsPerBreadth := ⌊carton.breadth / pBreadth⌋₊
    let itemsPerLayer := itemsPerLength * itemsPerBreadth
    if itemsPerLayer = 0 then none
    else
      let maxStackLayers := calculateMaxStackLayers product carton pHeight
      let totalItemsByVolume := itemsPerLayer * maxStackLayers
      let maxItemsByWeight := ⌊carton.maxWeight / product.weight⌋₊
      let actualItemsPacked := min (min totalItemsByVolume maxItemsByWeight) maxQuantity
      if actualItemsPacked = 0 then none
      else
        let packedItems := generate3DLayout product orientation itemsPerLength
          itemsPerBreadth actualItemsPacked pLength pBreadth pHeight
        some
          { itemsPacked := actualItemsPacked
          , itemsPerLayer := itemsPerLayer
          , layers := jsCeilDiv actualItemsPacked itemsPerLayer
          , lengthwise := itemsPerLength
          , breadthwise := itemsPerBreadth
          , packedItems := packedItems
          , stackingInfo := analyzeStacking packedItems product carton
          , spaceUtilization := calculateSpaceUtilization packedItems carton
          , centerOfMass := calculateCenterOfMass packedItems carton }

/-- `calculateStackingScore` (lines 744–748). -/
def calculateStackingScore (layout : Layout) (product : Product) : ℚ :=
  if layout.layers ≤ 1 then 1/2
  else if product.isFragile ∧ 3 < layout.layers then 3/10
  else min 1 ((layout.layers : ℚ) / 5)

/-- `calculateStabilityScore` (lines 750–771).  The null checks of the source
cannot fire in the typed model. -/
def calculateStabilityScore (layout : Layout) (carton : Carton) : ℚ :=
  let com := layout.centerOfMass
  let centerX := carton.length / 2
  let centerY := carton.breadth / 2
  let centerZ := carton.height / 2
  let distanceFromCenter := ratSqrt
    ((com.x - centerX) ^ 2 + (com.y - centerY) ^ 2 + (com.z - centerZ) ^ 2)
  let maxDistance := ratSqrt (centerX * centerX + centerY * centerY + centerZ * centerZ)
  1 - distanceFromCenter / maxDistance

/-- `calculateLayoutScore` (lines 736–742): the score by which
`packProductInCarton` picks among feasible orientations. -/
def calculateLayoutScore (layout : Layout) (product : Product) (carton : Carton) : ℚ :=
  let spaceScore := layout.spaceUtilization
  let stackingScore := calculateStackingScore layout product
  let stabilityScore := calculateStabilityScore layout carton
  spaceScore * 0.5 + stackingScore * 0.3 + stabilityScore * 0.2

/-- `calculatePackingCost` (lines 677–684). -/
def calculatePackingCost (layout : Layout) (product : Product) (carton : Carton) : ℚ :=
  let baseCost := carton.cost
  let shippingCost := carton.shippingCost
  let inefficiencyPenalty := (1 - layout.spaceUtilization) * carton.cost * 0.5
  let fragilityPenalty :=
    if product.isFragile ∧ 2 < layout.layers then product.damageCost * 0.1 else 0
  baseCost + shippingCost + inefficiencyPenalty + fragilityPenalty

/-- The three efficiency metrics of `calculateEfficiency` (lines 687–693). -/
structure Efficiency where
  volumeEfficiency : ℚ
  spaceUtilization : ℚ
  weightUtilization : ℚ
deriving DecidableEq, Repr

/-- `calculateEfficiency` (lines 687–693).  `packedItems[0]?.volume || 0`
yields 0 for an empty list. -/
def calculateEfficiency (layout : Layout) (carton : Carton) : Efficiency :=
  { volumeEfficiency :=
      (match layout.packedItems.head? with
        | some it => (layout.itemsPacked : ℚ) * it.volume
        | none => 0) / carton.volume
  , spaceUtilization := layout.spaceUtilization
  , weightUtilization :=
      ((layout.itemsPacked : ℚ) *
        (match layout.packedItems.head? with
          | some it => it.weight
          | none => 0)) / carton.maxWeight }

/-- `calculateWasteRatio` (lines 724–726). -/
def calculateWasteRatio (layout : Layout) (_carton : Carton) : ℚ :=
  1 - layout.spaceUtilization

/-- The per-placement record returned by `packProductInCarton` (lines
539–551).  The source's `stackingInfo` and `packedItems` fields repeat
`layout.stackingInfo` / `layout.packedItems` and are stored once. -/
structure PackingResult where
  product : Product
  carton : Carton
  itemsPacked : ℕ
  layout : Layout
  orientationIndex : ℕ
  orientation : Orientation
  efficiency : Efficiency
  wasteRatio : ℚ
  cost : ℚ
deriving DecidableEq, Repr

/-- `canFitOrientation` (lines 789–793). -/
def canFitOrientation (product : Product) (carton : Carton) (orientationIndex : ℕ) :
    Bool :=
  match (getAllOrientations product).get? orientationIndex with
  | some o =>
      decide (o.dims.1 ≤ carton.length ∧ o.dims.2.1 ≤ carton.breadth ∧
        o.dims.2.2 ≤ carton.height)
  | none => false

/-- One step of the orientation fold of `packProductInCarton` (lines
522–535): keep the layout with the strictly greatest layout score; the
`-Infinity` initial best score is modelled by the `none` accumulator. -/
def chooseBestLayoutStep (product : Product) (carton : Carton) (maxQuantity : ℕ)
    (best : Option (Layout × Orientation × ℚ)) (o : Orientation) :
    Option (Layout × Orientation × ℚ) :=
  match calculateOptimal3DLayout product carton o maxQuantity with
  | none => best
  | some layout =>
    if 0 < layout.itemsPacked then
      let score := calculateLayoutScore layout product carton
      match best with
      | none => some (layout, o, score)
      | some (bl, bo, bestScore) =>
          if bestScore < score then some (layout, o, score) else some (bl, bo, bestScore)
    else best

/-- The orientation fold of `packProductInCarton` (lines 518–535). -/
def chooseBestLayout (product : Product) (carton : Carton) (maxQuantity : ℕ) :
    Option (Layout × Orientation × ℚ) :=
  (getAllOrientations product).foldl (chooseBestLayoutStep product carton maxQuantity)
    none

/-- `packProductInCarton` (lines 513–552): the Fit Calculator entry point for
one product and one carton instance. -/
def packProductInCarton (product : Product) (carton : Carton) (maxQuantity : ℕ) :
    Option PackingResult :=
  if ¬product.canRotate ∧ ¬(canFitOrientation product carton 0 = true) then none
  else
    match chooseBestLayout product carton maxQuantity with
    | none => none
    | some (layout, o, _) =>
        some
          { product := product
          , carton := carton
          , itemsPacked := layout.itemsPacked
          , layout := layout
          , orientationIndex := o.index
          , orientation := o
          , efficiency := calculateEfficiency layout carton
          , wasteRatio := calculateWasteRatio layout carton
          , cost := calculatePackingCost layout product carton }

end ShipWise

namespace ShipWise

/-! ## Stable sorting

`Array.prototype.sort` with a consistent comparator is a stable sort; any two
stable sorts agree, so the comparator-based sorts of the source are modelled
by a stable insertion sort over the comparator's boolean `le`. -/

/-- Insert `a` before the first element `b` with `le a b = true`. -/
def orderedInsertBy {α : Type} (le : α → α → Bool) (a : α) : List α → List α
  | [] => [a]
  | b :: l => if le a b then a :: b :: l else b :: orderedInsertBy le a l

/-- Stable sort by a boolean comparator (insertion sort). -/
def stableSortBy {α : Type} (le : α → α → Bool) : List α → List α
  | [] => []
  | a :: l => orderedInsertBy le a (stableSortBy le l)

theorem orderedInsertBy_perm {α : Type} (le : α → α → Bool) (a : α) (l : List α) :
    (orderedInsertBy le a l).Perm (a :: l) := by
  induction l with
  | nil => exact List.Perm.refl _
  | cons b l ih =>
    simp only [orderedInsertBy]
    split
    · exact List.Perm.refl _
    · exact (List.Perm.cons b ih).trans (List.Perm.swap a b l)

theorem stableSortBy_perm {α : Type} (le : α → α → Bool) (l : List α) :
    (stableSortBy le l).Perm l := by
  induction l with
  | nil => exact List.Perm.refl _
  | cons a l ih =>
    exact (orderedInsertBy_perm le a (stableSortBy le l)).trans (List.Perm.cons a ih)

/-! ## Carton ranking and strategy building blocks -/

/-- `calculateCartonScore` (lines 667–674): the selection score used to rank
cartons before the FFD strategy consumes them. -/
def calculateCartonScore (carton : Carton) : ℚ :=
  let costFactor := 1 / (carton.cost + 1)
  let priorityFactor := carton.priority
  let popularityFactor := carton.popularity + 1
  let availabilityFactor : ℚ := if 0 < carton.availableQuantity then 1 else 0
  costFactor * 0.3 + priorityFactor * 0.4 + popularityFactor * 0.2 +
    availabilityFactor * 0.1

/-- `sortCartonsByPriority` (lines 657–664), on `(position, carton)` pairs:
the sorted array of references of the source is the sorted list of positions
into the working catalog (scores taken at sort time). -/
def sortCartonsByPriority (cartons : List Carton) : List (ℕ × Carton) :=
  stableSortBy
    (fun a b => decide (calculateCartonScore b.2 ≤ calculateCartonScore a.2))
    cartons.enum

/-- The product comparator of FFD/BFD (lines 396–399 and 434–437):
priority descending, then volume descending. -/
def sortProductsByPriorityVolume (products : List Product) : List Product :=
  stableSortBy
    (fun a b =>
      if a.priority = b.priority then decide (b.volume ≤ a.volume)
      else decide (b.priority < a.priority))
    products

/-- The product comparator of the guillotine strategy (line 475): volume
descending. -/
def sortProductsByVolume (products : List Product) : List Product :=
  stableSortBy (fun a b => decide (b.volume ≤ a.volume)) products

/-- `calculatePackingScore` (lines 728–734): the score by which BFD ranks
feasible placements. -/
def calculatePackingScore (packingResult : PackingResult) : ℚ :=
  let efficiency := packingResult.efficiency.volumeEfficiency
  let utilization := packingResult.efficiency.spaceUtilization
  let costFactor := 1 / (packingResult.cost + 1)
  efficiency * 0.4 + utilization * 0.4 + costFactor * 0.2

/-- `packWithGuillotineConstraints` (lines 816–823): `packProductInCarton`
with the (identical) waste ratio re-attached. -/
def packWithGuillotineConstraints (product : Product) (carton : Carton)
    (maxQuantity : ℕ) : Option PackingResult :=
  match packProductInCarton product carton maxQuantity with
  | none => none
  | some r => some { r with wasteRatio := calculateWasteRatio r.layout carton }

/-- One candidate probe of the strategy loops: the carton at position `i` of
the working catalog, skipped when exhausted (`availableQuantity <= 0`) or
when no items fit. -/
def tryPackAt (product : Product) (state : List Carton) (remaining : ℕ) (i : ℕ) :
    Option (ℕ × PackingResult) :=
  match state.get? i with
  | none => none
  | some carton =>
    if 0 < carton.availableQuantity then
      match packProductInCarton product carton remaining with
      | some r => if 0 < r.itemsPacked then some (i, r) else none
      | none => none
    else none

/-- The inner carton scan of FFD (lines 411–419): first ranked carton that
fits anything. -/
def ffdSelect (sortedIdx : List ℕ) (product : Product) (state : List Carton)
    (remaining : ℕ) : Option (ℕ × PackingResult) :=
  sortedIdx.findSome? (tryPackAt product state remaining)

/-- One step of the inner carton scan of BFD (lines 448–459): strictly best
packing score wins; the `-Infinity` initial best is the `none` accumulator. -/
def bfdStep (product : Product) (remaining : ℕ)
    (best : Option (ℚ × ℕ × PackingResult)) (x : ℕ × Carton) :
    Option (ℚ × ℕ × PackingResult) :=
  if 0 < x.2.availableQuantity then
    match packProductInCarton product x.2 remaining with
    | some r =>
      if 0 < r.itemsPacked then
        let score := calculatePackingScore r
        match best with
        | none => some (score, x.1, r)
        | some (bestScore, b) =>
            if bestScore < score then some (score, x.1, r) else some (bestScore, b)
      else best
    | none => best
  else best

/-- The inner carton scan of BFD (lines 448–459), over the working catalog in
its list order. -/
def bfdSelect (product : Product) (state : List Carton) (remaining : ℕ) :
    Option (ℕ × PackingResult) :=
  (state.enum.foldl (bfdStep product remaining) none).map (fun y => y.2)

/-- One step of the inner carton scan of the guillotine strategy (lines
484–491): strictly smallest waste ratio wins; the `Infinity` initial best is
the `none` accumulator. -/
def guillotineStep (product : Product) (remaining : ℕ)
    (best : Option (ℕ × PackingResult)) (x : ℕ × Carton) :
    Option (ℕ × PackingResult) :=
  if 0 < x.2.availableQuantity then
    match packWithGuillotineConstraints product x.2 remaining with
    | some r =>
      match best with
      | none => some (x.1, r)
      | some b => if r.wasteRatio < b.2.wasteRatio then some (x.1, r) else some b
    | none => best
  else best

/-- The inner carton scan of the guillotine strategy (lines 484–491), over
the working catalog in its list order. -/
def guillotineSelect (product : Product) (state : List Carton) (remaining : ℕ) :
    Option (ℕ × PackingResult) :=
  state.enum.foldl (guillotineStep product remaining) none

/-- `bestFit.carton.availableQuantity--` (lines 425, 465, 498): decrement the
carton at position `i` of the working catalog. -/
def decrementAt (state : List Carton) (i : ℕ) : List Carton :=
  match state.get? i with
  | some c => state.set i { c with availableQuantity := c.availableQuantity - 1 }
  | none => state

end ShipWise

namespace ShipWise

/-! ## Progress facts needed to define the strategy loops

Each `while (remainingQuantity > 0)` loop of the source terminates because a
selected placement always packs at least one item; these lemmas justify the
well-founded recursion of `packLoop` below. -/

theorem foldl_preserve {α β : Type} (f : β → α → β) (P : β → Prop)
    (l : List α) (b : β) (hb : P b) (hf : ∀ b a, P b → P (f b a)) :
    P (l.foldl f b) := by
  induction l generalizing b with
  | nil => exact hb
  | cons a l ih => exact ih (f b a) (hf b a hb)

theorem chooseBestLayoutStep_preserve (product : Product) (carton : Carton)
    (maxQuantity : ℕ) (best : Option (Layout × Orientation × ℚ)) (o : Orientation)
    (hb : ∀ l o' s', best = some (l, o', s') → 0 < l.itemsPacked) :
    ∀ l o' s', chooseBestLayoutStep product carton maxQuantity best o = some (l, o', s') →
      0 < l.itemsPacked := by
  intro l o' s' h
  unfold chooseBestLayoutStep at h
  split at h
  · exact hb _ _ _ h
  next layout heq =>
    split at h
    next hpos =>
      simp only [] at h
      split at h
      · cases h; exact hpos
      · split at h
        · cases h; exact hpos
        · exact hb _ _ _ h
    next hpos => exact hb _ _ _ h

theorem chooseBestLayout_itemsPacked_pos (product : Product) (carton : Carton)
    (maxQuantity : ℕ) (layout : Layout) (o : Orientation) (s : ℚ)
    (h : chooseBestLayout product carton maxQuantity = some (layout, o, s)) :
    0 < layout.itemsPacked := by
  have key :=
    foldl_preserve (chooseBestLayoutStep product carton maxQuantity)
      (fun acc => ∀ l o' s', acc = some (l, o', s') → 0 < l.itemsPacked)
      (getAllOrientations product) none
      (by intro l o' s' h; cases h)
      (fun b a hb => chooseBestLayoutStep_preserve product carton maxQuantity b a hb)
  exact key layout o s h

theorem packProductInCarton_itemsPacked_pos (product : Product) (carton : Carton)
    (maxQuantity : ℕ) (r : PackingResult)
    (h : packProductInCarton product carton maxQuantity = some r) :
    0 < r.itemsPacked := by
  unfold packProductInCarton at h
  split at h
  · cases h
  · cases hc : chooseBestLayout product carton maxQuantity with
    | none => rw [hc] at h; cases h
    | some y =>
      obtain ⟨layout, o, s⟩ := y
      rw [hc] at h
      cases h
      exact chooseBestLayout_itemsPacked_pos product carton maxQuantity layout o s hc

theorem packWithGuillotineConstraints_itemsPacked_pos (product : Product)
    (carton : Carton) (maxQuantity : ℕ) (r : PackingResult)
    (h : packWithGuillotineConstraints product carton maxQuantity = some r) :
    0 < r.itemsPacked := by
  unfold packWithGuillotineConstraints at h
  cases hp : packProductInCarton product carton maxQuantity with
  | none => rw [hp] at h; cases h
  | some r0 =>
    rw [hp] at h
    cases h
    exact packProductInCarton_itemsPacked_pos product carton maxQuantity r0 hp

theorem tryPackAt_itemsPacked_pos (product : Product) (state : List Carton)
    (remaining i : ℕ) (x : ℕ × PackingResult)
    (h : tryPackAt product state remaining i = some x) : 0 < x.2.itemsPacked := by
  unfold tryPackAt at h
  split at h
  · cases h
  next carton hget =>
    split at h
    next havail =>
      split at h
      next r hpack =>
        split at h
        next hpos => cases h; simpa using hpos
        next hpos => cases h
      next hpack => cases h
    next havail => cases h

theorem ffdSelect_itemsPacked_pos (sortedIdx : List ℕ) (product : Product)
    (state : List Carton) (remaining : ℕ) (x : ℕ × PackingResult)
    (h : ffdSelect sortedIdx product state remaining = some x) :
    0 < x.2.itemsPacked := by
  unfold ffdSelect at h
  induction sortedIdx with
  | nil => simp [List.findSome?] at h
  | cons i rest ih =>
    rw [List.findSome?_cons] at h
    cases ht : tryPackAt product state remaining i with
    | none => rw [ht] at h; exact ih h
    | some y =>
      rw [ht] at h
      cases h
      exact tryPackAt_itemsPacked_pos product state remaining i _ ht

theorem bfdStep_preserve (product : Product) (remaining : ℕ)
    (best : Option (ℚ × ℕ × PackingResult)) (a : ℕ × Carton)
    (hb : ∀ s i r, best = some (s, i, r) → 0 < r.itemsPacked) :
    ∀ s i r, bfdStep product remaining best a = some (s, i, r) → 0 < r.itemsPacked := by
  intro s i r h
  unfold bfdStep at h
  split at h
  · split at h
    next r0 heq =>
      split at h
      next hpos =>
        simp only [] at h
        split at h
        · cases h; exact hpos
        · split at h
          · cases h; exact hpos
          · cases h; exact hb _ _ _ rfl
      next hpos => exact hb _ _ _ h
    next heq => exact hb _ _ _ h
  · exact hb _ _ _ h

theorem bfdSelect_itemsPacked_pos (product : Product) (state : List Carton)
    (remaining : ℕ) (x : ℕ × PackingResult)
    (h : bfdSelect product state remaining = some x) : 0 < x.2.itemsPacked := by
  unfold bfdSelect at h
  rw [Option.map_eq_some'] at h
  obtain ⟨y, hy, hval⟩ := h
  obtain ⟨sy, iy, ry⟩ := y
  have key :=
    foldl_preserve (bfdStep product remaining)
      (fun acc => ∀ s i r, acc = some (s, i, r) → 0 < r.itemsPacked)
      state.enum none (by intro s i r h; cases h)
      (fun b a hb => bfdStep_preserve product remaining b a hb)
  have := key sy iy ry hy
  cases hval
  simpa using this

theorem guillotineStep_preserve (product : Product) (remaining : ℕ)
    (best : Option (ℕ × PackingResult)) (a : ℕ × Carton)
    (hb : ∀ z, best = some z → 0 < z.2.itemsPacked) :
    ∀ z, guillotineStep product remaining best a = some z → 0 < z.2.itemsPacked := by
  intro z h
  unfold guillotineStep at h
  split at h
  · split at h
    next r heq =>
      split at h
      · cases h
        exact packWithGuillotineConstraints_itemsPacked_pos product a.2 remaining r heq
      · split at h
        · cases h
          exact packWithGuillotineConstraints_itemsPacked_pos product a.2 remaining r heq
        · cases h; exact hb _ rfl
    next heq => exact hb _ h
  · exact hb _ h

theorem guillotineSelect_itemsPacked_pos (product : Product) (state : List Carton)
    (remaining : ℕ) (x : ℕ × PackingResult)
    (h : guillotineSelect product state remaining = some x) : 0 < x.2.itemsPacked := by
  unfold guillotineSelect at h
  exact
    foldl_preserve (guillotineStep product remaining)
      (fun acc => ∀ z, acc = some z → 0 < z.2.itemsPacked)
      state.enum none (by intro z h; cases h)
      (fun b a hb => guillotineStep_preserve product remaining b a hb) x h

/-! ## The strategy loops -/

/-- The `while (remainingQuantity > 0)` loop shared by the three strategies
(lines 408–426, 444–467, 480–500): pick a placement via `select`; if none
exists, stop; otherwise record it, decrement the chosen carton's availability
and continue with the reduced remaining quantity.  Termination: every
selected placement packs at least one item. -/
def packLoop (select : List Carton → ℕ → Option (ℕ × PackingResult))
    (hsel : ∀ s q x, select s q = some x → 0 < x.2.itemsPacked)
    (state : List Carton) (remaining : ℕ) :
    List (ℕ × PackingResult) × List Carton :=
  if h : 0 < remaining then
    match hx : select state remaining with
    | none => ([], state)
    | some x =>
      let next := packLoop select hsel (decrementAt state x.1)
        (remaining - x.2.itemsPacked)
      (x :: next.1, next.2)
  else ([], state)
termination_by remaining
decreasing_by exact Nat.sub_lt h (hsel _ _ _ hx)

/-- The outer per-product loop shared by the strategies: products are
processed in their (already sorted) order, threading the working catalog. -/
def runStrategyLoop (select : Product → List Carton → ℕ → Option (ℕ × PackingResult))
    (hsel : ∀ p s q x, select p s q = some x → 0 < x.2.itemsPacked)
    (products : List Product) (state : List Carton) :
    List (ℕ × PackingResult) × List Carton :=
  match products with
  | [] => ([], state)
  | p :: rest =>
    let x := packLoop (select p) (hsel p) state p.quantity
    let y := runStrategyLoop select hsel rest x.2
    (x.1 ++ y.1, y.2)

/-- `firstFitDecreasing` (lines 394–430).  The carton ranking is computed
once, before any product is processed. -/
def firstFitDecreasing (products : List Product) (cartons : List Carton) :
    List (ℕ × PackingResult) × List Carton :=
  let sortedProducts := sortProductsByPriorityVolume products
  let sortedIdx := (sortCartonsByPriority cartons).map Prod.fst
  runStrategyLoop (fun p => ffdSelect sortedIdx p)
    (fun p => ffdSelect_itemsPacked_pos sortedIdx p) sortedProducts cartons

/-- `bestFitDecreasing` (lines 433–470). -/
def bestFitDecreasing (products : List Product) (cartons : List Carton) :
    List (ℕ × PackingResult) × List Carton :=
  runStrategyLoop bfdSelect bfdSelect_itemsPacked_pos
    (sortProductsByPriorityVolume products) cartons

/-- `packWithGuillotine` (lines 473–503). -/
def packWithGuillotine (products : List Product) (cartons : List Carton) :
    List (ℕ × PackingResult) × List Carton :=
  runStrategyLoop guillotineSelect guillotineSelect_itemsPacked_pos
    (sortProductsByVolume products) cartons

/-- `enhancedBasicPacking` (lines 811–814): delegates to FFD. -/
def enhancedBasicPacking (products : List Product) (cartons : List Carton)
    (_method : ℕ) : List (ℕ × PackingResult) × List Carton :=
  firstFitDecreasing products cartons

/-- `packWithSkyline` (lines 506–510): delegates to `enhancedBasicPacking`. -/
def packWithSkyline (products : List Product) (cartons : List Carton) :
    List (ℕ × PackingResult) × List Carton :=
  enhancedBasicPacking products cartons 0

/-- `basicPacking` (lines 806–809): the fallback, delegating to FFD. -/
def basicPacking (products : List Product) (cartons : List Carton) :
    List (ℕ × PackingResult) × List Carton :=
  firstFitDecreasing products cartons

/-- `evaluatePackingQuality` (lines 795–803); the `-Infinity` for an empty
result list is modelled by `none`. -/
def evaluatePackingQuality (results : List (ℕ × PackingResult)) : Option ℚ :=
  match results with
  | [] => none
  | _ =>
    let totalItems : ℚ := results.foldl (fun s r => s + (r.2.itemsPacked : ℚ)) 0
    let totalCost : ℚ := results.foldl (fun s r => s + r.2.cost) 0
    let avgEfficiency :=
      (results.foldl (fun s r => s + r.2.efficiency.volumeEfficiency) 0) /
        (results.length : ℚ)
    some (totalItems * 100 - totalCost - (1 - avgEfficiency) * 50)

/-- One iteration of the algorithm comparison loop of `hybridPacking`
(lines 376–388): keep the candidate iff its quality score is strictly
greater than the best score so far (`none` models `-Infinity`). -/
def updateBest (best : Option (ℚ × List (ℕ × PackingResult))) (score : Option ℚ)
    (result : List (ℕ × PackingResult)) : Option (ℚ × List (ℕ × PackingResult)) :=
  match score, best with
  | none, acc => acc
  | some q, none => some (q, result)
  | some q, some (bq, br) => if bq < q then some (q, result) else some (bq, br)

/-- `hybridPacking` (lines 368–391): run FFD, BFD and the guillotine variant
in that order — on the same working catalog, each starting from the state the
previous run left — keep the result with the strictly highest quality score,
and fall back to `basicPacking` when every run came back empty. -/
def hybridPacking (products : List Product) (cartons : List Carton) :
    List (ℕ × PackingResult) × List Carton :=
  let f := firstFitDecreasing products cartons
  let b := bestFitDecreasing products f.2
  let g := packWithGuillotine products b.2
  let best1 := updateBest none (evaluatePackingQuality f.1) f.1
  let best2 := updateBest best1 (evaluatePackingQuality b.1) b.1
  let best3 := updateBest best2 (evaluatePackingQuality g.1) g.1
  match best3 with
  | some y => (y.2, g.2)
  | none => basicPacking products g.2

/-- The algorithm selector strings of `packItems` (lines 351–365). -/
inductive Algorithm where
  | ffd
  | bfd
  | guillotine
  | skyline
  | hybrid
deriving DecidableEq, Repr

/-- `packItems` (lines 351–365). -/
def packItems (products : List Product) (cartons : List Carton)
    (algorithm : Algorithm) : List (ℕ × PackingResult) × List Carton :=
  match algorithm with
  | .ffd => firstFitDecreasing products cartons
  | .bfd => bestFitDecreasing products cartons
  | .guillotine => packWithGuillotine products cartons
  | .skyline => packWithSkyline products cartons
  | .hybrid => hybridPacking products cartons

end ShipWise

namespace ShipWise

/-! ## The engine output (`calculateOptimalPacking`, lines 827–1049)

Fields of the source output that merely repeat other fields of the same
record (`orientation` label, `orientationDetails`, `arrangementPattern`, the
copied `stackingInfo`) are stored once; string-valued fields are numeric
identifiers. -/

/-- The `cartonDetails` snapshot of a placement (lines 866–876). -/
structure CartonDetails where
  id : ℕ
  name : ℕ
  length : ℚ
  breadth : ℚ
  height : ℚ
  maxWeight : ℚ
  volume : ℚ
  cost : ℚ
  priority : ℚ
deriving DecidableEq, Repr

/-- Lines 866–876. -/
def mkCartonDetails (c : Carton) : CartonDetails :=
  { id := c.id
  , name := c.name
  , length := c.length
  , breadth := c.breadth
  , height := c.height
  , maxWeight := c.maxWeight
  , volume := c.volume
  , cost := c.cost
  , priority := c.priority }

/-- The `cost.breakdown` of a placement (lines 901–906). -/
structure CostBreakdown where
  cartonCost : ℚ
  shippingCost : ℚ
  inefficiencyPenalty : ℚ
  fragilityPenalty : ℚ
deriving DecidableEq, Repr

/-- The `cost` block of a placement (lines 899–907). -/
structure PlacementCost where
  total : ℚ
  breakdown : CostBreakdown
deriving DecidableEq, Repr

/-- The `layout` block of a placement (lines 889–894); `arrangement.layers`
repeats `layers`. -/
structure PlacementLayout where
  lengthwise : ℕ
  breadthwise : ℕ
  layers : ℕ
  itemsPerLayer : ℕ
  centerOfMass : Position3D
deriving DecidableEq, Repr

/-- The `packingMetrics` block of a placement (lines 929–934);
`spaceOptimality` is `true` for the source's `'Good'`. -/
structure PackingMetrics where
  cartonUtilization : ℚ
  wasteSpace : ℚ
  weightUtilized : ℚ
  spaceOptimality : Bool
deriving DecidableEq, Repr

/-- One entry of `packingResults` (lines 862–938). -/
structure Placement where
  productId : ℕ
  productName : ℕ
  cartonId : ℕ
  cartonDetails : CartonDetails
  itemsPacked : ℕ
  orientationIndex : ℕ
  efficiency : Efficiency
  layout : PlacementLayout
  stackingInfo : StackingInfo
  cost : PlacementCost
  packingMetrics : PackingMetrics
  packingOrder : ℕ
  timestamp : ℕ
deriving DecidableEq, Repr

/-- Build one `packingResults` entry (lines 862–938).  `timestamp` models
`new Date().toISOString()` via the clock argument. -/
def mkPlacement (now : ℕ) (packingOrder : ℕ) (product : Product)
    (r : PackingResult) : Placement :=
  { productId := product.id
  , productName := product.name
  , cartonId := r.carton.id
  , cartonDetails := mkCartonDetails r.carton
  , itemsPacked := r.itemsPacked
  , orientationIndex := r.orientationIndex
  , efficiency :=
      { volumeEfficiency := jsRound (r.efficiency.volumeEfficiency * 1000) / 10
      , spaceUtilization := jsRound (r.efficiency.spaceUtilization * 1000) / 10
      , weightUtilization := jsRound (r.efficiency.weightUtilization * 1000) / 10 }
  , layout :=
      { lengthwise := r.layout.lengthwise
      , breadthwise := r.layout.breadthwise
      , layers := r.layout.layers
      , itemsPerLayer := r.layout.itemsPerLayer
      , centerOfMass := r.layout.centerOfMass }
  , stackingInfo := r.layout.stackingInfo
  , cost :=
      { total := jsRound (r.cost * 100) / 100
      , breakdown :=
          { cartonCost := r.carton.cost
          , shippingCost := r.carton.shippingCost
          , inefficiencyPenalty :=
              jsRound ((1 - r.efficiency.spaceUtilization) * r.carton.cost * 0.5 * 100) /
                100
          , fragilityPenalty :=
              if product.isFragile ∧ 2 < r.layout.layers then
                jsRound (product.damageCost * 0.1 * 100) / 100
              else 0 } }
  , packingMetrics :=
      { cartonUtilization := jsRound (r.efficiency.spaceUtilization * 100) / 100
      , wasteSpace :=
          jsRound ((r.carton.volume - (r.layout.itemsPacked : ℚ) * product.volume) * 100) /
            100
      , weightUtilized :=
          jsRound ((r.itemsPacked : ℚ) * product.weight / r.carton.maxWeight * 1000) / 10
      , spaceOptimality := decide (1 < r.layout.itemsPerLayer) }
  , packingOrder := packingOrder
  , timestamp := now }

/-- One entry of `unpackedProducts` (lines 953–958); the reason string is a
fixed message. -/
structure UnpackedProduct where
  productId : ℕ
  productName : ℕ
  remainingQuantity : ℤ
deriving DecidableEq, Repr

/-- One entry of the carton type breakdown (lines 979–1002), keyed by the
dimension triple of the `L×B×H` key string. -/
structure CartonTypeAnalysis where
  keyLength : ℚ
  keyBreadth : ℚ
  keyHeight : ℚ
  count : ℕ
  totalItems : ℕ
  totalCost : ℚ
  avgEfficiency : ℚ
  cartonDetails : CartonDetails
  avgCostPerCarton : ℚ
deriving DecidableEq, Repr

/-- Accumulate one placement into the carton type analysis (lines 980–996):
new keys are appended in insertion order, as for a JS object. -/
def updateCartonTypeAnalysis (acc : List CartonTypeAnalysis) (pl : Placement) :
    List CartonTypeAnalysis :=
  let d := pl.cartonDetails
  if acc.any (fun a => a.keyLength = d.length ∧ a.keyBreadth = d.breadth ∧
      a.keyHeight = d.height) then
    acc.map (fun a =>
      if a.keyLength = d.length ∧ a.keyBreadth = d.breadth ∧ a.keyHeight = d.height then
        { a with
          count := a.count + 1
        , totalItems := a.totalItems + pl.itemsPacked
        , totalCost := a.totalCost + pl.cost.total
        , avgEfficiency := a.avgEfficiency + pl.efficiency.volumeEfficiency }
      else a)
  else
    acc ++
      [{ keyLength := d.length
       , keyBreadth := d.breadth
       , keyHeight := d.height
       , count := 1
       , totalItems := pl.itemsPacked
       , totalCost := pl.cost.total
       , avgEfficiency := pl.efficiency.volumeEfficiency
       , cartonDetails := d
       , avgCostPerCarton := 0 }]

/-- The averaging pass over the carton type analysis (lines 999–1002). -/
def finalizeCartonTypeAnalysis (acc : List CartonTypeAnalysis) :
    List CartonTypeAnalysis :=
  acc.map (fun a =>
    { a with
      avgEfficiency := jsRound (a.avgEfficiency / (a.count : ℚ) * 10) / 10
    , avgCostPerCarton := jsRound (a.totalCost / (a.count : ℚ) * 100) / 100 })

/-- `calculateOverallPackingScore` (lines 1052–1060). -/
def calculateOverallPackingScore (results : List Placement) : ℚ :=
  match results with
  | [] => 0
  | _ =>
    let n : ℚ := (results.length : ℚ)
    let avgVolumeEfficiency := (results.map (fun r => r.efficiency.volumeEfficiency)).sum / n
    let avgSpaceUtilization := (results.map (fun r => r.efficiency.spaceUtilization)).sum / n
    let costEfficiency := (results.map (fun r => 1 / (r.cost.total + 1))).sum / n
    jsRound ((avgVolumeEfficiency * 0.4 + avgSpaceUtilization * 0.4 +
      costEfficiency * 0.2) * 100) / 100

/-- The waste analysis block (lines 1062–1072). -/
structure WasteAnalysis where
  totalWasteVolume : ℚ
  totalCartonVolume : ℚ
  wastePercentage : ℚ
  avgWastePerCarton : ℚ
deriving DecidableEq, Repr

/-- `calculateWasteAnalysis` (lines 1062–1072). -/
def calculateWasteAnalysis (results : List Placement) : WasteAnalysis :=
  let totalCartonVolume := (results.map (fun r => r.cartonDetails.volume)).sum
  let totalWasteVolume := (results.map (fun r => r.packingMetrics.wasteSpace)).sum
  { totalWasteVolume := jsRound (totalWasteVolume * 100) / 100
  , totalCartonVolume := jsRound (totalCartonVolume * 100) / 100
  , wastePercentage :=
      if 0 < totalCartonVolume then jsRound (totalWasteVolume / totalCartonVolume * 1000) / 10
      else 0
  , avgWastePerCarton :=
      if results.length ≠ 0 then jsRound (totalWasteVolume / (results.length : ℚ) * 100) / 100
      else 0 }

/-- The stacking analysis block (lines 1074–1087). -/
structure StackingAnalysis where
  totalStackedCartons : ℕ
  totalSingleLayerCartons : ℕ
  avgStackLayers : ℚ
  stackingEfficiencyGain : ℚ
  fragileItemsStacked : ℕ
deriving DecidableEq, Repr

/-- `calculateStackingEfficiencyGain` (lines 1089–1098). -/
def calculateStackingEfficiencyGain (stackedResults singleLayerResults : List Placement) :
    ℚ :=
  match stackedResults with
  | [] => 0
  | _ =>
    let avgStackedEfficiency :=
      (stackedResults.map (fun r => r.efficiency.volumeEfficiency)).sum /
        (stackedResults.length : ℚ)
    let avgSingleLayerEfficiency :=
      match singleLayerResults with
      | [] => avgStackedEfficiency
      | _ =>
          (singleLayerResults.map (fun r => r.efficiency.volumeEfficiency)).sum /
            (singleLayerResults.length : ℚ)
    jsRound ((avgStackedEfficiency - avgSingleLayerEfficiency) * 100) / 100

/-- `calculateStackingAnalysis` (lines 1074–1087). -/
def calculateStackingAnalysis (results : List Placement) : StackingAnalysis :=
  let stackingResults := results.filter (fun r => 1 < r.stackingInfo.totalLayers)
  let singleLayerResults := results.filter (fun r => r.stackingInfo.totalLayers = 1)
  { totalStackedCartons := stackingResults.length
  , totalSingleLayerCartons := singleLayerResults.length
  , avgStackLayers :=
      match stackingResults with
      | [] => 0
      | _ =>
        jsRound ((stackingResults.map (fun r => (r.stackingInfo.totalLayers : ℚ))).sum /
          (stackingResults.length : ℚ) * 10) / 10
  , stackingEfficiencyGain :=
      calculateStackingEfficiencyGain stackingResults singleLayerResults
  , fragileItemsStacked :=
      (stackingResults.filter (fun r => r.stackingInfo.isFragileStacking)).length }

/-- A recommendation (lines 1100–1147): `rtype` 0 = COST_OPTIMIZATION,
1 = EFFICIENCY_IMPROVEMENT, 2 = CAPACITY_SHORTAGE, 3 = STACKING_OPTIMIZATION;
`priorityHigh` models `priority: 'HIGH'`. -/
structure Recommendation where
  rtype : ℕ
  priorityHigh : Bool
  affectedCartons : List ℕ
deriving DecidableEq, Repr

/-- `generatePackingRecommendations` (lines 1100–1147); the `cartons`
parameter is unused in the source body. -/
def generatePackingRecommendations (results : List Placement)
    (unpackedProducts : List UnpackedProduct) (_cartons : List Carton) :
    List Recommendation :=
  let avgCost := (results.map (fun r => r.cost.total)).sum / (results.length : ℚ)
  let highCostResults := results.filter (fun r => avgCost < r.cost.total)
  let recs1 : List Recommendation :=
    if highCostResults.length ≠ 0 then
      [⟨0, true, highCostResults.map (fun r => r.cartonId)⟩]
    else []
  let lowEfficiencyResults := results.filter (fun r => r.efficiency.volumeEfficiency < 60)
  let recs2 : List Recommendation :=
    if lowEfficiencyResults.length ≠ 0 then
      [⟨1, false, lowEfficiencyResults.map (fun r => r.cartonId)⟩]
    else []
  let recs3 : List Recommendation :=
    if unpackedProducts.length ≠ 0 then [⟨2, true, []⟩] else []
  let singleLayerResults := results.filter (fun r => r.stackingInfo.totalLayers = 1)
  let recs4 : List Recommendation :=
    if (results.length : ℚ) * 0.3 < (singleLayerResults.length : ℚ) then
      [⟨3, false, singleLayerResults.map (fun r => r.cartonId)⟩]
    else []
  recs1 ++ recs2 ++ recs3 ++ recs4

/-- The carbon footprint block (lines 1149–1164). -/
structure CarbonFootprint where
  totalFootprint : ℚ
  volumeComponent : ℚ
  weightComponent : ℚ
deriving DecidableEq, Repr

/-- `estimateCarbonFootprint` (lines 1149–1164). -/
def estimateCarbonFootprint (results : List Placement) : CarbonFootprint :=
  let totalVolume := (results.map (fun r => r.cartonDetails.volume)).sum
  let totalWeight := (results.map (fun r => (r.itemsPacked : ℚ) * 0.5)).sum
  let volumeFootprint := totalVolume * 0.0001
  let weightFootprint := totalWeight * 0.05
  { totalFootprint := jsRound ((volumeFootprint + weightFootprint) * 100) / 100
  , volumeComponent := jsRound (volumeFootprint * 100) / 100
  , weightComponent := jsRound (weightFootprint * 100) / 100 }

/-- The `sustainability` block (lines 1013–1017). -/
structure Sustainability where
  totalWasteVolume : ℚ
  packingDensity : ℚ
  carbonFootprint : CarbonFootprint
deriving DecidableEq, Repr

/-- The `packingQuality` block (lines 1006–1011). -/
structure PackingQuality where
  overallScore : ℚ
  wasteAnalysis : WasteAnalysis
  stackingAnalysis : StackingAnalysis
  costEfficiency : ℚ
deriving DecidableEq, Repr

/-- The `analytics` block (lines 1005–1018). -/
structure Analytics where
  packingQuality : PackingQuality
  recommendations : List Recommendation
  sustainability : Sustainability
deriving DecidableEq, Repr

/-- The summary block (lines 1024–1041); the `optimizationApplied` flags are
the (constant) option defaults of the engine call path. -/
structure Summary where
  totalItemsRequested : ℕ
  totalItemsPacked : ℕ
  totalCartonsUsed : ℕ
  packingSuccess : Bool
  packingRate : ℚ
  overallVolumeEfficiency : ℚ
  totalCost : ℚ
  cartonTypeBreakdown : List CartonTypeAnalysis
  algorithmUsed : Algorithm
deriving DecidableEq, Repr

/-- The `metadata` block (lines 1043–1047); `version` and `features` are
constants, `calculationTime` is `Date.now()`. -/
structure Metadata where
  calculationTime : ℕ
deriving DecidableEq, Repr

/-- The full return value of `calculateOptimalPacking` (lines 1020–1048). -/
structure EngineOutput where
  packingResults : List Placement
  unpackedProducts : List UnpackedProduct
  remainingQuantity : ℤ
  summary : Summary
  analytics : Analytics
  metadata : Metadata
deriving DecidableEq, Repr

end ShipWise

namespace ShipWise

/-- One step of the inner result loop of the engine (lines 860–948): emit a
placement for a strategy result that packed anything, subtract its items from
the product's remaining quantity, and decrement the working availability
(again) for the first working carton with the placement's carton id.  All
placements of one product share the packing order `allResults.length + 1`
observed before the product was processed. -/
def processStep (now : ℕ) (prevCount : ℕ) (product : Product)
    (acc : List Placement × ℤ × List Carton) (r : PackingResult) :
    List Placement × ℤ × List Carton :=
  if 0 < r.itemsPacked then
    let pl := mkPlacement now (prevCount + 1) product r
    let working' :=
      match acc.2.2.findIdx? (fun c => c.id = r.carton.id) with
      | some ci => decrementAt acc.2.2 ci
      | none => acc.2.2
    (acc.1 ++ [pl], acc.2.1 - (r.itemsPacked : ℤ), working')
  else acc

/-- The inner result loop of the engine for one product (lines 860–948). -/
def processPackingResults (now : ℕ) (prevCount : ℕ) (product : Product)
    (rs : List PackingResult) (working : List Carton) :
    List Placement × ℤ × List Carton :=
  rs.foldl (processStep now prevCount product) ([], (product.quantity : ℤ), working)

/-- The per-product loop of the engine (lines 853–960): run the selected
algorithm on the current working catalog for each product in turn, collect
the placements and the unpacked remainders. -/
def engineProductLoop (now : ℕ) (algorithm : Algorithm) (products : List Product)
    (allResults : List Placement) (unpacked : List UnpackedProduct)
    (working : List Carton) :
    List Placement × List UnpackedProduct × List Carton :=
  match products with
  | [] => (allResults, unpacked, working)
  | product :: rest =>
    let remainingQuantity0 := product.quantity
    let packed := packItems [{ product with quantity := remainingQuantity0 }]
      working algorithm
    let processed := processPackingResults now allResults.length product
      (packed.1.map Prod.snd) packed.2
    let allResults' := allResults ++ processed.1
    let unpacked' :=
      if 0 < processed.2.1 then
        unpacked ++ [⟨product.id, product.name, processed.2.1⟩]
      else unpacked
    engineProductLoop now algorithm rest allResults' unpacked' processed.2.2

/-- The `avgVolumeEfficiency` accumulator of the summary (lines 1030–1033):
0 for an empty result list, else the mean of the placements' volume
efficiencies. -/
def avgVolumeEff (results : List Placement) : ℚ :=
  match results with
  | [] => 0
  | _ => (results.map (fun r => r.efficiency.volumeEfficiency)).sum /
      (results.length : ℚ)

/-- The engine's working catalog (`availableQuantity || 1`, line 846). -/
def initWorkingCartons (cartons : List Carton) : List Carton :=
  cartons.map (fun c =>
    if c.availableQuantity = 0 then { c with availableQuantity := 1 } else c)

/-- `calculateOptimalPacking` (lines 827–1049).  `now` models the wall clock
(`Date.now()` / `toISOString()`).  Note the working copy initialisation
`availableQuantity || 1` maps an availability of 0 to 1 (line 846). -/
def calculateOptimalPacking (now : ℕ) (products : List Product)
    (cartons : List Carton) (algorithm : Algorithm) : EngineOutput :=
  let workingCartons := initWorkingCartons cartons
  let loopOut := engineProductLoop now algorithm products [] [] workingCartons
  let allResults := loopOut.1
  let unpackedProducts := loopOut.2.1
  let totalItemsPacked : ℕ := (allResults.map (fun r => r.itemsPacked)).sum
  let totalRequestedItems : ℕ := (products.map (fun p => p.quantity)).sum
  let totalCartonsUsed := allResults.length
  let totalCost := (allResults.map (fun r => r.cost.total)).sum
  let avgVolumeEfficiency := avgVolumeEff allResults
  let cartonTypeBreakdown :=
    finalizeCartonTypeAnalysis (allResults.foldl updateCartonTypeAnalysis [])
  { packingResults := allResults
  , unpackedProducts := unpackedProducts
  , remainingQuantity := (totalRequestedItems : ℤ) - (totalItemsPacked : ℤ)
  , summary :=
      { totalItemsRequested := totalRequestedItems
      , totalItemsPacked := totalItemsPacked
      , totalCartonsUsed := totalCartonsUsed
      , packingSuccess := unpackedProducts.isEmpty
      , packingRate :=
          jsRound ((totalItemsPacked : ℚ) / (totalRequestedItems : ℚ) * 1000) / 10
      , overallVolumeEfficiency := jsRound (avgVolumeEfficiency * 10) / 10
      , totalCost := jsRound (totalCost * 100) / 100
      , cartonTypeBreakdown := cartonTypeBreakdown
      , algorithmUsed := algorithm }
  , analytics :=
      { packingQuality :=
          { overallScore := calculateOverallPackingScore allResults
          , wasteAnalysis := calculateWasteAnalysis allResults
          , stackingAnalysis := calculateStackingAnalysis allResults
          , costEfficiency :=
              if 0 < totalItemsPacked then
                jsRound (totalCost / (totalItemsPacked : ℚ) * 100) / 100
              else 0 }
      , recommendations :=
          generatePackingRecommendations allResults unpackedProducts cartons
      , sustainability :=
          { totalWasteVolume :=
              (allResults.map (fun r => r.packingMetrics.wasteSpace)).sum
          , packingDensity :=
              if 0 < totalItemsPacked then
                (allResults.length : ℚ) / (totalItemsPacked : ℚ)
              else 0
          , carbonFootprint := estimateCarbonFootprint allResults } }
  , metadata := { calculationTime := now } }

end ShipWise

namespace ShipWise

/-! ## Accounting helpers for the verification (not part of the source) -/

/-- Availability counter at position `j` of a working catalog (0 when out of
range). -/
def availAt (s : List Carton) (j : ℕ) : ℤ :=
  match s.get? j with
  | some c => c.availableQuantity
  | none => 0

/-- How many placements of a strategy run consumed the carton at position
`j`. -/
def usesAt (rs : List (ℕ × PackingResult)) (j : ℕ) : ℕ :=
  (rs.filter (fun x => x.1 = j)).length

/-- Total items packed over a strategy result list. -/
def sumItems (rs : List (ℕ × PackingResult)) : ℕ :=
  (rs.map (fun x => x.2.itemsPacked)).sum

theorem sumItems_nil : sumItems [] = 0 := rfl

theorem sumItems_cons (x : ℕ × PackingResult) (rs : List (ℕ × PackingResult)) :
    sumItems (x :: rs) = x.2.itemsPacked + sumItems rs := by
  simp [sumItems]

theorem usesAt_nil (j : ℕ) : usesAt [] j = 0 := rfl

theorem usesAt_cons (x : ℕ × PackingResult) (rs : List (ℕ × PackingResult)) (j : ℕ) :
    usesAt (x :: rs) j = (if x.1 = j then 1 else 0) + usesAt rs j := by
  simp only [usesAt, List.filter_cons]
  split
  next h => simp_all [List.length_cons, Nat.add_comm]
  next h => simp_all

theorem decrementAt_length (s : List Carton) (i : ℕ) :
    (decrementAt s i).length = s.length := by
  unfold decrementAt
  cases s.get? i <;> simp

theorem decrementAt_map_id (s : List Carton) (i : ℕ) :
    (decrementAt s i).map (fun c => c.id) = s.map (fun c => c.id) := by
  unfold decrementAt
  cases hg : s.get? i with
  | none => rfl
  | some c =>
    refine List.ext_get? (fun n => ?_)
    rw [List.map_set]
    by_cases hn : i = n
    · subst hn
      rw [List.get?_set_eq]
      have : (s.map (fun c => c.id)).get? i = some c.id := by
        rw [List.get?_map, hg]; rfl
      rw [this]
      rfl
    · rw [List.get?_set_ne _ _ hn]

theorem availAt_decrementAt_self (s : List Carton) (i : ℕ) (c : Carton)
    (hg : s.get? i = some c) :
    availAt (decrementAt s i) i = c.availableQuantity - 1 := by
  unfold decrementAt availAt
  rw [hg]
  simp only [List.get?_set_eq, hg]
  rfl

theorem availAt_decrementAt_ne (s : List Carton) (i j : ℕ) (hne : i ≠ j) :
    availAt (decrementAt s i) j = availAt s j := by
  unfold decrementAt availAt
  cases hg : s.get? i with
  | none => rfl
  | some c => rw [List.get?_set_ne _ _ hne]

/-! ## Equation lemmas for `packLoop` -/

theorem packLoop_not_pos (select : List Carton → ℕ → Option (ℕ × PackingResult))
    (hsel : ∀ s q x, select s q = some x → 0 < x.2.itemsPacked)
    (state : List Carton) (q : ℕ) (h : ¬0 < q) :
    packLoop select hsel state q = ([], state) := by
  rw [packLoop]
  simp [h]

theorem packLoop_select_none (select : List Carton → ℕ → Option (ℕ × PackingResult))
    (hsel : ∀ s q x, select s q = some x → 0 < x.2.itemsPacked)
    (state : List Carton) (q : ℕ) (h : 0 < q) (hn : select state q = none) :
    packLoop select hsel state q = ([], state) := by
  rw [packLoop]
  rw [dif_pos h]
  split
  · rfl
  next x heq => rw [hn] at heq; cases heq

theorem packLoop_select_some (select : List Carton → ℕ → Option (ℕ × PackingResult))
    (hsel : ∀ s q x, select s q = some x → 0 < x.2.itemsPacked)
    (state : List Carton) (q : ℕ) (x : ℕ × PackingResult) (h : 0 < q)
    (hs : select state q = some x) :
    packLoop select hsel state q =
      (x :: (packLoop select hsel (decrementAt state x.1) (q - x.2.itemsPacked)).1,
        (packLoop select hsel (decrementAt state x.1) (q - x.2.itemsPacked)).2) := by
  rw [packLoop]
  rw [dif_pos h]
  split
  next heq => rw [hs] at heq; cases heq
  next y heq =>
    rw [hs] at heq
    cases heq
    rfl

end ShipWise

namespace ShipWise

/-! ## Inversion lemmas for the Fit Calculator -/

theorem foldl_preserve_mem {α β : Type} (f : β → α → β) (P : β → Prop)
    (l : List α) (b : β) (hb : P b) (hf : ∀ b a, a ∈ l → P b → P (f b a)) :
    P (l.foldl f b) := by
  induction l generalizing b with
  | nil => exact hb
  | cons a t ih =>
    exact ih (f b a) (hf b a (List.mem_cons_self a t) hb)
      (fun b' a' ha' hb' => hf b' a' (List.mem_cons_of_mem _ ha') hb')

/-- Inversion of `calculateOptimal3DLayout`: a successful layout records
exactly the quantities of lines 562–605, and the orientation fits the
carton. -/
theorem calculateOptimal3DLayout_eq_some (product : Product) (carton : Carton)
    (o : Orientation) (maxQuantity : ℕ) (l : Layout)
    (h : calculateOptimal3DLayout product carton o maxQuantity = some l) :
    o.dims.1 ≤ carton.length ∧ o.dims.2.1 ≤ carton.breadth ∧
    o.dims.2.2 ≤ carton.height ∧
    l.itemsPerLayer = ⌊carton.length / o.dims.1⌋₊ * ⌊carton.breadth / o.dims.2.1⌋₊ ∧
    l.itemsPerLayer ≠ 0 ∧
    l.itemsPacked =
      min (min (l.itemsPerLayer * calculateMaxStackLayers product carton o.dims.2.2)
        ⌊carton.maxWeight / product.weight⌋₊) maxQuantity ∧
    l.itemsPacked ≠ 0 ∧
    l.layers = jsCeilDiv l.itemsPacked l.itemsPerLayer ∧
    l.packedItems = generate3DLayout product o ⌊carton.length / o.dims.1⌋₊
      ⌊carton.breadth / o.dims.2.1⌋₊ l.itemsPacked o.dims.1 o.dims.2.1 o.dims.2.2 ∧
    l.spaceUtilization = calculateSpaceUtilization l.packedItems carton := by
  unfold calculateOptimal3DLayout at h
  simp only [] at h
  split at h
  · cases h
  next hguard =>
    split at h
    · cases h
    next hlayer =>
      split at h
      · cases h
      next hactual =>
        push_neg at hguard
        obtain ⟨h1, h2, h3⟩ := hguard
        cases h
        exact ⟨h1, h2, h3, rfl, hlayer, rfl, hactual, rfl, rfl, rfl⟩

theorem layout_itemsPacked_le_maxQ (product : Product) (carton : Carton)
    (o : Orientation) (maxQuantity : ℕ) (l : Layout)
    (h : calculateOptimal3DLayout product carton o maxQuantity = some l) :
    l.itemsPacked ≤ maxQuantity := by
  obtain ⟨-, -, -, -, -, hitems, -, -, -, -⟩ :=
    calculateOptimal3DLayout_eq_some product carton o maxQuantity l h
  rw [hitems]
  exact min_le_right _ _

theorem jsCeilDiv_le (a b k : ℕ) (hb : 0 < b) (h : a ≤ k * b) : jsCeilDiv a b ≤ k := by
  unfold jsCeilDiv
  rw [Nat.ceil_le]
  rw [div_le_iff (by exact_mod_cast hb)]
  exact_mod_cast h

/-- A fragile product's effective layer cap is at most 3 (line 637). -/
theorem calculateMaxStackLayers_fragile_le (product : Product) (carton : Carton)
    (itemHeight : ℚ) (hfr : product.isFragile = true) :
    calculateMaxStackLayers product carton itemHeight ≤ 3 := by
  unfold calculateMaxStackLayers
  rw [hfr]
  simp only [if_true]
  omega

/-- A successful layout of a fragile product has at most 3 layers. -/
theorem layout_fragile_layers_le (product : Product) (carton : Carton)
    (o : Orientation) (maxQuantity : ℕ) (l : Layout)
    (hfr : product.isFragile = true)
    (h : calculateOptimal3DLayout product carton o maxQuantity = some l) :
    l.layers ≤ 3 := by
  obtain ⟨-, -, -, hper, hper0, hitems, -, hlayers, -, -⟩ :=
    calculateOptimal3DLayout_eq_some product carton o maxQuantity l h
  rw [hlayers]
  refine jsCeilDiv_le _ _ _ (Nat.pos_of_ne_zero hper0) ?_
  have hmsl : calculateMaxStackLayers product carton o.dims.2.2 ≤ 3 :=
    calculateMaxStackLayers_fragile_le product carton _ hfr
  calc l.itemsPacked
      ≤ l.itemsPerLayer * calculateMaxStackLayers product carton o.dims.2.2 := by
        rw [hitems]; exact le_trans (min_le_left _ _) (min_le_left _ _)
    _ ≤ l.itemsPerLayer * 3 := Nat.mul_le_mul_left _ hmsl
    _ = 3 * l.itemsPerLayer := Nat.mul_comm _ _

/-- Inversion of the orientation fold: the chosen layout comes from a listed
orientation, with its layout score. -/
theorem chooseBestLayout_mem (product : Product) (carton : Carton)
    (maxQuantity : ℕ) (l : Layout) (o : Orientation) (s : ℚ)
    (h : chooseBestLayout product carton maxQuantity = some (l, o, s)) :
    o ∈ getAllOrientations product ∧
    calculateOptimal3DLayout product carton o maxQuantity = some l ∧
    s = calculateLayoutScore l product carton := by
  have key :=
    foldl_preserve_mem (chooseBestLayoutStep product carton maxQuantity)
      (fun acc => ∀ l o' s', acc = some (l, o', s') →
        o' ∈ getAllOrientations product ∧
        calculateOptimal3DLayout product carton o' maxQuantity = some l ∧
        s' = calculateLayoutScore l product carton)
      (getAllOrientations product) none
      (by intro l o' s' h; cases h) ?_
  · exact key l o s h
  intro b a ha hb
  intro l' o' s' hstep
  unfold chooseBestLayoutStep at hstep
  split at hstep
  · exact hb _ _ _ hstep
  next layout heq =>
    split at hstep
    next hpos =>
      simp only [] at hstep
      split at hstep
      · cases hstep; exact ⟨ha, heq, rfl⟩
      · split at hstep
        · cases hstep; exact ⟨ha, heq, rfl⟩
        · exact hb _ _ _ hstep
    next hpos => exact hb _ _ _ hstep

/-- Inversion of `packProductInCarton`: a successful result is the record of
lines 539–551 for the layout chosen by the orientation fold. -/
theorem packProductInCarton_eq_some (product : Product) (carton : Carton)
    (maxQuantity : ℕ) (r : PackingResult)
    (h : packProductInCarton product carton maxQuantity = some r) :
    ∃ l o s, chooseBestLayout product carton maxQuantity = some (l, o, s) ∧
      r = { product := product
          , carton := carton
          , itemsPacked := l.itemsPacked
          , layout := l
          , orientationIndex := o.index
          , orientation := o
          , efficiency := calculateEfficiency l carton
          , wasteRatio := calculateWasteRatio l carton
          , cost := calculatePackingCost l product carton } := by
  unfold packProductInCarton at h
  split at h
  · cases h
  · cases hc : chooseBestLayout product carton maxQuantity with
    | none => rw [hc] at h; cases h
    | some y =>
      obtain ⟨l, o, s⟩ := y
      rw [hc] at h
      cases h
      exact ⟨l, o, s, rfl, rfl⟩

/-- `packWithGuillotineConstraints` coincides with `packProductInCarton`:
the waste ratio it re-attaches (line 820) is the value already computed at
line 547. -/
theorem packWithGuillotineConstraints_eq (product : Product) (carton : Carton)
    (maxQuantity : ℕ) :
    packWithGuillotineConstraints product carton maxQuantity =
      packProductInCarton product carton maxQuantity := by
  unfold packWithGuillotineConstraints
  cases hp : packProductInCarton product carton maxQuantity with
  | none => rfl
  | some r =>
    obtain ⟨l, o, s, hc, hr⟩ :=
      packProductInCarton_eq_some product carton maxQuantity r hp
    subst hr
    rfl

theorem packProductInCarton_product_eq (product : Product) (carton : Carton)
    (maxQuantity : ℕ) (r : PackingResult)
    (h : packProductInCarton product carton maxQuantity = some r) :
    r.product = product := by
  obtain ⟨l, o, s, hc, hr⟩ := packProductInCarton_eq_some product carton maxQuantity r h
  subst hr
  rfl

theorem packProductInCarton_carton_eq (product : Product) (carton : Carton)
    (maxQuantity : ℕ) (r : PackingResult)
    (h : packProductInCarton product carton maxQuantity = some r) :
    r.carton = carton := by
  obtain ⟨l, o, s, hc, hr⟩ := packProductInCarton_eq_some product carton maxQuantity r h
  subst hr
  rfl

theorem packProductInCarton_itemsPacked_le (product : Product) (carton : Carton)
    (maxQuantity : ℕ) (r : PackingResult)
    (h : packProductInCarton product carton maxQuantity = some r) :
    r.itemsPacked ≤ maxQuantity := by
  obtain ⟨l, o, s, hc, hr⟩ := packProductInCarton_eq_some product carton maxQuantity r h
  obtain ⟨-, hcalc, -⟩ := chooseBestLayout_mem product carton maxQuantity l o s hc
  subst hr
  exact layout_itemsPacked_le_maxQ product carton o maxQuantity l hcalc

/-- A fragile product is never given more than 3 layers by the Fit
Calculator. -/
theorem packProductInCarton_fragile_layers_le (product : Product) (carton : Carton)
    (maxQuantity : ℕ) (r : PackingResult) (hfr : product.isFragile = true)
    (h : packProductInCarton product carton maxQuantity = some r) :
    r.layout.layers ≤ 3 := by
  obtain ⟨l, o, s, hc, hr⟩ := packProductInCarton_eq_some product carton maxQuantity r h
  obtain ⟨-, hcalc, -⟩ := chooseBestLayout_mem product carton maxQuantity l o s hc
  subst hr
  exact layout_fragile_layers_le product carton o maxQuantity l hfr hcalc

end ShipWise

namespace ShipWise

/-! ## Inversion lemmas for the strategy selects -/

theorem tryPackAt_eq_some (product : Product) (state : List Carton)
    (remaining i : ℕ) (x : ℕ × PackingResult)
    (h : tryPackAt product state remaining i = some x) :
    x.1 = i ∧ ∃ c, state.get? i = some c ∧ 0 < c.availableQuantity ∧
      packProductInCarton product c remaining = some x.2 := by
  unfold tryPackAt at h
  split at h
  · cases h
  next carton hget =>
    split at h
    next havail =>
      split at h
      next r hpack =>
        split at h
        next hpos => cases h; exact ⟨rfl, carton, hget, havail, hpack⟩
        next hpos => cases h
      next hpack => cases h
    next havail => cases h

theorem ffdSelect_result (sortedIdx : List ℕ) (product : Product)
    (state : List Carton) (remaining : ℕ) (x : ℕ × PackingResult)
    (h : ffdSelect sortedIdx product state remaining = some x) :
    ∃ c, state.get? x.1 = some c ∧ 0 < c.availableQuantity ∧
      packProductInCarton product c remaining = some x.2 := by
  unfold ffdSelect at h
  induction sortedIdx with
  | nil => simp [List.findSome?] at h
  | cons i rest ih =>
    rw [List.findSome?_cons] at h
    cases ht : tryPackAt product state remaining i with
    | none => rw [ht] at h; exact ih h
    | some y =>
      rw [ht] at h
      cases h
      obtain ⟨hx1, c, hget, havail, hpack⟩ :=
        tryPackAt_eq_some product state remaining i x ht
      exact ⟨c, by rw [hx1]; exact hget, havail, hpack⟩

theorem bfdSelect_result (product : Product) (state : List Carton)
    (remaining : ℕ) (x : ℕ × PackingResult)
    (h : bfdSelect product state remaining = some x) :
    ∃ c, state.get? x.1 = some c ∧ 0 < c.availableQuantity ∧
      packProductInCarton product c remaining = some x.2 := by
  unfold bfdSelect at h
  rw [Option.map_eq_some'] at h
  obtain ⟨y, hy, hval⟩ := h
  obtain ⟨sy, iy, ry⟩ := y
  have key :=
    foldl_preserve_mem (bfdStep product remaining)
      (fun acc => ∀ s i r, acc = some (s, i, r) →
        ∃ c, state.get? i = some c ∧ 0 < c.availableQuantity ∧
          packProductInCarton product c remaining = some r)
      state.enum none (by intro s i r h; cases h) ?_
  · subst hval
    exact key sy iy ry hy
  intro b a ha hb
  intro s i r hstep
  unfold bfdStep at hstep
  split at hstep
  next havail =>
    split at hstep
    next r0 heq =>
      split at hstep
      next hpos =>
        simp only [] at hstep
        split at hstep
        · cases hstep
          exact ⟨a.2, List.mem_enum_iff_get?.mp ha, havail, heq⟩
        · split at hstep
          · cases hstep
            exact ⟨a.2, List.mem_enum_iff_get?.mp ha, havail, heq⟩
          · cases hstep; exact hb _ _ _ rfl
      next hpos => exact hb _ _ _ hstep
    next heq => exact hb _ _ _ hstep
  next havail => exact hb _ _ _ hstep

theorem guillotineSelect_result (product : Product) (state : List Carton)
    (remaining : ℕ) (x : ℕ × PackingResult)
    (h : guillotineSelect product state remaining = some x) :
    ∃ c, state.get? x.1 = some c ∧ 0 < c.availableQuantity ∧
      packProductInCarton product c remaining = some x.2 := by
  unfold guillotineSelect at h
  refine
    foldl_preserve_mem (guillotineStep product remaining)
      (fun acc => ∀ z, acc = some z →
        ∃ c, state.get? z.1 = some c ∧ 0 < c.availableQuantity ∧
          packProductInCarton product c remaining = some z.2)
      state.enum none (by intro z h; cases h) ?_ x h
  intro b a ha hb
  intro z hstep
  unfold guillotineStep at hstep
  rw [packWithGuillotineConstraints_eq] at hstep
  split at hstep
  next havail =>
    split at hstep
    next r heq =>
      split at hstep
      · cases hstep
        exact ⟨a.2, List.mem_enum_iff_get?.mp ha, havail, heq⟩
      · split at hstep
        · cases hstep
          exact ⟨a.2, List.mem_enum_iff_get?.mp ha, havail, heq⟩
        · cases hstep; exact hb _ rfl
    next heq => exact hb _ hstep
  next havail => exact hb _ hstep

end ShipWise

namespace ShipWise

/-! ## Invariants of `packLoop` -/

theorem packLoop_select_some_fst (select : List Carton → ℕ → Option (ℕ × PackingResult))
    (hsel : ∀ s q x, select s q = some x → 0 < x.2.itemsPacked)
    (state : List Carton) (q : ℕ) (x : ℕ × PackingResult) (h : 0 < q)
    (hs : select state q = some x) :
    (packLoop select hsel state q).1 =
      x :: (packLoop select hsel (decrementAt state x.1) (q - x.2.itemsPacked)).1 := by
  rw [packLoop_select_some select hsel state q x h hs]

theorem packLoop_select_some_snd (select : List Carton → ℕ → Option (ℕ × PackingResult))
    (hsel : ∀ s q x, select s q = some x → 0 < x.2.itemsPacked)
    (state : List Carton) (q : ℕ) (x : ℕ × PackingResult) (h : 0 < q)
    (hs : select state q = some x) :
    (packLoop select hsel state q).2 =
      (packLoop select hsel (decrementAt state x.1) (q - x.2.itemsPacked)).2 := by
  rw [packLoop_select_some select hsel state q x h hs]

/-- Conservation at the loop level: a strategy loop never packs more than the
requested remaining quantity. -/
theorem packLoop_sumItems_le (select : List Carton → ℕ → Option (ℕ × PackingResult))
    (hsel : ∀ s q x, select s q = some x → 0 < x.2.itemsPacked)
    (hle : ∀ s q x, select s q = some x → x.2.itemsPacked ≤ q) :
    ∀ q s, sumItems (packLoop select hsel s q).1 ≤ q := by
  intro q
  induction q using Nat.strong_induction_on with
  | _ q ih =>
    intro s
    by_cases h : 0 < q
    · cases hx : select s q with
      | none =>
        rw [packLoop_select_none select hsel s q h hx]
        simp [sumItems]
      | some x =>
        rw [packLoop_select_some_fst select hsel s q x h hx, sumItems_cons]
        have hlt : q - x.2.itemsPacked < q := Nat.sub_lt h (hsel _ _ _ hx)
        have hrec := ih _ hlt (decrementAt s x.1)
        have hle' := hle _ _ _ hx
        omega
    · rw [packLoop_not_pos select hsel s q h]
      simp [sumItems]

/-- Each loop iteration packs at least one item, so the number of iterations
(placements) is bounded by the initial remaining quantity. -/
theorem packLoop_length_le (select : List Carton → ℕ → Option (ℕ × PackingResult))
    (hsel : ∀ s q x, select s q = some x → 0 < x.2.itemsPacked) :
    ∀ q s, (packLoop select hsel s q).1.length ≤ q := by
  intro q
  induction q using Nat.strong_induction_on with
  | _ q ih =>
    intro s
    by_cases h : 0 < q
    · cases hx : select s q with
      | none =>
        rw [packLoop_select_none select hsel s q h hx]
        simp
      | some x =>
        rw [packLoop_select_some_fst select hsel s q x h hx]
        have hlt : q - x.2.itemsPacked < q := Nat.sub_lt h (hsel _ _ _ hx)
        have hrec := ih _ hlt (decrementAt s x.1)
        have hpos := hsel _ _ _ hx
        simp only [List.length_cons]
        omega
    · rw [packLoop_not_pos select hsel s q h]
      simp

/-- Every emitted placement of a loop is an output of `select` (at the state
and remaining quantity of its iteration). -/
theorem packLoop_results_prov (select : List Carton → ℕ → Option (ℕ × PackingResult))
    (hsel : ∀ s q x, select s q = some x → 0 < x.2.itemsPacked)
    (P : ℕ × PackingResult → Prop)
    (hP : ∀ s q x, select s q = some x → P x) :
    ∀ q s, ∀ x ∈ (packLoop select hsel s q).1, P x := by
  intro q
  induction q using Nat.strong_induction_on with
  | _ q ih =>
    intro s x hx
    by_cases h : 0 < q
    · cases hsx : select s q with
      | none =>
        rw [packLoop_select_none select hsel s q h hsx] at hx
        cases hx
      | some y =>
        rw [packLoop_select_some_fst select hsel s q y h hsx] at hx
        rcases List.mem_cons.mp hx with hx | hx
        · subst hx; exact hP _ _ _ hsx
        · exact ih _ (Nat.sub_lt h (hsel _ _ _ hsx)) _ x hx
    · rw [packLoop_not_pos select hsel s q h] at hx
      cases hx

theorem packLoop_state_length (select : List Carton → ℕ → Option (ℕ × PackingResult))
    (hsel : ∀ s q x, select s q = some x → 0 < x.2.itemsPacked) :
    ∀ q s, (packLoop select hsel s q).2.length = s.length := by
  intro q
  induction q using Nat.strong_induction_on with
  | _ q ih =>
    intro s
    by_cases h : 0 < q
    · cases hx : select s q with
      | none => rw [packLoop_select_none select hsel s q h hx]
      | some x =>
        rw [packLoop_select_some_snd select hsel s q x h hx]
        rw [ih _ (Nat.sub_lt h (hsel _ _ _ hx)) (decrementAt s x.1)]
        exact decrementAt_length s x.1
    · rw [packLoop_not_pos select hsel s q h]

theorem packLoop_state_map_id (select : List Carton → ℕ → Option (ℕ × PackingResult))
    (hsel : ∀ s q x, select s q = some x → 0 < x.2.itemsPacked) :
    ∀ q s, (packLoop select hsel s q).2.map (fun c => c.id) = s.map (fun c => c.id) := by
  intro q
  induction q using Nat.strong_induction_on with
  | _ q ih =>
    intro s
    by_cases h : 0 < q
    · cases hx : select s q with
      | none => rw [packLoop_select_none select hsel s q h hx]
      | some x =>
        rw [packLoop_select_some_snd select hsel s q x h hx]
        rw [ih _ (Nat.sub_lt h (hsel _ _ _ hx)) (decrementAt s x.1)]
        exact decrementAt_map_id s x.1
    · rw [packLoop_not_pos select hsel s q h]

/-- Availability accounting of one strategy loop: the final counter at any
position is the initial one minus the number of placements that consumed it,
and a position is never consumed more often than its (nonnegative part of
the) initial counter — each selection checks `availableQuantity > 0`. -/
theorem packLoop_avail (select : List Carton → ℕ → Option (ℕ × PackingResult))
    (hsel : ∀ s q x, select s q = some x → 0 < x.2.itemsPacked)
    (havail : ∀ s q x, select s q = some x →
      ∃ c, s.get? x.1 = some c ∧ 0 < c.availableQuantity) :
    ∀ q s j,
      availAt (packLoop select hsel s q).2 j =
        availAt s j - usesAt (packLoop select hsel s q).1 j ∧
      (usesAt (packLoop select hsel s q).1 j : ℤ) ≤ max (availAt s j) 0 := by
  intro q
  induction q using Nat.strong_induction_on with
  | _ q ih =>
    intro s j
    by_cases h : 0 < q
    · cases hx : select s q with
      | none =>
        rw [packLoop_select_none select hsel s q h hx]
        simp [usesAt_nil, le_max_iff]
      | some x =>
        obtain ⟨c, hget, hpos⟩ := havail _ _ _ hx
        have hsJ : availAt s x.1 = c.availableQuantity := by
          unfold availAt; rw [hget]
        rw [packLoop_select_some_fst select hsel s q x h hx,
          packLoop_select_some_snd select hsel s q x h hx, usesAt_cons]
        have hrec := ih _ (Nat.sub_lt h (hsel _ _ _ hx)) (decrementAt s x.1) j
        by_cases hj : x.1 = j
        · subst hj
          have hdec : availAt (decrementAt s x.1) x.1 = c.availableQuantity - 1 :=
            availAt_decrementAt_self s x.1 c hget
          rw [hdec] at hrec
          rw [if_pos rfl]
          constructor
          · rw [hrec.1, hsJ]
            push_cast
            ring
          · have := hrec.2
            rw [hsJ]
            push_cast
            push_cast at this
            omega
        · have hdec : availAt (decrementAt s x.1) j = availAt s j :=
            availAt_decrementAt_ne s x.1 j hj
          rw [hdec] at hrec
          rw [if_neg hj]
          constructor
          · rw [hrec.1]; push_cast; ring
          · have := hrec.2
            push_cast
            push_cast at this
            omega
    · rw [packLoop_not_pos select hsel s q h]
      simp [usesAt_nil, le_max_iff]

/-- Every emitted placement's carton id is the id at its position of the
working catalog the loop started from. -/
theorem packLoop_id_link (select : List Carton → ℕ → Option (ℕ × PackingResult))
    (hsel : ∀ s q x, select s q = some x → 0 < x.2.itemsPacked)
    (hcar : ∀ s q x, select s q = some x →
      ∃ c, s.get? x.1 = some c ∧ x.2.carton = c) :
    ∀ q s, ∀ x ∈ (packLoop select hsel s q).1,
      (s.map (fun c => c.id)).get? x.1 = some x.2.carton.id := by
  intro q
  induction q using Nat.strong_induction_on with
  | _ q ih =>
    intro s x hx
    by_cases h : 0 < q
    · cases hsx : select s q with
      | none =>
        rw [packLoop_select_none select hsel s q h hsx] at hx
        cases hx
      | some y =>
        rw [packLoop_select_some_fst select hsel s q y h hsx] at hx
        rcases List.mem_cons.mp hx with hx | hx
        · subst hx
          obtain ⟨c, hget, hcarton⟩ := hcar _ _ _ hsx
          rw [List.get?_map, hget, hcarton]
          rfl
        · have := ih _ (Nat.sub_lt h (hsel _ _ _ hsx)) (decrementAt s y.1) x hx
          rw [decrementAt_map_id s y.1] at this
          exact this
    · rw [packLoop_not_pos select hsel s q h] at hx
      cases hx

end ShipWise

namespace ShipWise

/-! ## Invariants of `runStrategyLoop` and the three strategies -/

theorem sumItems_append (a b : List (ℕ × PackingResult)) :
    sumItems (a ++ b) = sumItems a + sumItems b := by
  simp [sumItems]

theorem usesAt_append (a b : List (ℕ × PackingResult)) (j : ℕ) :
    usesAt (a ++ b) j = usesAt a j + usesAt b j := by
  simp [usesAt, List.filter_append]

theorem max_chain (a : ℤ) (u₁ u₂ : ℕ)
    (h₁ : (u₁ : ℤ) ≤ max a 0) (h₂ : (u₂ : ℤ) ≤ max (a - u₁) 0) :
    ((u₁ + u₂ : ℕ) : ℤ) ≤ max a 0 := by
  rcases le_total a 0 with h | h
  · rw [max_eq_right h] at h₁
    have hu₁ : u₁ = 0 := by exact_mod_cast le_antisymm h₁ (by positivity)
    subst hu₁
    rw [max_eq_right (by omega)] at h₂
    have hu₂ : u₂ = 0 := by exact_mod_cast le_antisymm h₂ (by positivity)
    subst hu₂
    simp [max_eq_right h]
  · rw [max_eq_left h] at h₁
    rcases le_total (a - u₁) 0 with h' | h'
    · rw [max_eq_right h'] at h₂
      have hu₂ : u₂ = 0 := by exact_mod_cast le_antisymm h₂ (by positivity)
      subst hu₂
      rw [max_eq_left h]
      push_cast
      omega
    · rw [max_eq_left h'] at h₂
      rw [max_eq_left h]
      push_cast
      push_cast at h₂
      omega

theorem sortProductsByPriorityVolume_perm (products : List Product) :
    (sortProductsByPriorityVolume products).Perm products :=
  stableSortBy_perm _ products

theorem sortProductsByVolume_perm (products : List Product) :
    (sortProductsByVolume products).Perm products :=
  stableSortBy_perm _ products

theorem runStrategyLoop_sumItems_le
    (select : Product → List Carton → ℕ → Option (ℕ × PackingResult))
    (hsel : ∀ p s q x, select p s q = some x → 0 < x.2.itemsPacked)
    (hle : ∀ p s q x, select p s q = some x → x.2.itemsPacked ≤ q) :
    ∀ products s, sumItems (runStrategyLoop select hsel products s).1 ≤
      (products.map (fun p => p.quantity)).sum := by
  intro products
  induction products with
  | nil => intro s; simp [runStrategyLoop, sumItems]
  | cons p rest ih =>
    intro s
    simp only [runStrategyLoop, List.map_cons, List.sum_cons]
    rw [sumItems_append]
    have h1 := packLoop_sumItems_le (select p) (hsel p) (hle p) p.quantity s
    have h2 := ih (packLoop (select p) (hsel p) s p.quantity).2
    omega

theorem runStrategyLoop_length_le
    (select : Product → List Carton → ℕ → Option (ℕ × PackingResult))
    (hsel : ∀ p s q x, select p s q = some x → 0 < x.2.itemsPacked) :
    ∀ products s, (runStrategyLoop select hsel products s).1.length ≤
      (products.map (fun p => p.quantity)).sum := by
  intro products
  induction products with
  | nil => intro s; simp [runStrategyLoop]
  | cons p rest ih =>
    intro s
    simp only [runStrategyLoop, List.map_cons, List.sum_cons, List.length_append]
    have h1 := packLoop_length_le (select p) (hsel p) p.quantity s
    have h2 := ih (packLoop (select p) (hsel p) s p.quantity).2
    omega

theorem runStrategyLoop_results_prov
    (select : Product → List Carton → ℕ → Option (ℕ × PackingResult))
    (hsel : ∀ p s q x, select p s q = some x → 0 < x.2.itemsPacked)
    (R : Product → ℕ × PackingResult → Prop)
    (hR : ∀ p s q x, select p s q = some x → R p x) :
    ∀ products s, ∀ x ∈ (runStrategyLoop select hsel products s).1,
      ∃ p ∈ products, R p x := by
  intro products
  induction products with
  | nil => intro s x hx; simp [runStrategyLoop] at hx
  | cons p rest ih =>
    intro s x hx
    simp only [runStrategyLoop] at hx
    rcases List.mem_append.mp hx with hx | hx
    · exact ⟨p, List.mem_cons_self p rest,
        packLoop_results_prov (select p) (hsel p) (R p) (hR p) p.quantity s x hx⟩
    · obtain ⟨p', hp', hR'⟩ := ih (packLoop (select p) (hsel p) s p.quantity).2 x hx
      exact ⟨p', List.mem_cons_of_mem _ hp', hR'⟩

theorem runStrategyLoop_state_map_id
    (select : Product → List Carton → ℕ → Option (ℕ × PackingResult))
    (hsel : ∀ p s q x, select p s q = some x → 0 < x.2.itemsPacked) :
    ∀ products s, (runStrategyLoop select hsel products s).2.map (fun c => c.id) =
      s.map (fun c => c.id) := by
  intro products
  induction products with
  | nil => intro s; simp [runStrategyLoop]
  | cons p rest ih =>
    intro s
    simp only [runStrategyLoop]
    rw [ih, packLoop_state_map_id]

theorem runStrategyLoop_avail
    (select : Product → List Carton → ℕ → Option (ℕ × PackingResult))
    (hsel : ∀ p s q x, select p s q = some x → 0 < x.2.itemsPacked)
    (havail : ∀ p s q x, select p s q = some x →
      ∃ c, s.get? x.1 = some c ∧ 0 < c.availableQuantity) :
    ∀ products s j,
      availAt (runStrategyLoop select hsel products s).2 j =
        availAt s j - usesAt (runStrategyLoop select hsel products s).1 j ∧
      (usesAt (runStrategyLoop select hsel products s).1 j : ℤ) ≤ max (availAt s j) 0 := by
  intro products
  induction products with
  | nil => intro s j; simp [runStrategyLoop, usesAt_nil, le_max_iff]
  | cons p rest ih =>
    intro s j
    simp only [runStrategyLoop]
    rw [usesAt_append]
    have h1 := packLoop_avail (select p) (hsel p) (havail p) p.quantity s j
    have h2 := ih (packLoop (select p) (hsel p) s p.quantity).2 j
    constructor
    · rw [h2.1, h1.1]
      push_cast
      ring
    · have := max_chain (availAt s j) (usesAt (packLoop (select p) (hsel p) s p.quantity).1 j)
        (usesAt (runStrategyLoop select hsel rest (packLoop (select p) (hsel p) s p.quantity).2).1 j)
        h1.2 (by rw [← h1.1]; exact h2.2)
      exact this

theorem runStrategyLoop_id_link
    (select : Product → List Carton → ℕ → Option (ℕ × PackingResult))
    (hsel : ∀ p s q x, select p s q = some x → 0 < x.2.itemsPacked)
    (hcar : ∀ p s q x, select p s q = some x →
      ∃ c, s.get? x.1 = some c ∧ x.2.carton = c) :
    ∀ products s, ∀ x ∈ (runStrategyLoop select hsel products s).1,
      (s.map (fun c => c.id)).get? x.1 = some x.2.carton.id := by
  intro products
  induction products with
  | nil => intro s x hx; simp [runStrategyLoop] at hx
  | cons p rest ih =>
    intro s x hx
    simp only [runStrategyLoop] at hx
    rcases List.mem_append.mp hx with hx | hx
    · exact packLoop_id_link (select p) (hsel p) (hcar p) p.quantity s x hx
    · have := ih (packLoop (select p) (hsel p) s p.quantity).2 x hx
      rw [packLoop_state_map_id] at this
      exact this

end ShipWise

namespace ShipWise

/-! ## Select-level corollaries -/

theorem ffdSelect_le (sortedIdx : List ℕ) (p : Product) (s : List Carton) (q : ℕ)
    (x : ℕ × PackingResult) (h : ffdSelect sortedIdx p s q = some x) :
    x.2.itemsPacked ≤ q := by
  obtain ⟨c, -, -, hp⟩ := ffdSelect_result sortedIdx p s q x h
  exact packProductInCarton_itemsPacked_le p c q x.2 hp

theorem ffdSelect_avail (sortedIdx : List ℕ) (p : Product) (s : List Carton) (q : ℕ)
    (x : ℕ × PackingResult) (h : ffdSelect sortedIdx p s q = some x) :
    ∃ c, s.get? x.1 = some c ∧ 0 < c.availableQuantity := by
  obtain ⟨c, hg, ha, -⟩ := ffdSelect_result sortedIdx p s q x h
  exact ⟨c, hg, ha⟩

theorem ffdSelect_carton (sortedIdx : List ℕ) (p : Product) (s : List Carton) (q : ℕ)
    (x : ℕ × PackingResult) (h : ffdSelect sortedIdx p s q = some x) :
    ∃ c, s.get? x.1 = some c ∧ x.2.carton = c := by
  obtain ⟨c, hg, -, hp⟩ := ffdSelect_result sortedIdx p s q x h
  exact ⟨c, hg, packProductInCarton_carton_eq p c q x.2 hp⟩

theorem ffdSelect_pack (sortedIdx : List ℕ) (p : Product) (s : List Carton) (q : ℕ)
    (x : ℕ × PackingResult) (h : ffdSelect sortedIdx p s q = some x) :
    ∃ c q', packProductInCarton p c q' = some x.2 := by
  obtain ⟨c, -, -, hp⟩ := ffdSelect_result sortedIdx p s q x h
  exact ⟨c, q, hp⟩

theorem bfdSelect_le (p : Product) (s : List Carton) (q : ℕ)
    (x : ℕ × PackingResult) (h : bfdSelect p s q = some x) :
    x.2.itemsPacked ≤ q := by
  obtain ⟨c, -, -, hp⟩ := bfdSelect_result p s q x h
  exact packProductInCarton_itemsPacked_le p c q x.2 hp

theorem bfdSelect_avail (p : Product) (s : List Carton) (q : ℕ)
    (x : ℕ × PackingResult) (h : bfdSelect p s q = some x) :
    ∃ c, s.get? x.1 = some c ∧ 0 < c.availableQuantity := by
  obtain ⟨c, hg, ha, -⟩ := bfdSelect_result p s q x h
  exact ⟨c, hg, ha⟩

theorem bfdSelect_carton (p : Product) (s : List Carton) (q : ℕ)
    (x : ℕ × PackingResult) (h : bfdSelect p s q = some x) :
    ∃ c, s.get? x.1 = some c ∧ x.2.carton = c := by
  obtain ⟨c, hg, -, hp⟩ := bfdSelect_result p s q x h
  exact ⟨c, hg, packProductInCarton_carton_eq p c q x.2 hp⟩

theorem bfdSelect_pack (p : Product) (s : List Carton) (q : ℕ)
    (x : ℕ × PackingResult) (h : bfdSelect p s q = some x) :
    ∃ c q', packProductInCarton p c q' = some x.2 := by
  obtain ⟨c, -, -, hp⟩ := bfdSelect_result p s q x h
  exact ⟨c, q, hp⟩

theorem guillotineSelect_le (p : Product) (s : List Carton) (q : ℕ)
    (x : ℕ × PackingResult) (h : guillotineSelect p s q = some x) :
    x.2.itemsPacked ≤ q := by
  obtain ⟨c, -, -, hp⟩ := guillotineSelect_result p s q x h
  exact packProductInCarton_itemsPacked_le p c q x.2 hp

theorem guillotineSelect_avail (p : Product) (s : List Carton) (q : ℕ)
    (x : ℕ × PackingResult) (h : guillotineSelect p s q = some x) :
    ∃ c, s.get? x.1 = some c ∧ 0 < c.availableQuantity := by
  obtain ⟨c, hg, ha, -⟩ := guillotineSelect_result p s q x h
  exact ⟨c, hg, ha⟩

theorem guillotineSelect_carton (p : Product) (s : List Carton) (q : ℕ)
    (x : ℕ × PackingResult) (h : guillotineSelect p s q = some x) :
    ∃ c, s.get? x.1 = some c ∧ x.2.carton = c := by
  obtain ⟨c, hg, -, hp⟩ := guillotineSelect_result p s q x h
  exact ⟨c, hg, packProductInCarton_carton_eq p c q x.2 hp⟩

theorem guillotineSelect_pack (p : Product) (s : List Carton) (q : ℕ)
    (x : ℕ × PackingResult) (h : guillotineSelect p s q = some x) :
    ∃ c q', packProductInCarton p c q' = some x.2 := by
  obtain ⟨c, -, -, hp⟩ := guillotineSelect_result p s q x h
  exact ⟨c, q, hp⟩

/-! ## Strategy-level invariants -/

theorem firstFitDecreasing_sumItems_le (products : List Product) (cartons : List Carton) :
    sumItems (firstFitDecreasing products cartons).1 ≤
      (products.map (fun p => p.quantity)).sum := by
  have h := runStrategyLoop_sumItems_le
    (fun p => ffdSelect ((sortCartonsByPriority cartons).map Prod.fst) p)
    (fun p => ffdSelect_itemsPacked_pos ((sortCartonsByPriority cartons).map Prod.fst) p)
    (fun p => ffdSelect_le ((sortCartonsByPriority cartons).map Prod.fst) p)
    (sortProductsByPriorityVolume products) cartons
  have hperm : ((sortProductsByPriorityVolume products).map (fun p => p.quantity)).sum =
      (products.map (fun p => p.quantity)).sum :=
    List.Perm.sum_eq (List.Perm.map _ (sortProductsByPriorityVolume_perm products))
  unfold firstFitDecreasing
  simp only []
  rw [← hperm]
  exact h

theorem bestFitDecreasing_sumItems_le (products : List Product) (cartons : List Carton) :
    sumItems (bestFitDecreasing products cartons).1 ≤
      (products.map (fun p => p.quantity)).sum := by
  have h := runStrategyLoop_sumItems_le bfdSelect bfdSelect_itemsPacked_pos
    (fun p => bfdSelect_le p)
    (sortProductsByPriorityVolume products) cartons
  have hperm : ((sortProductsByPriorityVolume products).map (fun p => p.quantity)).sum =
      (products.map (fun p => p.quantity)).sum :=
    List.Perm.sum_eq (List.Perm.map _ (sortProductsByPriorityVolume_perm products))
  unfold bestFitDecreasing
  rw [← hperm]
  exact h

theorem packWithGuillotine_sumItems_le (products : List Product) (cartons : List Carton) :
    sumItems (packWithGuillotine products cartons).1 ≤
      (products.map (fun p => p.quantity)).sum := by
  have h := runStrategyLoop_sumItems_le guillotineSelect guillotineSelect_itemsPacked_pos
    (fun p => guillotineSelect_le p)
    (sortProductsByVolume products) cartons
  have hperm : ((sortProductsByVolume products).map (fun p => p.quantity)).sum =
      (products.map (fun p => p.quantity)).sum :=
    List.Perm.sum_eq (List.Perm.map _ (sortProductsByVolume_perm products))
  unfold packWithGuillotine
  rw [← hperm]
  exact h

end ShipWise

namespace ShipWise

theorem firstFitDecreasing_avail (products : List Product) (cartons : List Carton) (j : ℕ) :
    availAt (firstFitDecreasing products cartons).2 j =
      availAt cartons j - usesAt (firstFitDecreasing products cartons).1 j ∧
    (usesAt (firstFitDecreasing products cartons).1 j : ℤ) ≤ max (availAt cartons j) 0 := by
  have h := runStrategyLoop_avail (fun p => ffdSelect ((sortCartonsByPriority cartons).map Prod.fst) p) (fun p => ffdSelect_itemsPacked_pos ((sortCartonsByPriority cartons).map Prod.fst) p) (fun p => ffdSelect_avail ((sortCartonsByPriority cartons).map Prod.fst) p)
    (sortProductsByPriorityVolume products) cartons j
  unfold firstFitDecreasing
  exact h

theorem firstFitDecreasing_map_id (products : List Product) (cartons : List Carton) :
    (firstFitDecreasing products cartons).2.map (fun c => c.id) = cartons.map (fun c => c.id) := by
  have h := runStrategyLoop_state_map_id (fun p => ffdSelect ((sortCartonsByPriority cartons).map Prod.fst) p) (fun p => ffdSelect_itemsPacked_pos ((sortCartonsByPriority cartons).map Prod.fst) p)
    (sortProductsByPriorityVolume products) cartons
  unfold firstFitDecreasing
  exact h

theorem firstFitDecreasing_id_link (products : List Product) (cartons : List Carton) :
    ∀ x ∈ (firstFitDecreasing products cartons).1,
      (cartons.map (fun c => c.id)).get? x.1 = some x.2.carton.id := by
  have h := runStrategyLoop_id_link (fun p => ffdSelect ((sortCartonsByPriority cartons).map Prod.fst) p) (fun p => ffdSelect_itemsPacked_pos ((sortCartonsByPriority cartons).map Prod.fst) p) (fun p => ffdSelect_carton ((sortCartonsByPriority cartons).map Prod.fst) p)
    (sortProductsByPriorityVolume products) cartons
  unfold firstFitDecreasing
  exact h

theorem firstFitDecreasing_prov (products : List Product) (cartons : List Carton) :
    ∀ x ∈ (firstFitDecreasing products cartons).1,
      ∃ p ∈ products, ∃ c q, packProductInCarton p c q = some x.2 := by
  have h := runStrategyLoop_results_prov (fun p => ffdSelect ((sortCartonsByPriority cartons).map Prod.fst) p) (fun p => ffdSelect_itemsPacked_pos ((sortCartonsByPriority cartons).map Prod.fst) p)
    (fun p x => ∃ c q, packProductInCarton p c q = some x.2)
    (fun p => ffdSelect_pack ((sortCartonsByPriority cartons).map Prod.fst) p)
    (sortProductsByPriorityVolume products) cartons
  unfold firstFitDecreasing
  intro x hx
  obtain ⟨p, hp, hc⟩ := h x hx
  exact ⟨p, ((sortProductsByPriorityVolume_perm products).mem_iff).mp hp, hc⟩

theorem firstFitDecreasing_length_le (products : List Product) (cartons : List Carton) :
    (firstFitDecreasing products cartons).1.length ≤ (products.map (fun p => p.quantity)).sum := by
  have h := runStrategyLoop_length_le (fun p => ffdSelect ((sortCartonsByPriority cartons).map Prod.fst) p) (fun p => ffdSelect_itemsPacked_pos ((sortCartonsByPriority cartons).map Prod.fst) p)
    (sortProductsByPriorityVolume products) cartons
  have hperm : ((sortProductsByPriorityVolume products).map (fun p => p.quantity)).sum =
      (products.map (fun p => p.quantity)).sum :=
    List.Perm.sum_eq (List.Perm.map _ (sortProductsByPriorityVolume_perm products))
  unfold firstFitDecreasing
  rw [← hperm]
  exact h

theorem firstFitDecreasing_results_pos (products : List Product) (cartons : List Carton) :
    ∀ x ∈ (firstFitDecreasing products cartons).1, 0 < x.2.itemsPacked := by
  intro x hx
  obtain ⟨p, -, c, q, hp⟩ := firstFitDecreasing_prov products cartons x hx
  exact packProductInCarton_itemsPacked_pos p c q x.2 hp

theorem bestFitDecreasing_avail (products : List Product) (cartons : List Carton) (j : ℕ) :
    availAt (bestFitDecreasing products cartons).2 j =
      availAt cartons j - usesAt (bestFitDecreasing products cartons).1 j ∧
    (usesAt (bestFitDecreasing products cartons).1 j : ℤ) ≤ max (availAt cartons j) 0 := by
  have h := runStrategyLoop_avail bfdSelect bfdSelect_itemsPacked_pos (fun p => bfdSelect_avail p)
    (sortProductsByPriorityVolume products) cartons j
  unfold bestFitDecreasing
  exact h

theorem bestFitDecreasing_map_id (products : List Product) (cartons : List Carton) :
    (bestFitDecreasing products cartons).2.map (fun c => c.id) = cartons.map (fun c => c.id) := by
  have h := runStrategyLoop_state_map_id bfdSelect bfdSelect_itemsPacked_pos
    (sortProductsByPriorityVolume products) cartons
  unfold bestFitDecreasing
  exact h

theorem bestFitDecreasing_id_link (products : List Product) (cartons : List Carton) :
    ∀ x ∈ (bestFitDecreasing products cartons).1,
      (cartons.map (fun c => c.id)).get? x.1 = some x.2.carton.id := by
  have h := runStrategyLoop_id_link bfdSelect bfdSelect_itemsPacked_pos (fun p => bfdSelect_carton p)
    (sortProductsByPriorityVolume products) cartons
  unfold bestFitDecreasing
  exact h

theorem bestFitDecreasing_prov (products : List Product) (cartons : List Carton) :
    ∀ x ∈ (bestFitDecreasing products cartons).1,
      ∃ p ∈ products, ∃ c q, packProductInCarton p c q = some x.2 := by
  have h := runStrategyLoop_results_prov bfdSelect bfdSelect_itemsPacked_pos
    (fun p x => ∃ c q, packProductInCarton p c q = some x.2)
    (fun p => bfdSelect_pack p)
    (sortProductsByPriorityVolume products) cartons
  unfold bestFitDecreasing
  intro x hx
  obtain ⟨p, hp, hc⟩ := h x hx
  exact ⟨p, ((sortProductsByPriorityVolume_perm products).mem_iff).mp hp, hc⟩

theorem bestFitDecreasing_length_le (products : List Product) (cartons : List Carton) :
    (bestFitDecreasing products cartons).1.length ≤ (products.map (fun p => p.quantity)).sum := by
  have h := runStrategyLoop_length_le bfdSelect bfdSelect_itemsPacked_pos
    (sortProductsByPriorityVolume products) cartons
  have hperm : ((sortProductsByPriorityVolume products).map (fun p => p.quantity)).sum =
      (products.map (fun p => p.quantity)).sum :=
    List.Perm.sum_eq (List.Perm.map _ (sortProductsByPriorityVolume_perm products))
  unfold bestFitDecreasing
  rw [← hperm]
  exact h

theorem bestFitDecreasing_results_pos (products : List Product) (cartons : List Carton) :
    ∀ x ∈ (bestFitDecreasing products cartons).1, 0 < x.2.itemsPacked := by
  intro x hx
  obtain ⟨p, -, c, q, hp⟩ := bestFitDecreasing_prov products cartons x hx
  exact packProductInCarton_itemsPacked_pos p c q x.2 hp

theorem packWithGuillotine_avail (products : List Product) (cartons : List Carton) (j : ℕ) :
    availAt (packWithGuillotine products cartons).2 j =
      availAt cartons j - usesAt (packWithGuillotine products cartons).1 j ∧
    (usesAt (packWithGuillotine products cartons).1 j : ℤ) ≤ max (availAt cartons j) 0 := by
  have h := runStrategyLoop_avail guillotineSelect guillotineSelect_itemsPacked_pos (fun p => guillotineSelect_avail p)
    (sortProductsByVolume products) cartons j
  unfold packWithGuillotine
  exact h

theorem packWithGuillotine_map_id (products : List Product) (cartons : List Carton) :
    (packWithGuillotine products cartons).2.map (fun c => c.id) = cartons.map (fun c => c.id) := by
  have h := runStrategyLoop_state_map_id guillotineSelect guillotineSelect_itemsPacked_pos
    (sortProductsByVolume products) cartons
  unfold packWithGuillotine
  exact h

theorem packWithGuillotine_id_link (products : List Product) (cartons : List Carton) :
    ∀ x ∈ (packWithGuillotine products cartons).1,
      (cartons.map (fun c => c.id)).get? x.1 = some x.2.carton.id := by
  have h := runStrategyLoop_id_link guillotineSelect guillotineSelect_itemsPacked_pos (fun p => guillotineSelect_carton p)
    (sortProductsByVolume products) cartons
  unfold packWithGuillotine
  exact h

theorem packWithGuillotine_prov (products : List Product) (cartons : List Carton) :
    ∀ x ∈ (packWithGuillotine products cartons).1,
      ∃ p ∈ products, ∃ c q, packProductInCarton p c q = some x.2 := by
  have h := runStrategyLoop_results_prov guillotineSelect guillotineSelect_itemsPacked_pos
    (fun p x => ∃ c q, packProductInCarton p c q = some x.2)
    (fun p => guillotineSelect_pack p)
    (sortProductsByVolume products) cartons
  unfold packWithGuillotine
  intro x hx
  obtain ⟨p, hp, hc⟩ := h x hx
  exact ⟨p, ((sortProductsByVolume_perm products).mem_iff).mp hp, hc⟩

theorem packWithGuillotine_length_le (products : List Product) (cartons : List Carton) :
    (packWithGuillotine products cartons).1.length ≤ (products.map (fun p => p.quantity)).sum := by
  have h := runStrategyLoop_length_le guillotineSelect guillotineSelect_itemsPacked_pos
    (sortProductsByVolume products) cartons
  have hperm : ((sortProductsByVolume products).map (fun p => p.quantity)).sum =
      (products.map (fun p => p.quantity)).sum :=
    List.Perm.sum_eq (List.Perm.map _ (sortProductsByVolume_perm products))
  unfold packWithGuillotine
  rw [← hperm]
  exact h

theorem packWithGuillotine_results_pos (products : List Product) (cartons : List Carton) :
    ∀ x ∈ (packWithGuillotine products cartons).1, 0 < x.2.itemsPacked := by
  intro x hx
  obtain ⟨p, -, c, q, hp⟩ := packWithGuillotine_prov products cartons x hx
  exact packProductInCarton_itemsPacked_pos p c q x.2 hp

end ShipWise

namespace ShipWise

/-! ## Hybrid orchestrator case analysis -/

/-- `hybridPacking` returns the results of one of its runs — FFD, BFD,
guillotine, or the FFD fallback — and the working catalog as left by the last
run that executed. -/
theorem updateBest_cases (best : Option (ℚ × List (ℕ × PackingResult)))
    (score : Option ℚ) (result : List (ℕ × PackingResult)) :
    updateBest best score result = best ∨
    ∃ s, updateBest best score result = some (s, result) := by
  rcases score with _ | q
  · left; rfl
  · rcases best with _ | ⟨bq, br⟩
    · right; exact ⟨q, rfl⟩
    · have hred : updateBest (some (bq, br)) (some q) result =
          if bq < q then some (q, result) else some (bq, br) := rfl
      rw [hred]
      split_ifs
      · right; exact ⟨q, rfl⟩
      · left; rfl

theorem hybridPacking_cases (products : List Product) (cartons : List Carton) :
    hybridPacking products cartons =
      ((firstFitDecreasing products cartons).1,
       (packWithGuillotine products (bestFitDecreasing products
         (firstFitDecreasing products cartons).2).2).2) ∨
    hybridPacking products cartons =
      ((bestFitDecreasing products (firstFitDecreasing products cartons).2).1,
       (packWithGuillotine products (bestFitDecreasing products
         (firstFitDecreasing products cartons).2).2).2) ∨
    hybridPacking products cartons =
      ((packWithGuillotine products (bestFitDecreasing products
         (firstFitDecreasing products cartons).2).2).1,
       (packWithGuillotine products (bestFitDecreasing products
         (firstFitDecreasing products cartons).2).2).2) ∨
    hybridPacking products cartons =
      basicPacking products
        (packWithGuillotine products (bestFitDecreasing products
          (firstFitDecreasing products cartons).2).2).2 := by
  unfold hybridPacking
  simp only []
  set f1 := (firstFitDecreasing products cartons).1 with hf1
  set b1 := (bestFitDecreasing products (firstFitDecreasing products cartons).2).1 with hb1
  set g1 := (packWithGuillotine products (bestFitDecreasing products
    (firstFitDecreasing products cartons).2).2).1 with hg1
  have hcase :
      updateBest (updateBest (updateBest none (evaluatePackingQuality f1) f1)
        (evaluatePackingQuality b1) b1) (evaluatePackingQuality g1) g1 = none ∨
      (∃ s, updateBest (updateBest (updateBest none (evaluatePackingQuality f1) f1)
        (evaluatePackingQuality b1) b1) (evaluatePackingQuality g1) g1 = some (s, f1)) ∨
      (∃ s, updateBest (updateBest (updateBest none (evaluatePackingQuality f1) f1)
        (evaluatePackingQuality b1) b1) (evaluatePackingQuality g1) g1 = some (s, b1)) ∨
      (∃ s, updateBest (updateBest (updateBest none (evaluatePackingQuality f1) f1)
        (evaluatePackingQuality b1) b1) (evaluatePackingQuality g1) g1 = some (s, g1)) := by
    have u1 := updateBest_cases none (evaluatePackingQuality f1) f1
    have u2 := updateBest_cases (updateBest none (evaluatePackingQuality f1) f1)
      (evaluatePackingQuality b1) b1
    have u3 := updateBest_cases (updateBest (updateBest none (evaluatePackingQuality f1) f1)
      (evaluatePackingQuality b1) b1) (evaluatePackingQuality g1) g1
    rcases u3 with h3 | ⟨s3, h3⟩
    · rw [h3]
      rcases u2 with h2 | ⟨s2, h2⟩
      · rw [h2]
        rcases u1 with h1 | ⟨s1, h1⟩
        · rw [h1]; exact Or.inl rfl
        · rw [h1]; exact Or.inr (Or.inl ⟨s1, rfl⟩)
      · rw [h2]; exact Or.inr (Or.inr (Or.inl ⟨s2, rfl⟩))
    · rw [h3]; exact Or.inr (Or.inr (Or.inr ⟨s3, rfl⟩))
  rcases hcase with h | ⟨s, h⟩ | ⟨s, h⟩ | ⟨s, h⟩ <;> rw [h]
  · exact Or.inr (Or.inr (Or.inr rfl))
  · exact Or.inl rfl
  · exact Or.inr (Or.inl rfl)
  · exact Or.inr (Or.inr (Or.inl rfl))

end ShipWise

namespace ShipWise

/-! ## `packItems`-level invariants -/

theorem packItems_sumItems_le (products : List Product) (cartons : List Carton)
    (algorithm : Algorithm) :
    sumItems (packItems products cartons algorithm).1 ≤
      (products.map (fun p => p.quantity)).sum := by
  cases algorithm with
  | ffd => exact firstFitDecreasing_sumItems_le products cartons
  | bfd => exact bestFitDecreasing_sumItems_le products cartons
  | guillotine => exact packWithGuillotine_sumItems_le products cartons
  | skyline => exact firstFitDecreasing_sumItems_le products cartons
  | hybrid =>
    show sumItems (hybridPacking products cartons).1 ≤ _
    rcases hybridPacking_cases products cartons with h | h | h | h <;> rw [h]
    · exact firstFitDecreasing_sumItems_le products cartons
    · exact bestFitDecreasing_sumItems_le products _
    · exact packWithGuillotine_sumItems_le products _
    · exact firstFitDecreasing_sumItems_le products _

theorem packItems_prov (products : List Product) (cartons : List Carton)
    (algorithm : Algorithm) :
    ∀ x ∈ (packItems products cartons algorithm).1,
      ∃ p ∈ products, ∃ c q, packProductInCarton p c q = some x.2 := by
  cases algorithm with
  | ffd => exact firstFitDecreasing_prov products cartons
  | bfd => exact bestFitDecreasing_prov products cartons
  | guillotine => exact packWithGuillotine_prov products cartons
  | skyline => exact firstFitDecreasing_prov products cartons
  | hybrid =>
    show ∀ x ∈ (hybridPacking products cartons).1, _
    rcases hybridPacking_cases products cartons with h | h | h | h <;> rw [h]
    · exact firstFitDecreasing_prov products cartons
    · exact bestFitDecreasing_prov products _
    · exact packWithGuillotine_prov products _
    · exact firstFitDecreasing_prov products _

theorem packItems_map_id (products : List Product) (cartons : List Carton)
    (algorithm : Algorithm) :
    (packItems products cartons algorithm).2.map (fun c => c.id) =
      cartons.map (fun c => c.id) := by
  have hchain :
      (packWithGuillotine products (bestFitDecreasing products
        (firstFitDecreasing products cartons).2).2).2.map (fun c => c.id) =
      cartons.map (fun c => c.id) := by
    rw [packWithGuillotine_map_id, bestFitDecreasing_map_id, firstFitDecreasing_map_id]
  cases algorithm with
  | ffd => exact firstFitDecreasing_map_id products cartons
  | bfd => exact bestFitDecreasing_map_id products cartons
  | guillotine => exact packWithGuillotine_map_id products cartons
  | skyline => exact firstFitDecreasing_map_id products cartons
  | hybrid =>
    show (hybridPacking products cartons).2.map (fun c => c.id) = _
    rcases hybridPacking_cases products cartons with h | h | h | h <;> rw [h]
    · exact hchain
    · exact hchain
    · exact hchain
    · show (firstFitDecreasing products _).2.map (fun c => c.id) = _
      rw [firstFitDecreasing_map_id]
      exact hchain

theorem packItems_id_link (products : List Product) (cartons : List Carton)
    (algorithm : Algorithm) :
    ∀ x ∈ (packItems products cartons algorithm).1,
      (cartons.map (fun c => c.id)).get? x.1 = some x.2.carton.id := by
  cases algorithm with
  | ffd => exact firstFitDecreasing_id_link products cartons
  | bfd => exact bestFitDecreasing_id_link products cartons
  | guillotine => exact packWithGuillotine_id_link products cartons
  | skyline => exact firstFitDecreasing_id_link products cartons
  | hybrid =>
    show ∀ x ∈ (hybridPacking products cartons).1, _
    rcases hybridPacking_cases products cartons with h | h | h | h <;> rw [h]
    · exact firstFitDecreasing_id_link products cartons
    · intro x hx
      have := bestFitDecreasing_id_link products _ x hx
      rwa [firstFitDecreasing_map_id] at this
    · intro x hx
      have := packWithGuillotine_id_link products _ x hx
      rwa [bestFitDecreasing_map_id, firstFitDecreasing_map_id] at this
    · intro x hx
      have := firstFitDecreasing_id_link products _ x hx
      rwa [packWithGuillotine_map_id, bestFitDecreasing_map_id,
        firstFitDecreasing_map_id] at this

theorem max_zero_mono {a b : ℤ} (h : a ≤ b) : max a 0 ≤ max b 0 :=
  max_le_max h (le_refl 0)

/-- Availability accounting through `packItems`: the returned placements
never consume a catalog position more often than its (nonnegative part of
the) availability, and the final counter accounts for at least those
consumptions. -/
theorem packItems_avail (products : List Product) (cartons : List Carton)
    (algorithm : Algorithm) (j : ℕ) :
    (usesAt (packItems products cartons algorithm).1 j : ℤ) ≤
      max (availAt cartons j) 0 ∧
    availAt (packItems products cartons algorithm).2 j ≤
      availAt cartons j - usesAt (packItems products cartons algorithm).1 j := by
  cases algorithm with
  | ffd =>
    have h := firstFitDecreasing_avail products cartons j
    exact ⟨h.2, le_of_eq h.1⟩
  | bfd =>
    have h := bestFitDecreasing_avail products cartons j
    exact ⟨h.2, le_of_eq h.1⟩
  | guillotine =>
    have h := packWithGuillotine_avail products cartons j
    exact ⟨h.2, le_of_eq h.1⟩
  | skyline =>
    have h := firstFitDecreasing_avail products cartons j
    exact ⟨h.2, le_of_eq h.1⟩
  | hybrid =>
    have hf := firstFitDecreasing_avail products cartons j
    have hb := bestFitDecreasing_avail products (firstFitDecreasing products cartons).2 j
    have hg := packWithGuillotine_avail products
      (bestFitDecreasing products (firstFitDecreasing products cartons).2).2 j
    have huf : (0 : ℤ) ≤ usesAt (firstFitDecreasing products cartons).1 j := by positivity
    have hub : (0 : ℤ) ≤
        usesAt (bestFitDecreasing products (firstFitDecreasing products cartons).2).1 j := by
      positivity
    have hug : (0 : ℤ) ≤ usesAt (packWithGuillotine products
        (bestFitDecreasing products (firstFitDecreasing products cartons).2).2).1 j := by
      positivity
    have haf : availAt (firstFitDecreasing products cartons).2 j ≤ availAt cartons j := by
      rw [hf.1]; omega
    have hab : availAt (bestFitDecreasing products
        (firstFitDecreasing products cartons).2).2 j ≤ availAt cartons j := by
      rw [hb.1]; omega
    have hag : availAt (packWithGuillotine products (bestFitDecreasing products
        (firstFitDecreasing products cartons).2).2).2 j ≤ availAt cartons j := by
      rw [hg.1]; omega
    have hpack : packItems products cartons Algorithm.hybrid =
        hybridPacking products cartons := rfl
    rw [hpack]
    rcases hybridPacking_cases products cartons with h | h | h | h <;> rw [h] <;> try dsimp only
    · refine ⟨hf.2, ?_⟩
      rw [hg.1, hb.1, hf.1]
      omega
    · refine ⟨le_trans hb.2 (max_zero_mono haf), ?_⟩
      rw [hg.1, hb.1, hf.1]
      omega
    · refine ⟨le_trans hg.2 (max_zero_mono hab), ?_⟩
      rw [hg.1, hb.1]
      omega
    · have h4 := firstFitDecreasing_avail products (packWithGuillotine products
        (bestFitDecreasing products (firstFitDecreasing products cartons).2).2).2 j
      unfold basicPacking
      refine ⟨le_trans h4.2 (max_zero_mono hag), ?_⟩
      rw [h4.1, hg.1, hb.1, hf.1]
      omega

end ShipWise

namespace ShipWise

/-! ## Engine-level accounting -/

/-- Total items packed over the engine's placements. -/
def sumPlacements (pls : List Placement) : ℕ :=
  (pls.map (fun pl => pl.itemsPacked)).sum

/-- Total remaining quantity over the engine's unpacked records. -/
def sumUnpacked (ups : List UnpackedProduct) : ℤ :=
  (ups.map (fun u => u.remainingQuantity)).sum

/-- Number of placements that consumed a carton of the given id. -/
def countId (pls : List Placement) (v : ℕ) : ℕ :=
  (pls.filter (fun pl => pl.cartonId = v)).length

theorem availAt_decrementAt_le (s : List Carton) (i j : ℕ) :
    availAt (decrementAt s i) j ≤ availAt s j := by
  by_cases hij : i = j
  · subst hij
    cases hg : s.get? i with
    | none => unfold decrementAt; rw [hg]
    | some c =>
      rw [availAt_decrementAt_self s i c hg]
      have hv : availAt s i = c.availableQuantity := by
        unfold availAt; rw [hg]
      rw [hv]
      omega
  · rw [availAt_decrementAt_ne s i j hij]

theorem packItems_results_pos (products : List Product) (cartons : List Carton)
    (algorithm : Algorithm) :
    ∀ x ∈ (packItems products cartons algorithm).1, 0 < x.2.itemsPacked := by
  intro x hx
  obtain ⟨p, -, c, q, hp⟩ := packItems_prov products cartons algorithm x hx
  exact packProductInCarton_itemsPacked_pos p c q x.2 hp

/-- Specification of the engine's per-product result fold. -/
theorem processFold_spec (now k : ℕ) (product : Product) (rs : List PackingResult) :
    ∀ acc : List Placement × ℤ × List Carton,
      (∀ r ∈ rs, 0 < r.itemsPacked) →
      (rs.foldl (processStep now k product) acc).1 =
        acc.1 ++ rs.map (mkPlacement now (k + 1) product) ∧
      (rs.foldl (processStep now k product) acc).2.1 =
        acc.2.1 - (rs.map (fun r => (r.itemsPacked : ℤ))).sum ∧
      (∀ j, availAt (rs.foldl (processStep now k product) acc).2.2 j ≤
        availAt acc.2.2 j) ∧
      (rs.foldl (processStep now k product) acc).2.2.map (fun c => c.id) =
        acc.2.2.map (fun c => c.id) := by
  induction rs with
  | nil => intro acc _; simp
  | cons r rest ih =>
    intro acc hpos
    have hr : 0 < r.itemsPacked := hpos r (List.mem_cons_self r rest)
    have hrest := ih (processStep now k product acc r)
      (fun r' hr' => hpos r' (List.mem_cons_of_mem _ hr'))
    have hstep1 : (processStep now k product acc r).1 =
        acc.1 ++ [mkPlacement now (k + 1) product r] := by
      unfold processStep; rw [if_pos hr]
    have hstep2 : (processStep now k product acc r).2.1 =
        acc.2.1 - (r.itemsPacked : ℤ) := by
      unfold processStep; rw [if_pos hr]
    have hstep3 : ∀ j, availAt (processStep now k product acc r).2.2 j ≤
        availAt acc.2.2 j := by
      intro j
      unfold processStep
      rw [if_pos hr]
      simp only []
      cases hidx : acc.2.2.findIdx? (fun c => c.id = r.carton.id) with
      | none => exact le_refl _
      | some ci => exact availAt_decrementAt_le acc.2.2 ci j
    have hstep4 : (processStep now k product acc r).2.2.map (fun c => c.id) =
        acc.2.2.map (fun c => c.id) := by
      unfold processStep
      rw [if_pos hr]
      simp only []
      cases hidx : acc.2.2.findIdx? (fun c => c.id = r.carton.id) with
      | none => rfl
      | some ci => exact decrementAt_map_id acc.2.2 ci
    refine ⟨?_, ?_, ?_, ?_⟩
    · rw [List.foldl_cons, hrest.1, hstep1]
      simp
    · rw [List.foldl_cons, hrest.2.1, hstep2]
      simp only [List.map_cons, List.sum_cons]
      ring
    · intro j
      rw [List.foldl_cons]
      exact le_trans (hrest.2.2.1 j) (hstep3 j)
    · rw [List.foldl_cons, hrest.2.2.2, hstep4]

theorem processPackingResults_spec (now k : ℕ) (product : Product)
    (rs : List PackingResult) (working : List Carton)
    (hpos : ∀ r ∈ rs, 0 < r.itemsPacked) :
    (processPackingResults now k product rs working).1 =
      rs.map (mkPlacement now (k + 1) product) ∧
    (processPackingResults now k product rs working).2.1 =
      (product.quantity : ℤ) - (rs.map (fun r => (r.itemsPacked : ℤ))).sum ∧
    (∀ j, availAt (processPackingResults now k product rs working).2.2 j ≤
      availAt working j) ∧
    (processPackingResults now k product rs working).2.2.map (fun c => c.id) =
      working.map (fun c => c.id) := by
  have h := processFold_spec now k product rs ([], (product.quantity : ℤ), working) hpos
  unfold processPackingResults
  simpa using h

end ShipWise

namespace ShipWise

theorem mkPlacement_itemsPacked (now k : ℕ) (p : Product) (r : PackingResult) :
    (mkPlacement now k p r).itemsPacked = r.itemsPacked := rfl

theorem mkPlacement_cartonId (now k : ℕ) (p : Product) (r : PackingResult) :
    (mkPlacement now k p r).cartonId = r.carton.id := rfl

theorem sumPlacements_append (a b : List Placement) :
    sumPlacements (a ++ b) = sumPlacements a + sumPlacements b := by
  simp [sumPlacements]

theorem sumUnpacked_append (a b : List UnpackedProduct) :
    sumUnpacked (a ++ b) = sumUnpacked a + sumUnpacked b := by
  simp [sumUnpacked]

theorem countId_append (a b : List Placement) (v : ℕ) :
    countId (a ++ b) v = countId a v + countId b v := by
  simp [countId, List.filter_append]

/-- Conservation through the engine's product loop. -/
theorem engineProductLoop_conservation (now : ℕ) (alg : Algorithm) :
    ∀ (products : List Product) (acc : List Placement) (unp : List UnpackedProduct)
      (w : List Carton),
      (sumPlacements (engineProductLoop now alg products acc unp w).1 : ℤ) +
        sumUnpacked (engineProductLoop now alg products acc unp w).2.1 =
      (sumPlacements acc : ℤ) + sumUnpacked unp +
        (products.map (fun p => (p.quantity : ℤ))).sum := by
  intro products
  induction products with
  | nil =>
    intro acc unp w
    simp [engineProductLoop]
  | cons p rest ih =>
    intro acc unp w
    simp only [engineProductLoop, List.map_cons, List.sum_cons]
    have hpos : ∀ r ∈ (packItems [{ p with quantity := p.quantity }] w alg).1.map Prod.snd,
        0 < r.itemsPacked := by
      intro r hr
      obtain ⟨x, hx, hxr⟩ := List.mem_map.mp hr
      subst hxr
      exact packItems_results_pos _ w alg x hx
    have spec := processPackingResults_spec now acc.length p
      ((packItems [{ p with quantity := p.quantity }] w alg).1.map Prod.snd)
      (packItems [{ p with quantity := p.quantity }] w alg).2 hpos
    have hsum : ((packItems [{ p with quantity := p.quantity }] w alg).1.map
        Prod.snd).map (fun r => (r.itemsPacked : ℤ)) =
        (packItems [{ p with quantity := p.quantity }] w alg).1.map
          (fun x => (x.2.itemsPacked : ℤ)) := by
      rw [List.map_map]
      rfl
    have hSN : (((packItems [{ p with quantity := p.quantity }] w alg).1.map
        Prod.snd).map (fun r => (r.itemsPacked : ℤ))).sum =
        ((sumItems (packItems [{ p with quantity := p.quantity }] w alg).1 : ℕ) : ℤ) := by
      rw [hsum]
      unfold sumItems
      rw [Nat.cast_list_sum, List.map_map]
      rfl
    have hle : sumItems (packItems [{ p with quantity := p.quantity }] w alg).1 ≤
        p.quantity := by
      have := packItems_sumItems_le [{ p with quantity := p.quantity }] w alg
      simpa using this
    have hbatch : sumPlacements
        (((packItems [{ p with quantity := p.quantity }] w alg).1.map Prod.snd).map
          (mkPlacement now (acc.length + 1) p)) =
        sumItems (packItems [{ p with quantity := p.quantity }] w alg).1 := by
      unfold sumPlacements sumItems
      rw [List.map_map, List.map_map]
      rfl
    rw [ih]
    rw [spec.1, spec.2.1]
    rw [sumPlacements_append, hbatch]
    rw [hSN]
    set SN := sumItems (packItems [{ p with quantity := p.quantity }] w alg).1 with hSNdef
    split
    next hrem =>
      rw [sumUnpacked_append]
      unfold sumUnpacked
      simp only [List.map_cons, List.map_nil, List.sum_cons, List.sum_nil]
      push_cast
      omega
    next hrem =>
      push_cast
      push_cast at hrem
      omega

end ShipWise

namespace ShipWise

theorem calculateOptimalPacking_packingResults (now : ℕ) (products : List Product)
    (cartons : List Carton) (algorithm : Algorithm) :
    (calculateOptimalPacking now products cartons algorithm).packingResults =
      (engineProductLoop now algorithm products [] [] (initWorkingCartons cartons)).1 :=
  rfl

theorem calculateOptimalPacking_unpackedProducts (now : ℕ) (products : List Product)
    (cartons : List Carton) (algorithm : Algorithm) :
    (calculateOptimalPacking now products cartons algorithm).unpackedProducts =
      (engineProductLoop now algorithm products [] [] (initWorkingCartons cartons)).2.1 :=
  rfl

/-- Fragile provenance through the engine's product loop: every placement
either was already accumulated or belongs to a listed product, and a fragile
product's placement never has more than 3 layers. -/
theorem engineProductLoop_fragile (now : ℕ) (alg : Algorithm) :
    ∀ (products : List Product) (acc : List Placement) (unp : List UnpackedProduct)
      (w : List Carton),
      ∀ pl ∈ (engineProductLoop now alg products acc unp w).1,
        pl ∈ acc ∨ ∃ p ∈ products, pl.productId = p.id ∧
          (p.isFragile = true → pl.layout.layers ≤ 3) := by
  intro products
  induction products with
  | nil =>
    intro acc unp w pl hpl
    simp only [engineProductLoop] at hpl
    exact Or.inl hpl
  | cons p rest ih =>
    intro acc unp w pl hpl
    simp only [engineProductLoop] at hpl
    have hpos : ∀ r ∈ (packItems [{ p with quantity := p.quantity }] w alg).1.map Prod.snd,
        0 < r.itemsPacked := by
      intro r hr
      obtain ⟨x, hx, hxr⟩ := List.mem_map.mp hr
      subst hxr
      exact packItems_results_pos _ w alg x hx
    have spec := processPackingResults_spec now acc.length p
      ((packItems [{ p with quantity := p.quantity }] w alg).1.map Prod.snd)
      (packItems [{ p with quantity := p.quantity }] w alg).2 hpos
    have := ih (acc ++ (processPackingResults now acc.length p
      ((packItems [{ p with quantity := p.quantity }] w alg).1.map Prod.snd)
      (packItems [{ p with quantity := p.quantity }] w alg).2).1) _ _ pl hpl
    rcases this with hmem | ⟨p', hp', hfr⟩
    · rcases List.mem_append.mp hmem with hacc | hbatch
      · exact Or.inl hacc
      · right
        refine ⟨p, List.mem_cons_self p rest, ?_⟩
        rw [spec.1] at hbatch
        obtain ⟨r, hr, hrpl⟩ := List.mem_map.mp hbatch
        obtain ⟨x, hx, hxr⟩ := List.mem_map.mp hr
        obtain ⟨p'', hp'', c, q, hpack⟩ :=
          packItems_prov [{ p with quantity := p.quantity }] w alg x hx
        have hp''eq : p'' = { p with quantity := p.quantity } := by
          simpa using hp''
        subst hp''eq
        subst hxr
        subst hrpl
        constructor
        · rfl
        · intro hfrag
          have hfrag' : ({ p with quantity := p.quantity } : Product).isFragile = true :=
            hfrag
          have := packProductInCarton_fragile_layers_le _ c q x.2 hfrag' hpack
          exact this
    · exact Or.inr ⟨p', List.mem_cons_of_mem _ hp', hfr⟩

end ShipWise

namespace ShipWise

theorem max_sub_le (a : ℤ) (u : ℕ) (h : (u : ℤ) ≤ max a 0) :
    max (a - u) 0 ≤ max a 0 - u := by
  rcases le_total a 0 with ha | ha
  · have hu : (u : ℤ) = 0 := by
      have : (0 : ℤ) ≤ u := by positivity
      rw [max_eq_right ha] at h
      omega
    rw [hu]
    simp
  · rw [max_eq_left ha] at h ⊢
    rw [max_eq_left (by omega)]

/-- Carton-type usage accounting through the engine's product loop: together
with the (nonnegative part of the) current availability of position `j`, the
number of placements whose carton id sits at position `j` never grows. -/
theorem engineProductLoop_countId (now : ℕ) (alg : Algorithm) (I : List ℕ)
    (hnodup : I.Nodup) (j v : ℕ) (hjv : I.get? j = some v) :
    ∀ (products : List Product) (acc : List Placement) (unp : List UnpackedProduct)
      (w : List Carton), w.map (fun c => c.id) = I →
      (countId (engineProductLoop now alg products acc unp w).1 v : ℤ) +
        max (availAt (engineProductLoop now alg products acc unp w).2.2 j) 0 ≤
      (countId acc v : ℤ) + max (availAt w j) 0 := by
  intro products
  induction products with
  | nil =>
    intro acc unp w hwI
    simp [engineProductLoop]
  | cons p rest ih =>
    intro acc unp w hwI
    simp only [engineProductLoop]
    have hpos : ∀ r ∈ (packItems [{ p with quantity := p.quantity }] w alg).1.map Prod.snd,
        0 < r.itemsPacked := by
      intro r hr
      obtain ⟨x, hx, hxr⟩ := List.mem_map.mp hr
      subst hxr
      exact packItems_results_pos _ w alg x hx
    have spec := processPackingResults_spec now acc.length p
      ((packItems [{ p with quantity := p.quantity }] w alg).1.map Prod.snd)
      (packItems [{ p with quantity := p.quantity }] w alg).2 hpos
    have havail := packItems_avail [{ p with quantity := p.quantity }] w alg j
    have hlink := packItems_id_link [{ p with quantity := p.quantity }] w alg
    -- the batch count equals the indexed use count
    have hcount : countId ((processPackingResults now acc.length p
        ((packItems [{ p with quantity := p.quantity }] w alg).1.map Prod.snd)
        (packItems [{ p with quantity := p.quantity }] w alg).2).1) v =
        usesAt (packItems [{ p with quantity := p.quantity }] w alg).1 j := by
      rw [spec.1]
      unfold countId usesAt
      rw [List.filter_map, List.length_map, List.filter_map, List.length_map]
      congr 1
      refine List.filter_congr ?_
      intro x hx
      have hid := hlink x hx
      rw [hwI] at hid
      have hxlen : x.1 < I.length := by
        rcases List.get?_eq_some.mp hid with ⟨hlt, -⟩
        exact hlt
      show decide (x.2.carton.id = v) = decide (x.1 = j)
      rw [decide_eq_decide]
      constructor
      · intro hv
        refine List.get?_inj hxlen hnodup ?_
        rw [hid, hjv, hv]
      · intro hj
        subst hj
        rw [hid] at hjv
        exact (Option.some.injEq _ _ ▸ hjv).symm ▸ rfl
    have hids' : (processPackingResults now acc.length p
        ((packItems [{ p with quantity := p.quantity }] w alg).1.map Prod.snd)
        (packItems [{ p with quantity := p.quantity }] w alg).2).2.2.map
          (fun c => c.id) = I := by
      rw [spec.2.2.2, packItems_map_id, hwI]
    have hrec := ih (acc ++ (processPackingResults now acc.length p
        ((packItems [{ p with quantity := p.quantity }] w alg).1.map Prod.snd)
        (packItems [{ p with quantity := p.quantity }] w alg).2).1)
      (if 0 < (processPackingResults now acc.length p
        ((packItems [{ p with quantity := p.quantity }] w alg).1.map Prod.snd)
        (packItems [{ p with quantity := p.quantity }] w alg).2).2.1 then
          unp ++ [⟨p.id, p.name, (processPackingResults now acc.length p
            ((packItems [{ p with quantity := p.quantity }] w alg).1.map Prod.snd)
            (packItems [{ p with quantity := p.quantity }] w alg).2).2.1⟩]
        else unp)
      (processPackingResults now acc.length p
        ((packItems [{ p with quantity := p.quantity }] w alg).1.map Prod.snd)
        (packItems [{ p with quantity := p.quantity }] w alg).2).2.2 hids'
    refine le_trans hrec ?_
    rw [countId_append, hcount]
    have hmono : availAt (processPackingResults now acc.length p
        ((packItems [{ p with quantity := p.quantity }] w alg).1.map Prod.snd)
        (packItems [{ p with quantity := p.quantity }] w alg).2).2.2 j ≤
        availAt w j -
          usesAt (packItems [{ p with quantity := p.quantity }] w alg).1 j := by
      refine le_trans (spec.2.2.1 j) ?_
      exact havail.2
    have hmax1 : max (availAt (processPackingResults now acc.length p
        ((packItems [{ p with quantity := p.quantity }] w alg).1.map Prod.snd)
        (packItems [{ p with quantity := p.quantity }] w alg).2).2.2 j) 0 ≤
        max (availAt w j -
          usesAt (packItems [{ p with quantity := p.quantity }] w alg).1 j) 0 :=
      max_zero_mono hmono
    have hmax2 := max_sub_le (availAt w j)
      (usesAt (packItems [{ p with quantity := p.quantity }] w alg).1 j) havail.1
    push_cast
    push_cast at hmax1 hmax2
    omega

end ShipWise

namespace ShipWise

/-! ## Total-failure analysis (no placement fits anywhere) -/

theorem packProductInCarton_eq_none_iff (p : Product) (c : Carton) (q : ℕ) :
    packProductInCarton p c q = none ↔
      ((¬p.canRotate ∧ ¬(canFitOrientation p c 0 = true)) ∨
        chooseBestLayout p c q = none) := by
  unfold packProductInCarton
  split
  next hguard => simp [hguard]
  next hguard =>
    cases hc : chooseBestLayout p c q with
    | none => simp [hguard, hc]
    | some y =>
      obtain ⟨l, o, s⟩ := y
      simp [hc]
      intro hcr
      by_contra hfit
      exact hguard ⟨by simp [hcr], hfit⟩

theorem chooseBestLayout_eq_none_iff (p : Product) (c : Carton) (q : ℕ) :
    chooseBestLayout p c q = none ↔
      ∀ o ∈ getAllOrientations p, calculateOptimal3DLayout p c o q = none := by
  unfold chooseBestLayout
  constructor
  · -- forward: an unsuccessful fold means every orientation failed
    have key : ∀ (l : List Orientation) (acc : Option (Layout × Orientation × ℚ)),
        l.foldl (chooseBestLayoutStep p c q) acc = none →
        acc = none ∧ ∀ o ∈ l, calculateOptimal3DLayout p c o q = none := by
      intro l
      induction l with
      | nil => intro acc h; exact ⟨h, by simp⟩
      | cons a t ih =>
        intro acc h
        rw [List.foldl_cons] at h
        obtain ⟨hstep, ht⟩ := ih (chooseBestLayoutStep p c q acc a) h
        have hcalc : calculateOptimal3DLayout p c a q = none ∧ acc = none := by
          unfold chooseBestLayoutStep at hstep
          split at hstep
          next heq => exact ⟨heq, hstep⟩
          next layout heq =>
            exfalso
            obtain ⟨-, -, -, -, -, -, hne, -, -, -⟩ :=
              calculateOptimal3DLayout_eq_some p c a q layout heq
            rw [if_pos (Nat.pos_of_ne_zero hne)] at hstep
            simp only [] at hstep
            cases hacc : acc with
            | none => rw [hacc] at hstep; cases hstep
            | some y =>
              obtain ⟨bl, bo, bs⟩ := y
              rw [hacc] at hstep
              have hstep' : (if bs < calculateLayoutScore layout p c then
                  (some (layout, a, calculateLayoutScore layout p c) :
                    Option (Layout × Orientation × ℚ))
                else some (bl, bo, bs)) = none := hstep
              split at hstep' <;> cases hstep' 
        refine ⟨hcalc.2, ?_⟩
        intro o ho
        rcases List.mem_cons.mp ho with ho | ho
        · subst ho; exact hcalc.1
        · exact ht o ho
    intro h
    exact (key (getAllOrientations p) none h).2
  · -- backward: all orientations fail, so the fold stays `none`
    intro h
    refine foldl_preserve_mem (chooseBestLayoutStep p c q) (fun acc => acc = none)
      (getAllOrientations p) none rfl ?_
    intro b a ha hb
    subst hb
    unfold chooseBestLayoutStep
    rw [h a ha]

theorem calculateOptimal3DLayout_eq_none_iff (p : Product) (c : Carton)
    (o : Orientation) (q : ℕ) :
    calculateOptimal3DLayout p c o q = none ↔
      ((o.dims.1 > c.length ∨ o.dims.2.1 > c.breadth ∨ o.dims.2.2 > c.height) ∨
       ⌊c.length / o.dims.1⌋₊ * ⌊c.breadth / o.dims.2.1⌋₊ = 0 ∨
       min (min (⌊c.length / o.dims.1⌋₊ * ⌊c.breadth / o.dims.2.1⌋₊ *
         calculateMaxStackLayers p c o.dims.2.2) ⌊c.maxWeight / p.weight⌋₊) q = 0) := by
  unfold calculateOptimal3DLayout
  simp only []
  split
  next hg => simp [hg]
  next hg =>
    split
    next h0 => simp [hg, h0]
    next h0 =>
      split
      next ha => simp [hg, h0, ha]
      next ha =>
        constructor
        · intro h; simp at h
        · intro h
          rcases h with h | h | h
          · exact absurd h hg
          · exact absurd h h0
          · exact absurd h ha

/-- If nothing fits for a remaining quantity of 1, nothing fits for any
remaining quantity: the quantity enters the layout only through the final
`min`. -/
theorem packProductInCarton_none_mono (p : Product) (c : Carton)
    (h : packProductInCarton p c 1 = none) (q : ℕ) :
    packProductInCarton p c q = none := by
  rw [packProductInCarton_eq_none_iff] at h ⊢
  rcases h with h | h
  · exact Or.inl h
  · right
    rw [chooseBestLayout_eq_none_iff] at h ⊢
    intro o ho
    have := h o ho
    rw [calculateOptimal3DLayout_eq_none_iff] at this ⊢
    rcases this with h' | h' | h'
    · exact Or.inl h'
    · exact Or.inr (Or.inl h')
    · right; right; omega

/-- Noneness of the Fit Calculator is stable under changing the product's
`quantity` field and the carton's `availableQuantity` field: neither is read
by the calculation. -/
theorem packProductInCarton_none_stable (p : Product) (c : Carton) (n : ℕ) (a : ℤ)
    (q : ℕ) (h : packProductInCarton p c q = none) :
    packProductInCarton { p with quantity := n } { c with availableQuantity := a } q =
      none := by
  rw [packProductInCarton_eq_none_iff] at h ⊢
  have e1 : ({ p with quantity := n } : Product).canRotate = p.canRotate := rfl
  have e2 : canFitOrientation { p with quantity := n } { c with availableQuantity := a } 0 =
      canFitOrientation p c 0 := rfl
  have e3 : chooseBestLayout { p with quantity := n } { c with availableQuantity := a } q =
      chooseBestLayout p c q := rfl
  rw [e1, e2, e3]
  exact h

end ShipWise

namespace ShipWise

theorem tryPackAt_none (p : Product) (s : List Carton) (q i : ℕ)
    (hp : ∀ c ∈ s, packProductInCarton p c q = none) :
    tryPackAt p s q i = none := by
  unfold tryPackAt
  split
  · rfl
  next c hg =>
    rw [hp c (List.get?_mem hg)]
    split <;> rfl

theorem ffdSelect_none (sortedIdx : List ℕ) (p : Product) (s : List Carton) (q : ℕ)
    (hp : ∀ c ∈ s, packProductInCarton p c q = none) :
    ffdSelect sortedIdx p s q = none := by
  unfold ffdSelect
  induction sortedIdx with
  | nil => rfl
  | cons i rest ih =>
    rw [List.findSome?_cons, tryPackAt_none p s q i hp]
    exact ih

theorem bfdSelect_none (p : Product) (s : List Carton) (q : ℕ)
    (hp : ∀ c ∈ s, packProductInCarton p c q = none) :
    bfdSelect p s q = none := by
  unfold bfdSelect
  have key : s.enum.foldl (bfdStep p q) none = none := by
    refine foldl_preserve_mem (bfdStep p q) (fun acc => acc = none) s.enum none rfl ?_
    intro b a ha hb
    subst hb
    have hmem : a.2 ∈ s := List.get?_mem (List.mem_enum_iff_get?.mp ha)
    unfold bfdStep
    rw [hp a.2 hmem]
    split <;> rfl
  rw [key]
  rfl

theorem guillotineSelect_none (p : Product) (s : List Carton) (q : ℕ)
    (hp : ∀ c ∈ s, packProductInCarton p c q = none) :
    guillotineSelect p s q = none := by
  unfold guillotineSelect
  refine foldl_preserve_mem (guillotineStep p q) (fun acc => acc = none) s.enum none rfl ?_
  intro b a ha hb
  subst hb
  have hmem : a.2 ∈ s := List.get?_mem (List.mem_enum_iff_get?.mp ha)
  unfold guillotineStep
  rw [packWithGuillotineConstraints_eq, hp a.2 hmem]
  split <;> rfl

theorem packLoop_out_none (select : List Carton → ℕ → Option (ℕ × PackingResult))
    (hsel : ∀ s q x, select s q = some x → 0 < x.2.itemsPacked)
    (s : List Carton) (q : ℕ) (hn : ∀ q', select s q' = none) :
    packLoop select hsel s q = ([], s) := by
  by_cases h : 0 < q
  · exact packLoop_select_none select hsel s q h (hn q)
  · exact packLoop_not_pos select hsel s q h

theorem runStrategyLoop_none
    (select : Product → List Carton → ℕ → Option (ℕ × PackingResult))
    (hsel : ∀ p s q x, select p s q = some x → 0 < x.2.itemsPacked)
    (products : List Product) (s : List Carton)
    (hn : ∀ p ∈ products, ∀ q', select p s q' = none) :
    runStrategyLoop select hsel products s = ([], s) := by
  induction products with
  | nil => rfl
  | cons p rest ih =>
    simp only [runStrategyLoop]
    rw [packLoop_out_none (select p) (hsel p) s p.quantity
      (hn p (List.mem_cons_self p rest))]
    rw [ih (fun p' hp' => hn p' (List.mem_cons_of_mem _ hp'))]
    simp

theorem firstFitDecreasing_none (products : List Product) (cartons : List Carton)
    (hp : ∀ p ∈ products, ∀ c ∈ cartons, ∀ q, packProductInCarton p c q = none) :
    firstFitDecreasing products cartons = ([], cartons) := by
  unfold firstFitDecreasing
  refine runStrategyLoop_none _ _ _ cartons ?_
  intro p hp' q
  exact ffdSelect_none _ p cartons q
    (fun c hc => hp p ((sortProductsByPriorityVolume_perm products).mem_iff.mp hp') c hc q)

theorem bestFitDecreasing_none (products : List Product) (cartons : List Carton)
    (hp : ∀ p ∈ products, ∀ c ∈ cartons, ∀ q, packProductInCarton p c q = none) :
    bestFitDecreasing products cartons = ([], cartons) := by
  unfold bestFitDecreasing
  refine runStrategyLoop_none _ _ _ cartons ?_
  intro p hp' q
  exact bfdSelect_none p cartons q
    (fun c hc => hp p ((sortProductsByPriorityVolume_perm products).mem_iff.mp hp') c hc q)

theorem packWithGuillotine_none (products : List Product) (cartons : List Carton)
    (hp : ∀ p ∈ products, ∀ c ∈ cartons, ∀ q, packProductInCarton p c q = none) :
    packWithGuillotine products cartons = ([], cartons) := by
  unfold packWithGuillotine
  refine runStrategyLoop_none _ _ _ cartons ?_
  intro p hp' q
  exact guillotineSelect_none p cartons q
    (fun c hc => hp p ((sortProductsByVolume_perm products).mem_iff.mp hp') c hc q)

theorem hybridPacking_none (products : List Product) (cartons : List Carton)
    (hp : ∀ p ∈ products, ∀ c ∈ cartons, ∀ q, packProductInCarton p c q = none) :
    hybridPacking products cartons = ([], cartons) := by
  have hf := firstFitDecreasing_none products cartons hp
  have hb := bestFitDecreasing_none products cartons hp
  have hg := packWithGuillotine_none products cartons hp
  unfold hybridPacking
  rw [hf]
  dsimp only
  rw [hb]
  dsimp only
  rw [hg]
  exact hf

theorem packItems_none (products : List Product) (cartons : List Carton)
    (algorithm : Algorithm)
    (hp : ∀ p ∈ products, ∀ c ∈ cartons, ∀ q, packProductInCarton p c q = none) :
    packItems products cartons algorithm = ([], cartons) := by
  cases algorithm with
  | ffd => exact firstFitDecreasing_none products cartons hp
  | bfd => exact bestFitDecreasing_none products cartons hp
  | guillotine => exact packWithGuillotine_none products cartons hp
  | skyline => exact firstFitDecreasing_none products cartons hp
  | hybrid => exact hybridPacking_none products cartons hp

/-- The engine's product loop when nothing fits anywhere: no placements, one
unpacked record per (positive-quantity) product, untouched catalog. -/
theorem engineProductLoop_none (now : ℕ) (alg : Algorithm) :
    ∀ (products : List Product) (acc : List Placement) (unp : List UnpackedProduct)
      (w : List Carton),
      (∀ p ∈ products, ∀ c ∈ w, ∀ q, packProductInCarton p c q = none) →
      (∀ p ∈ products, 0 < p.quantity) →
      engineProductLoop now alg products acc unp w =
        (acc, unp ++ products.map (fun p => ⟨p.id, p.name, (p.quantity : ℤ)⟩), w) := by
  intro products
  induction products with
  | nil => intro acc unp w _ _; simp [engineProductLoop]
  | cons p rest ih =>
    intro acc unp w hp hq
    simp only [engineProductLoop]
    have hsingle : ∀ p' ∈ [{ p with quantity := p.quantity }], ∀ c ∈ w, ∀ q,
        packProductInCarton p' c q = none := by
      intro p' hp' c hc q
      have : p' = { p with quantity := p.quantity } := by simpa using hp'
      subst this
      exact packProductInCarton_none_stable p c p.quantity c.availableQuantity q
        (hp p (List.mem_cons_self p rest) c hc q)
    rw [packItems_none [{ p with quantity := p.quantity }] w alg hsingle]
    have hproc : processPackingResults now acc.length p
        ((([] : List (ℕ × PackingResult)), w).1.map Prod.snd) (([], w) : List (ℕ × PackingResult) × List Carton).2
        = ([], (p.quantity : ℤ), w) := rfl
    rw [hproc]
    dsimp only
    have hqz : (0 : ℤ) < (p.quantity : ℤ) := by
      exact_mod_cast hq p (List.mem_cons_self p rest)
    rw [if_pos hqz, List.append_nil]
    refine (ih acc (unp ++ [⟨p.id, p.name, (p.quantity : ℤ)⟩]) w
      (fun p' hp' c hc q => hp p' (List.mem_cons_of_mem p hp') c hc q)
      (fun p' hp' => hq p' (List.mem_cons_of_mem p hp'))).trans ?_
    simp

end ShipWise

namespace ShipWise

/-- Transfer an all-orientations-fail hypothesis on the input catalog to the
engine's working copy (which maps `availableQuantity` 0 to 1), and from a
single requested unit to every requested quantity. -/
theorem initWorkingCartons_none (products : List Product) (cartons : List Carton)
    (hp : ∀ p ∈ products, ∀ c ∈ cartons, packProductInCarton p c 1 = none) :
    ∀ p ∈ products, ∀ c ∈ initWorkingCartons cartons, ∀ q,
      packProductInCarton p c q = none := by
  intro p hpp c hc q
  rcases List.mem_map.mp hc with ⟨c0, hc0, hfc⟩
  by_cases h0 : c0.availableQuantity = 0
  · rw [if_pos h0] at hfc
    subst hfc
    exact packProductInCarton_none_stable p c0 p.quantity 1 q
      (packProductInCarton_none_mono p c0 (hp p hpp c0 hc0) q)
  · rw [if_neg h0] at hfc
    subst hfc
    exact packProductInCarton_none_mono p c0 (hp p hpp c0 hc0) q

theorem calculateOptimalPacking_totalItemsPacked (now : ℕ) (products : List Product)
    (cartons : List Carton) (algorithm : Algorithm) :
    (calculateOptimalPacking now products cartons algorithm).summary.totalItemsPacked =
      ((engineProductLoop now algorithm products [] [] (initWorkingCartons cartons)).1.map
        (fun r => r.itemsPacked)).sum :=
  rfl

theorem calculateOptimalPacking_packingSuccess (now : ℕ) (products : List Product)
    (cartons : List Carton) (algorithm : Algorithm) :
    (calculateOptimalPacking now products cartons algorithm).summary.packingSuccess =
      (engineProductLoop now algorithm products [] [] (initWorkingCartons cartons)).2.1.isEmpty :=
  rfl

end ShipWise

namespace ShipWise

/-- C8: if no carton can hold any product in any orientation (the Fit
Calculator returns nothing for every product/carton pair), the engine still
returns a complete, well-formed result: no placements, `totalItemsPacked = 0`,
`packingSuccess = false`, and one unpacked entry per product carrying its full
requested quantity, so every requested unit is accounted for. -/
theorem C8_total_failure (now : ℕ) (products : List Product)
    (cartons : List Carton) (algorithm : Algorithm)
    (hne : products ≠ [])
    (hq : ∀ p ∈ products, 0 < p.quantity)
    (hp : ∀ p ∈ products, ∀ c ∈ cartons, packProductInCarton p c 1 = none) :
    (calculateOptimalPacking now products cartons algorithm).packingResults = [] ∧
    (calculateOptimalPacking now products cartons algorithm).summary.totalItemsPacked
      = 0 ∧
    (calculateOptimalPacking now products cartons algorithm).summary.packingSuccess
      = false ∧
    (calculateOptimalPacking now products cartons algorithm).unpackedProducts =
      products.map (fun p => ⟨p.id, p.name, (p.quantity : ℤ)⟩) ∧
    ((calculateOptimalPacking now products cartons algorithm).unpackedProducts.map
        (fun u => u.remainingQuantity)).sum =
      ((products.map (fun p => (p.quantity : ℤ))).sum) := by
  have hp' := initWorkingCartons_none products cartons hp
  have hloop := engineProductLoop_none now algorithm products [] []
    (initWorkingCartons cartons) hp' hq
  refine ⟨?_, ?_, ?_, ?_, ?_⟩
  · rw [calculateOptimalPacking_packingResults, hloop]
  · rw [calculateOptimalPacking_totalItemsPacked, hloop]
    rfl
  · rw [calculateOptimalPacking_packingSuccess, hloop]
    dsimp only
    rw [List.nil_append]
    cases products with
    | nil => exact absurd rfl hne
    | cons a l => rfl
  · rw [calculateOptimalPacking_unpackedProducts, hloop]
    simp
  · rw [calculateOptimalPacking_unpackedProducts, hloop]
    simp
    rfl

end ShipWise

namespace ShipWise

/-- An oversized, non-rotatable product: no orientation of it fits the demo
carton below. -/
def demoFailProduct : Product :=
  ⟨1, 1, 100, 100, 100, 1, 2, false, 10, 100, false, 1, 0, 0⟩

/-- A small carton the demo product cannot fit into. -/
def demoFailCarton : Carton :=
  ⟨1, 1, 10, 10, 10, 100, 5, 1, 1, 1, 1, true, 10⟩

theorem C8_total_failure_witness :
    ([demoFailProduct] ≠ [] ∧
      (∀ p ∈ [demoFailProduct], 0 < p.quantity) ∧
      (∀ p ∈ [demoFailProduct], ∀ c ∈ [demoFailCarton],
        packProductInCarton p c 1 = none)) ∧
    ((calculateOptimalPacking 0 [demoFailProduct] [demoFailCarton]
        Algorithm.hybrid).packingResults = [] ∧
      (calculateOptimalPacking 0 [demoFailProduct] [demoFailCarton]
        Algorithm.hybrid).summary.totalItemsPacked = 0 ∧
      (calculateOptimalPacking 0 [demoFailProduct] [demoFailCarton]
        Algorithm.hybrid).summary.packingSuccess = false ∧
      (calculateOptimalPacking 0 [demoFailProduct] [demoFailCarton]
        Algorithm.hybrid).unpackedProducts =
        [demoFailProduct].map (fun p => ⟨p.id, p.name, (p.quantity : ℤ)⟩) ∧
      ((calculateOptimalPacking 0 [demoFailProduct] [demoFailCarton]
          Algorithm.hybrid).unpackedProducts.map
          (fun u => u.remainingQuantity)).sum =
        (([demoFailProduct].map (fun p => (p.quantity : ℤ))).sum)) :=
  ⟨⟨by decide, by decide, by decide⟩,
    C8_total_failure 0 [demoFailProduct] [demoFailCarton] Algorithm.hybrid
      (by decide) (by decide) (by decide)⟩

end ShipWise

namespace ShipWise

/-- C1: conservation — for every run of the engine, over any product list,
carton catalog, algorithm and clock value, the total of `itemsPacked` over
the emitted placements plus the total of `remainingQuantity` over the
`unpackedProducts` entries equals the total requested quantity over the
input products. -/
theorem C1_conservation (now : ℕ) (products : List Product)
    (cartons : List Carton) (algorithm : Algorithm) :
    (sumPlacements (calculateOptimalPacking now products cartons
        algorithm).packingResults : ℤ) +
      sumUnpacked (calculateOptimalPacking now products cartons
        algorithm).unpackedProducts =
      (products.map (fun p => (p.quantity : ℤ))).sum := by
  rw [calculateOptimalPacking_packingResults, calculateOptimalPacking_unpackedProducts]
  simpa [sumPlacements, sumUnpacked] using
    engineProductLoop_conservation now algorithm products [] []
      (initWorkingCartons cartons)

end ShipWise

namespace ShipWise

/-- C2: the Fit Calculator's maximum vertical layer count is the four-way
minimum of physical height, weight bearing, the fragility cap
(`min 3 heightLimit` for fragile products) and the carton's own layer cap;
consequently a run of the engine over fragile products never emits a
placement stacking more than 3 layers, whatever the carton height allows. -/
theorem C2_fragile_layers :
    (∀ (product : Product) (carton : Carton) (itemHeight : ℚ),
      calculateMaxStackLayers product carton itemHeight =
        min ⌊carton.height / itemHeight⌋₊
          (min ⌊product.maxStackWeight / product.weight⌋₊
            (min (if product.isFragile = true
                  then min 3 ⌊carton.height / itemHeight⌋₊
                  else ⌊carton.height / itemHeight⌋₊)
              carton.maxStackLayers))) ∧
    (∀ (now : ℕ) (products : List Product) (cartons : List Carton)
        (algorithm : Algorithm) (pid : ℕ),
      (∀ p ∈ products, p.id = pid → p.isFragile = true) →
      ∀ pl ∈ (calculateOptimalPacking now products cartons algorithm).packingResults,
        pl.productId = pid → pl.layout.layers ≤ 3) := by
  constructor
  · intro product carton itemHeight
    simp [calculateMaxStackLayers, min_assoc]
  · intro now products cartons algorithm pid hfrag pl hpl hpid
    rw [calculateOptimalPacking_packingResults] at hpl
    rcases engineProductLoop_fragile now algorithm products [] []
        (initWorkingCartons cartons) pl hpl with h | ⟨p, hp, hid, himp⟩
    · simp at h
    · exact himp (hfrag p hp (by rw [← hid, hpid]))

end ShipWise

namespace ShipWise

theorem length_le_sumItems_of_pos (rs : List (ℕ × PackingResult))
    (h : ∀ x ∈ rs, 0 < x.2.itemsPacked) : rs.length ≤ sumItems rs := by
  induction rs with
  | nil => simp [sumItems]
  | cons x rest ih =>
    rw [sumItems_cons]
    have h1 := h x (List.mem_cons_self x rest)
    have h2 := ih (fun y hy => h y (List.mem_cons_of_mem x hy))
    simp only [List.length_cons]
    omega

/-- C9: progress and termination of every strategy's packing loop — each
emitted result of a strategy run packs at least one item (so every loop
iteration that does not exit strictly decreases the remaining quantity),
the total packed never exceeds the total requested, and the number of loop
iterations (results) is bounded by the total requested quantity, for every
algorithm the engine can select. -/
theorem C9_loop_progress :
    ∀ (products : List Product) (cartons : List Carton) (algorithm : Algorithm),
      (∀ x ∈ (packItems products cartons algorithm).1, 0 < x.2.itemsPacked) ∧
      sumItems (packItems products cartons algorithm).1 ≤
        (products.map (fun p => p.quantity)).sum ∧
      (packItems products cartons algorithm).1.length ≤
        (products.map (fun p => p.quantity)).sum := by
  intro products cartons algorithm
  refine ⟨packItems_results_pos products cartons algorithm,
    packItems_sumItems_le products cartons algorithm, ?_⟩
  exact le_trans
    (length_le_sumItems_of_pos _ (packItems_results_pos products cartons algorithm))
    (packItems_sumItems_le products cartons algorithm)

end ShipWise

namespace ShipWise

/-- C10 (amended): per-type carton usage bound — in one engine invocation,
with pairwise-distinct carton ids, the number of emitted placements consuming
a given carton type never exceeds `max(availableQuantity, 1)`: the type's
declared availability, except that the working copy's `availableQuantity || 1`
initialisation (line 846) floors it at one, so even a type declared with
availability 0 can be consumed once. -/
theorem C10_carton_usage_bound (now : ℕ) (products : List Product)
    (cartons : List Carton) (algorithm : Algorithm) (j : ℕ) (c : Carton)
    (hnodup : (cartons.map (fun c => c.id)).Nodup)
    (hc : cartons.get? j = some c) :
    (countId (calculateOptimalPacking now products cartons algorithm).packingResults
        c.id : ℤ) ≤ max c.availableQuantity 1 := by
  rw [calculateOptimalPacking_packingResults]
  have hI : (initWorkingCartons cartons).map (fun c => c.id) =
      cartons.map (fun c => c.id) := by
    unfold initWorkingCartons
    rw [List.map_map]
    refine List.map_congr_left (fun c0 _ => ?_)
    by_cases h0 : c0.availableQuantity = 0
    · simp [h0]
    · simp [h0]
  have hjv : (cartons.map (fun c => c.id)).get? j = some c.id := by
    rw [List.get?_map, hc]
    rfl
  have h := engineProductLoop_countId now algorithm (cartons.map (fun c => c.id))
    hnodup j c.id hjv products [] [] (initWorkingCartons cartons) hI
  have hinit : availAt (initWorkingCartons cartons) j =
      (if c.availableQuantity = 0 then 1 else c.availableQuantity) := by
    unfold availAt initWorkingCartons
    rw [List.get?_map, hc]
    by_cases h0 : c.availableQuantity = 0
    · simp [h0]
    · simp [h0]
  rw [hinit] at h
  have hcount0 : countId ([] : List Placement) c.id = 0 := rfl
  rw [hcount0] at h
  have h2 : (0 : ℤ) ≤
      max (availAt (engineProductLoop now algorithm products [] []
        (initWorkingCartons cartons)).2.2 j) 0 := le_max_right _ 0
  by_cases h0 : c.availableQuantity = 0
  · rw [if_pos h0] at h
    rw [max_eq_left (by omega : (0 : ℤ) ≤ 1)] at h
    rw [h0, max_eq_right (by omega : (0 : ℤ) ≤ 1)]
    omega
  · rw [if_neg h0] at h
    have hmm : max c.availableQuantity 0 ≤ max c.availableQuantity 1 :=
      max_le_max (le_refl _) (by omega)
    omega

theorem C10_carton_usage_bound_witness :
    (((([demoFailCarton] : List Carton).map (fun c => c.id)).Nodup) ∧
      ([demoFailCarton] : List Carton).get? 0 = some demoFailCarton) ∧
    (countId (calculateOptimalPacking 0 [demoFailProduct] [demoFailCarton]
        Algorithm.ffd).packingResults demoFailCarton.id : ℤ) ≤
      max demoFailCarton.availableQuantity 1 :=
  ⟨⟨by decide, by decide⟩,
    C10_carton_usage_bound 0 [demoFailProduct] [demoFailCarton] Algorithm.ffd 0
      demoFailCarton (by decide) (by decide)⟩

end ShipWise

namespace ShipWise

/-- C3: bounds and formula of the Fit Calculator — every layout it emits
packs `min(itemsPerLayer * maxLayers, floor(maxWeight / weight),
requestedRemainingQuantity)` items; that count is at most
`floor(carton.volume / orientedVolume) * maxLayers`, and its total weight
never exceeds the carton's weight limit (for positive oriented dimensions
and product weight). -/
theorem C3_fit_calculator_bounds (product : Product) (carton : Carton)
    (o : Orientation) (maxQuantity : ℕ) (l : Layout)
    (h : calculateOptimal3DLayout product carton o maxQuantity = some l)
    (hdl : 0 < o.dims.1) (hdb : 0 < o.dims.2.1) (hdh : 0 < o.dims.2.2)
    (hw : 0 < product.weight) :
    l.itemsPacked =
      min (min (l.itemsPerLayer * calculateMaxStackLayers product carton o.dims.2.2)
        ⌊carton.maxWeight / product.weight⌋₊) maxQuantity ∧
    l.itemsPacked ≤
      ⌊Carton.volume carton / (o.dims.1 * o.dims.2.1 * o.dims.2.2)⌋₊ *
        calculateMaxStackLayers product carton o.dims.2.2 ∧
    (l.itemsPacked : ℚ) * product.weight ≤ carton.maxWeight := by
  obtain ⟨h1, h2, h3, hper, hper0, hpacked, hp0, -, -, -⟩ :=
    calculateOptimal3DLayout_eq_some product carton o maxQuantity l h
  have hLpos : 0 < carton.length := lt_of_lt_of_le hdl h1
  have hBpos : 0 < carton.breadth := lt_of_lt_of_le hdb h2
  refine ⟨hpacked, ?_, ?_⟩
  · have hle1 : l.itemsPacked ≤
        l.itemsPerLayer * calculateMaxStackLayers product carton o.dims.2.2 := by
      rw [hpacked]
      exact le_trans (min_le_left _ _) (min_le_left _ _)
    have hfloor : l.itemsPerLayer ≤
        ⌊Carton.volume carton / (o.dims.1 * o.dims.2.1 * o.dims.2.2)⌋₊ := by
      rw [hper]
      apply Nat.le_floor
      have fl1 : (⌊carton.length / o.dims.1⌋₊ : ℚ) ≤ carton.length / o.dims.1 :=
        Nat.floor_le (le_of_lt (div_pos hLpos hdl))
      have fl2 : (⌊carton.breadth / o.dims.2.1⌋₊ : ℚ) ≤ carton.breadth / o.dims.2.1 :=
        Nat.floor_le (le_of_lt (div_pos hBpos hdb))
      have step1 : ((⌊carton.length / o.dims.1⌋₊ * ⌊carton.breadth / o.dims.2.1⌋₊ : ℕ) : ℚ) ≤
          (carton.length / o.dims.1) * (carton.breadth / o.dims.2.1) := by
        push_cast
        exact mul_le_mul fl1 fl2 (Nat.cast_nonneg _)
          (le_of_lt (div_pos hLpos hdl))
      have step2 : (carton.length / o.dims.1) * (carton.breadth / o.dims.2.1) ≤
          (carton.length / o.dims.1) * (carton.breadth / o.dims.2.1) *
            (carton.height / o.dims.2.2) := by
        refine le_mul_of_one_le_right ?_ ((one_le_div hdh).mpr h3)
        exact mul_nonneg (le_of_lt (div_pos hLpos hdl)) (le_of_lt (div_pos hBpos hdb))
      have step3 : (carton.length / o.dims.1) * (carton.breadth / o.dims.2.1) *
          (carton.height / o.dims.2.2) =
          Carton.volume carton / (o.dims.1 * o.dims.2.1 * o.dims.2.2) := by
        unfold Carton.volume
        rw [div_mul_div_comm, div_mul_div_comm]
      calc ((⌊carton.length / o.dims.1⌋₊ * ⌊carton.breadth / o.dims.2.1⌋₊ : ℕ) : ℚ)
          ≤ (carton.length / o.dims.1) * (carton.breadth / o.dims.2.1) := step1
        _ ≤ _ := step2
        _ = _ := step3
    exact le_trans hle1 (Nat.mul_le_mul_right _ hfloor)
  · have hle2 : l.itemsPacked ≤ ⌊carton.maxWeight / product.weight⌋₊ := by
      rw [hpacked]
      exact le_trans (min_le_left _ _) (min_le_right _ _)
    have hflpos : 0 < ⌊carton.maxWeight / product.weight⌋₊ := by omega
    have hx : (1 : ℚ) ≤ carton.maxWeight / product.weight := Nat.floor_pos.mp hflpos
    have hfle : (⌊carton.maxWeight / product.weight⌋₊ : ℚ) ≤
        carton.maxWeight / product.weight :=
      Nat.floor_le (le_trans zero_le_one hx)
    have hcast : (l.itemsPacked : ℚ) ≤ carton.maxWeight / product.weight :=
      le_trans (by exact_mod_cast Nat.cast_le.mpr hle2) hfle
    exact (le_div_iff₀ hw).mp hcast

/-- A unit cube product for exercising the Fit Calculator on concrete data. -/
def demoFitProduct : Product := ⟨2, 2, 1, 1, 1, 1, 3, false, 10, 10, true, 1, 0, 0⟩

/-- A 2×2×2 carton holding eight unit cubes. -/
def demoFitCarton : Carton := ⟨2, 2, 2, 2, 2, 10, 4, 2, 1, 1, 1, true, 5⟩

/-- Orientation 0 of the demo product. -/
def demoFitOrientation : Orientation := ⟨(1, 1, 1), 0⟩

/-- The layout the Fit Calculator returns for the demo inputs. -/
def demoFitLayout : Layout :=
  (calculateOptimal3DLayout demoFitProduct demoFitCarton demoFitOrientation 3).getD
    ⟨0, 0, 0, 0, 0, [], ⟨0, 0, 0, false, 0, false⟩, 0, ⟨0, 0, 0⟩⟩

unseal Rat.mul Rat.inv Rat.add Rat.sub in
theorem C3_fit_calculator_bounds_witness :
    (calculateOptimal3DLayout demoFitProduct demoFitCarton demoFitOrientation 3 =
        some demoFitLayout ∧
      (0 : ℚ) < demoFitOrientation.dims.1 ∧
      (0 : ℚ) < demoFitOrientation.dims.2.1 ∧
      (0 : ℚ) < demoFitOrientation.dims.2.2 ∧
      (0 : ℚ) < demoFitProduct.weight) ∧
    (demoFitLayout.itemsPacked =
      min (min (demoFitLayout.itemsPerLayer *
          calculateMaxStackLayers demoFitProduct demoFitCarton
            demoFitOrientation.dims.2.2)
        ⌊demoFitCarton.maxWeight / demoFitProduct.weight⌋₊) 3 ∧
    demoFitLayout.itemsPacked ≤
      ⌊Carton.volume demoFitCarton /
          (demoFitOrientation.dims.1 * demoFitOrientation.dims.2.1 *
            demoFitOrientation.dims.2.2)⌋₊ *
        calculateMaxStackLayers demoFitProduct demoFitCarton
          demoFitOrientation.dims.2.2 ∧
    (demoFitLayout.itemsPacked : ℚ) * demoFitProduct.weight ≤
      demoFitCarton.maxWeight) :=
  ⟨⟨by decide, by decide, by decide, by decide, by decide⟩,
    C3_fit_calculator_bounds demoFitProduct demoFitCarton demoFitOrientation 3
      demoFitLayout (by decide) (by decide) (by decide) (by decide) (by decide)⟩

end ShipWise

namespace ShipWise

/-- Zero out the wall-clock field of a placement. -/
def setTime0 (pl : Placement) : Placement := { pl with timestamp := 0 }

/-- Zero out the two wall-clock-derived fields of an engine output. -/
def stripTime (out : EngineOutput) : EngineOutput :=
  { out with
    packingResults := out.packingResults.map setTime0
  , metadata := { calculationTime := 0 } }

theorem tEq_length (l₁ l₂ : List Placement) (h : l₁.map setTime0 = l₂.map setTime0) :
    l₁.length = l₂.length := by
  have := congrArg List.length h
  simpa using this

theorem tEq_map {α : Type} (f : Placement → α) (hf : ∀ pl, f (setTime0 pl) = f pl)
    (l₁ l₂ : List Placement) (h : l₁.map setTime0 = l₂.map setTime0) :
    l₁.map f = l₂.map f := by
  have hc : ∀ l : List Placement, l.map f = (l.map setTime0).map f := by
    intro l
    rw [List.map_map]
    exact (List.map_congr_left (fun pl _ => (hf pl).symm))
  rw [hc l₁, hc l₂, h]

theorem tEq_filter (p : Placement → Bool) (hp : ∀ pl, p (setTime0 pl) = p pl)
    (l₁ l₂ : List Placement) (h : l₁.map setTime0 = l₂.map setTime0) :
    (l₁.filter p).map setTime0 = (l₂.filter p).map setTime0 := by
  have hc : ∀ l : List Placement, (l.filter p).map setTime0 = (l.map setTime0).filter p := by
    intro l
    rw [List.filter_map]
    congr 1
    exact List.filter_congr (fun pl _ => (hp pl).symm)
  rw [hc l₁, hc l₂, h]

theorem tEq_foldl {β : Type} (g : β → Placement → β)
    (hg : ∀ b pl, g b (setTime0 pl) = g b pl) (i : β)
    (l₁ l₂ : List Placement) (h : l₁.map setTime0 = l₂.map setTime0) :
    l₁.foldl g i = l₂.foldl g i := by
  have hc : ∀ l : List Placement, l.foldl g i = (l.map setTime0).foldl g i := by
    intro l
    rw [List.foldl_map]
    congr 1
    funext b pl
    exact (hg b pl).symm
  rw [hc l₁, hc l₂, h]

theorem processFold_time (n₁ n₂ k : ℕ) (p : Product) :
    ∀ (rs : List PackingResult) (a₁ a₂ : List Placement × ℤ × List Carton),
      a₁.1.map setTime0 = a₂.1.map setTime0 → a₁.2 = a₂.2 →
      ((rs.foldl (processStep n₁ k p) a₁).1.map setTime0 =
        (rs.foldl (processStep n₂ k p) a₂).1.map setTime0) ∧
      (rs.foldl (processStep n₁ k p) a₁).2 = (rs.foldl (processStep n₂ k p) a₂).2 := by
  intro rs
  induction rs with
  | nil => intro a₁ a₂ h1 h2; exact ⟨h1, h2⟩
  | cons r rest ih =>
    intro a₁ a₂ h1 h2
    simp only [List.foldl_cons]
    refine ih (processStep n₁ k p a₁ r) (processStep n₂ k p a₂ r) ?_ ?_
    · unfold processStep
      split
      · simp only [List.map_append]
        rw [h1]
        have he : setTime0 (mkPlacement n₁ (k + 1) p r) =
            setTime0 (mkPlacement n₂ (k + 1) p r) := rfl
        simp [he]
      · exact h1
    · unfold processStep
      split
      · rw [h2]
      · exact h2

theorem engineProductLoop_time (alg : Algorithm) (n₁ n₂ : ℕ) :
    ∀ (products : List Product) (acc₁ acc₂ : List Placement)
      (unp : List UnpackedProduct) (w : List Carton),
      acc₁.map setTime0 = acc₂.map setTime0 →
      ((engineProductLoop n₁ alg products acc₁ unp w).1.map setTime0 =
        (engineProductLoop n₂ alg products acc₂ unp w).1.map setTime0) ∧
      (engineProductLoop n₁ alg products acc₁ unp w).2 =
        (engineProductLoop n₂ alg products acc₂ unp w).2 := by
  intro products
  induction products with
  | nil =>
    intro acc₁ acc₂ unp w h
    exact ⟨h, rfl⟩
  | cons p rest ih =>
    intro acc₁ acc₂ unp w h
    simp only [engineProductLoop]
    have hlen : acc₁.length = acc₂.length := tEq_length acc₁ acc₂ h
    rw [hlen]
    have hproc : ((processPackingResults n₁ acc₂.length p
        ((packItems [{ p with quantity := p.quantity }] w alg).1.map Prod.snd)
        (packItems [{ p with quantity := p.quantity }] w alg).2).1.map setTime0 =
          (processPackingResults n₂ acc₂.length p
        ((packItems [{ p with quantity := p.quantity }] w alg).1.map Prod.snd)
        (packItems [{ p with quantity := p.quantity }] w alg).2).1.map setTime0) ∧
        (processPackingResults n₁ acc₂.length p
        ((packItems [{ p with quantity := p.quantity }] w alg).1.map Prod.snd)
        (packItems [{ p with quantity := p.quantity }] w alg).2).2 =
          (processPackingResults n₂ acc₂.length p
        ((packItems [{ p with quantity := p.quantity }] w alg).1.map Prod.snd)
        (packItems [{ p with quantity := p.quantity }] w alg).2).2 :=
      processFold_time n₁ n₂ acc₂.length p
        ((packItems [{ p with quantity := p.quantity }] w alg).1.map Prod.snd)
        ([], (p.quantity : ℤ), (packItems [{ p with quantity := p.quantity }] w alg).2)
        ([], (p.quantity : ℤ), (packItems [{ p with quantity := p.quantity }] w alg).2)
        rfl rfl
    rw [hproc.2]
    refine ih _ _ _ _ ?_
    simp only [List.map_append]
    rw [h, hproc.1]

end ShipWise

namespace ShipWise

theorem avgVolumeEff_time (l₁ l₂ : List Placement)
    (h : l₁.map setTime0 = l₂.map setTime0) : avgVolumeEff l₁ = avgVolumeEff l₂ := by
  have hv := tEq_map (fun r => r.efficiency.volumeEfficiency) (fun pl => rfl) l₁ l₂ h
  have hl := tEq_length l₁ l₂ h
  unfold avgVolumeEff
  cases l₁ with
  | nil =>
    cases l₂ with
    | nil => rfl
    | cons b bs => simp at h
  | cons a as =>
    cases l₂ with
    | nil => simp at h
    | cons b bs => rw [hv, hl]

theorem overallScore_time (l₁ l₂ : List Placement)
    (h : l₁.map setTime0 = l₂.map setTime0) :
    calculateOverallPackingScore l₁ = calculateOverallPackingScore l₂ := by
  have hv := tEq_map (fun r => r.efficiency.volumeEfficiency) (fun pl => rfl) l₁ l₂ h
  have hs := tEq_map (fun r => r.efficiency.spaceUtilization) (fun pl => rfl) l₁ l₂ h
  have hc := tEq_map (fun r => 1 / (r.cost.total + 1)) (fun pl => rfl) l₁ l₂ h
  have hl := tEq_length l₁ l₂ h
  unfold calculateOverallPackingScore
  cases l₁ with
  | nil =>
    cases l₂ with
    | nil => rfl
    | cons b bs => simp at h
  | cons a as =>
    cases l₂ with
    | nil => simp at h
    | cons b bs => rw [hv, hs, hc, hl]

theorem wasteAnalysis_time (l₁ l₂ : List Placement)
    (h : l₁.map setTime0 = l₂.map setTime0) :
    calculateWasteAnalysis l₁ = calculateWasteAnalysis l₂ := by
  have hv := tEq_map (fun r => r.cartonDetails.volume) (fun pl => rfl) l₁ l₂ h
  have hw := tEq_map (fun r => r.packingMetrics.wasteSpace) (fun pl => rfl) l₁ l₂ h
  have hl := tEq_length l₁ l₂ h
  unfold calculateWasteAnalysis
  rw [hv, hw, hl]

theorem stackingGain_time (s₁ s₂ t₁ t₂ : List Placement)
    (hs : s₁.map setTime0 = s₂.map setTime0) (ht : t₁.map setTime0 = t₂.map setTime0) :
    calculateStackingEfficiencyGain s₁ t₁ = calculateStackingEfficiencyGain s₂ t₂ := by
  have hsv := tEq_map (fun r => r.efficiency.volumeEfficiency) (fun pl => rfl) s₁ s₂ hs
  have hsl := tEq_length s₁ s₂ hs
  have htv := tEq_map (fun r => r.efficiency.volumeEfficiency) (fun pl => rfl) t₁ t₂ ht
  have htl := tEq_length t₁ t₂ ht
  unfold calculateStackingEfficiencyGain
  cases s₁ with
  | nil =>
    cases s₂ with
    | nil => rfl
    | cons b bs => simp at hs
  | cons a as =>
    cases s₂ with
    | nil => simp at hs
    | cons b bs =>
      cases t₁ with
      | nil =>
        cases t₂ with
        | nil => rw [hsv, hsl]
        | cons d ds => simp at ht
      | cons c cs =>
        cases t₂ with
        | nil => simp at ht
        | cons d ds => rw [hsv, hsl, htv, htl]

theorem stackingAnalysis_time (l₁ l₂ : List Placement)
    (h : l₁.map setTime0 = l₂.map setTime0) :
    calculateStackingAnalysis l₁ = calculateStackingAnalysis l₂ := by
  have hst := tEq_filter (fun r => decide (1 < r.stackingInfo.totalLayers))
    (fun pl => rfl) l₁ l₂ h
  have hsg := tEq_filter (fun r => decide (r.stackingInfo.totalLayers = 1))
    (fun pl => rfl) l₁ l₂ h
  have hstl := tEq_length _ _ hst
  have hsgl := tEq_length _ _ hsg
  have hgain := stackingGain_time _ _ _ _ hst hsg
  have hmap := tEq_map (fun r => (r.stackingInfo.totalLayers : ℚ)) (fun pl => rfl)
    _ _ hst
  have hfrag := tEq_length _ _
    (tEq_filter (fun r => r.stackingInfo.isFragileStacking) (fun pl => rfl) _ _ hst)
  unfold calculateStackingAnalysis
  simp only []
  cases hc1 : l₁.filter (fun r => decide (1 < r.stackingInfo.totalLayers)) with
  | nil =>
    cases hc2 : l₂.filter (fun r => decide (1 < r.stackingInfo.totalLayers)) with
    | nil =>
      rw [hc1, hc2] at hstl hgain hfrag
      rw [hsgl, hgain, hfrag]
    | cons b bs =>
      rw [hc1, hc2] at hst
      simp at hst
  | cons a as =>
    cases hc2 : l₂.filter (fun r => decide (1 < r.stackingInfo.totalLayers)) with
    | nil =>
      rw [hc1, hc2] at hst
      simp at hst
    | cons b bs =>
      rw [hc1, hc2] at hstl hgain hfrag hmap
      rw [hstl, hsgl, hgain, hfrag, hmap]

theorem recommendations_time (l₁ l₂ : List Placement)
    (u : List UnpackedProduct) (cs : List Carton)
    (h : l₁.map setTime0 = l₂.map setTime0) :
    generatePackingRecommendations l₁ u cs = generatePackingRecommendations l₂ u cs := by
  have hcost := tEq_map (fun r => r.cost.total) (fun pl => rfl) l₁ l₂ h
  have hl := tEq_length l₁ l₂ h
  unfold generatePackingRecommendations
  simp only []
  rw [hcost, hl]
  have hhigh := tEq_filter
    (fun r => decide (((l₂.map (fun r => r.cost.total)).sum / (l₂.length : ℚ)) <
      r.cost.total)) (fun pl => rfl) l₁ l₂ h
  have hhl := tEq_length _ _ hhigh
  have hhm := tEq_map (fun r => r.cartonId) (fun pl => rfl) _ _ hhigh
  have hlow := tEq_filter (fun r => decide (r.efficiency.volumeEfficiency < 60))
    (fun pl => rfl) l₁ l₂ h
  have hll := tEq_length _ _ hlow
  have hlm := tEq_map (fun r => r.cartonId) (fun pl => rfl) _ _ hlow
  have hsg := tEq_filter (fun r => decide (r.stackingInfo.totalLayers = 1))
    (fun pl => rfl) l₁ l₂ h
  have hsgl := tEq_length _ _ hsg
  have hsgm := tEq_map (fun r => r.cartonId) (fun pl => rfl) _ _ hsg
  rw [hhl, hhm, hll, hlm, hsgl, hsgm]

theorem carbon_time (l₁ l₂ : List Placement)
    (h : l₁.map setTime0 = l₂.map setTime0) :
    estimateCarbonFootprint l₁ = estimateCarbonFootprint l₂ := by
  have hv := tEq_map (fun r => r.cartonDetails.volume) (fun pl => rfl) l₁ l₂ h
  have hw := tEq_map (fun r => (r.itemsPacked : ℚ) * 0.5) (fun pl => rfl) l₁ l₂ h
  unfold estimateCarbonFootprint
  rw [hv, hw]

theorem cartonBreakdown_time (l₁ l₂ : List Placement)
    (h : l₁.map setTime0 = l₂.map setTime0) :
    l₁.foldl updateCartonTypeAnalysis [] = l₂.foldl updateCartonTypeAnalysis [] :=
  tEq_foldl updateCartonTypeAnalysis (fun b pl => rfl) [] l₁ l₂ h

end ShipWise

namespace ShipWise

/-- C5 (amended): the engine is a pure function of its inputs and the clock;
once the two wall-clock-derived fields (`timestamp` of each placement and
`metadata.calculationTime`) are stripped, runs at different clock values over
identical inputs give identical outputs. -/
theorem C5_determinism_modulo_time (n₁ n₂ : ℕ) (products : List Product)
    (cartons : List Carton) (algorithm : Algorithm) :
    stripTime (calculateOptimalPacking n₁ products cartons algorithm) =
      stripTime (calculateOptimalPacking n₂ products cartons algorithm) := by
  obtain ⟨hR, hT⟩ := engineProductLoop_time algorithm n₁ n₂ products [] [] []
    (initWorkingCartons cartons) rfl
  have hUn : (engineProductLoop n₁ algorithm products [] []
      (initWorkingCartons cartons)).2.1 =
      (engineProductLoop n₂ algorithm products [] []
      (initWorkingCartons cartons)).2.1 := congrArg Prod.fst hT
  have hitems := tEq_map (fun r => r.itemsPacked) (fun pl => rfl) _ _ hR
  have hlen := tEq_length _ _ hR
  have hcost := tEq_map (fun r => r.cost.total) (fun pl => rfl) _ _ hR
  have havg := avgVolumeEff_time _ _ hR
  have hbrk := cartonBreakdown_time _ _ hR
  have hscore := overallScore_time _ _ hR
  have hwaste := wasteAnalysis_time _ _ hR
  have hstack := stackingAnalysis_time _ _ hR
  have hrec := recommendations_time _ _
    (engineProductLoop n₂ algorithm products [] [] (initWorkingCartons cartons)).2.1
    cartons hR
  have hwsp := tEq_map (fun r => r.packingMetrics.wasteSpace) (fun pl => rfl) _ _ hR
  have hcarb := carbon_time _ _ hR
  unfold calculateOptimalPacking stripTime
  simp only []
  rw [hR, hUn, hitems, hlen, hcost, havg, hbrk, hscore, hwaste, hstack, hrec,
    hwsp, hcarb]

/-- Running the engine at two different clock values over identical inputs
gives different outputs: `metadata.calculationTime` records the clock. -/
theorem C5_determinism_counterexample :
    calculateOptimalPacking 0 [] [] Algorithm.hybrid ≠
      calculateOptimalPacking 1 [] [] Algorithm.hybrid := by
  intro h
  have h2 := congrArg (fun o => o.metadata.calculationTime) h
  have h3 : (0 : ℕ) = 1 := h2
  cases h3

end ShipWise

namespace ShipWise

theorem runStrategyLoop_singleton
    (select : Product → List Carton → ℕ → Option (ℕ × PackingResult))
    (hsel : ∀ p s q x, select p s q = some x → 0 < x.2.itemsPacked)
    (p : Product) (s : List Carton) (x : ℕ × PackingResult)
    (h1 : 0 < p.quantity) (hs : select p s p.quantity = some x)
    (hall : p.quantity ≤ x.2.itemsPacked) :
    runStrategyLoop select hsel [p] s = ([x], decrementAt s x.1) := by
  simp only [runStrategyLoop]
  rw [packLoop_select_some (select p) (hsel p) s p.quantity x h1 hs]
  have hz : p.quantity - x.2.itemsPacked = 0 := by omega
  rw [hz, packLoop_not_pos (select p) (hsel p) (decrementAt s x.1) 0 (by omega)]
  simp

theorem runStrategyLoop_singleton_none
    (select : Product → List Carton → ℕ → Option (ℕ × PackingResult))
    (hsel : ∀ p s q x, select p s q = some x → 0 < x.2.itemsPacked)
    (p : Product) (s : List Carton)
    (h1 : 0 < p.quantity) (hn : select p s p.quantity = none) :
    runStrategyLoop select hsel [p] s = ([], s) := by
  simp only [runStrategyLoop]
  rw [packLoop_select_none (select p) (hsel p) s p.quantity h1 hn]
  simp

/-- Availability at any position never increases over an FFD run. -/
theorem firstFitDecreasing_avail_le (products : List Product) (cartons : List Carton)
    (j : ℕ) :
    availAt (firstFitDecreasing products cartons).2 j ≤ availAt cartons j := by
  obtain ⟨heq, -⟩ := firstFitDecreasing_avail products cartons j
  have : (0 : ℤ) ≤ (usesAt (firstFitDecreasing products cartons).1 j : ℤ) :=
    Int.natCast_nonneg _
  omega

theorem bestFitDecreasing_avail_le (products : List Product) (cartons : List Carton)
    (j : ℕ) :
    availAt (bestFitDecreasing products cartons).2 j ≤ availAt cartons j := by
  obtain ⟨heq, -⟩ := bestFitDecreasing_avail products cartons j
  have : (0 : ℤ) ≤ (usesAt (bestFitDecreasing products cartons).1 j : ℤ) :=
    Int.natCast_nonneg _
  omega

theorem packWithGuillotine_avail_le (products : List Product) (cartons : List Carton)
    (j : ℕ) :
    availAt (packWithGuillotine products cartons).2 j ≤ availAt cartons j := by
  obtain ⟨heq, -⟩ := packWithGuillotine_avail products cartons j
  have : (0 : ℤ) ≤ (usesAt (packWithGuillotine products cartons).1 j : ℤ) :=
    Int.natCast_nonneg _
  omega

end ShipWise

namespace ShipWise

/-- C4 (amended): the hybrid orchestrator does **not** give each strategy an
independent clone — it threads one working catalog through FFD, then BFD,
then the guillotine variant (and through the fallback run when all three come
back empty), so the final catalog is the one the last run left, and the
availability at every catalog position never increases across the whole
hybrid invocation. -/
theorem C4_hybrid_threads_one_catalog (products : List Product)
    (cartons : List Carton) :
    ((hybridPacking products cartons).2 =
        (packWithGuillotine products (bestFitDecreasing products
          (firstFitDecreasing products cartons).2).2).2 ∨
      (hybridPacking products cartons).2 =
        (basicPacking products (packWithGuillotine products (bestFitDecreasing
          products (firstFitDecreasing products cartons).2).2).2).2) ∧
    (∀ j, availAt (bestFitDecreasing products
        (firstFitDecreasing products cartons).2).2 j ≤
      availAt (firstFitDecreasing products cartons).2 j) ∧
    (∀ j, availAt (firstFitDecreasing products cartons).2 j ≤ availAt cartons j) ∧
    (∀ j, availAt (hybridPacking products cartons).2 j ≤ availAt cartons j) := by
  have hbf : ∀ j, availAt (bestFitDecreasing products
      (firstFitDecreasing products cartons).2).2 j ≤
      availAt (firstFitDecreasing products cartons).2 j :=
    fun j => bestFitDecreasing_avail_le products _ j
  have hf : ∀ j, availAt (firstFitDecreasing products cartons).2 j ≤
      availAt cartons j :=
    fun j => firstFitDecreasing_avail_le products cartons j
  have hg : ∀ j, availAt (packWithGuillotine products (bestFitDecreasing products
      (firstFitDecreasing products cartons).2).2).2 j ≤
      availAt (bestFitDecreasing products (firstFitDecreasing products
        cartons).2).2 j :=
    fun j => packWithGuillotine_avail_le products _ j
  have hcase :
      (hybridPacking products cartons).2 =
        (packWithGuillotine products (bestFitDecreasing products
          (firstFitDecreasing products cartons).2).2).2 ∨
      (hybridPacking products cartons).2 =
        (basicPacking products (packWithGuillotine products (bestFitDecreasing
          products (firstFitDecreasing products cartons).2).2).2).2 := by
    rcases hybridPacking_cases products cartons with h | h | h | h
    · exact Or.inl (by rw [h])
    · exact Or.inl (by rw [h])
    · exact Or.inl (by rw [h])
    · exact Or.inr (by rw [h])
  refine ⟨hcase, hbf, hf, ?_⟩
  intro j
  rcases hcase with h | h
  · rw [h]
    exact le_trans (hg j) (le_trans (hbf j) (hf j))
  · rw [h]
    exact le_trans (firstFitDecreasing_avail_le products _ j)
      (le_trans (hg j) (le_trans (hbf j) (hf j)))

end ShipWise

namespace ShipWise

/-- A unit product requesting one item. -/
def demoShareProduct : Product := ⟨3, 3, 1, 1, 1, 1, 1, false, 10, 10, false, 1, 0, 0⟩

/-- A single-availability unit carton. -/
def demoShareCarton : Carton := ⟨3, 3, 1, 1, 1, 10, 1, 1, 1, 1, 1, true, 5⟩

/-- `demoShareCarton` after FFD has consumed its only instance. -/
def demoShareCartonUsed : Carton := ⟨3, 3, 1, 1, 1, 10, 0, 1, 1, 1, 1, true, 5⟩

unseal Rat.mul Rat.inv Rat.add Rat.sub in
/-- Inside one hybrid invocation, BFD runs on the catalog state FFD left and
packs nothing, while BFD on a fresh copy of the same input catalog packs the
product: the strategies observe each other's decrements. -/
theorem C4_hybrid_shared_state_counterexample :
    (bestFitDecreasing [demoShareProduct]
      ((firstFitDecreasing [demoShareProduct] [demoShareCarton]).2)).1 = [] ∧
    (bestFitDecreasing [demoShareProduct] [demoShareCarton]).1 ≠ [] := by
  have hsome : (ffdSelect [0] demoShareProduct [demoShareCarton] 1).map Prod.fst =
      some 0 := by decide
  have hffd : (firstFitDecreasing [demoShareProduct] [demoShareCarton]).2 =
      [demoShareCartonUsed] := by
    have hb : firstFitDecreasing [demoShareProduct] [demoShareCarton] =
        runStrategyLoop (fun p => ffdSelect [0] p)
          (fun p => ffdSelect_itemsPacked_pos [0] p)
          [demoShareProduct] [demoShareCarton] := rfl
    cases hx : ffdSelect [0] demoShareProduct [demoShareCarton] 1 with
    | none => rw [hx] at hsome; cases hsome
    | some x =>
      have hx1 : x.1 = 0 := by
        rw [hx] at hsome
        simpa using hsome
      have hpos : 0 < x.2.itemsPacked :=
        ffdSelect_itemsPacked_pos [0] demoShareProduct [demoShareCarton] 1 x hx
      rw [hb, runStrategyLoop_singleton (fun p => ffdSelect [0] p)
        (fun p => ffdSelect_itemsPacked_pos [0] p) demoShareProduct
        [demoShareCarton] x (by decide) hx
        (by have hq : demoShareProduct.quantity = 1 := rfl; omega)]
      rw [hx1]
      rfl
  constructor
  · rw [hffd]
    have hb2 : bestFitDecreasing [demoShareProduct] [demoShareCartonUsed] =
        runStrategyLoop bfdSelect bfdSelect_itemsPacked_pos
          [demoShareProduct] [demoShareCartonUsed] := rfl
    rw [hb2, runStrategyLoop_singleton_none bfdSelect bfdSelect_itemsPacked_pos
      demoShareProduct [demoShareCartonUsed] (by decide) (by decide)]
  · have hbsome : (bfdSelect demoShareProduct [demoShareCarton] 1).isSome = true := by
      decide
    have hb3 : bestFitDecreasing [demoShareProduct] [demoShareCarton] =
        runStrategyLoop bfdSelect bfdSelect_itemsPacked_pos
          [demoShareProduct] [demoShareCarton] := rfl
    cases hy : bfdSelect demoShareProduct [demoShareCarton] 1 with
    | none => rw [hy] at hbsome; cases hbsome
    | some y =>
      have hpos : 0 < y.2.itemsPacked :=
        bfdSelect_itemsPacked_pos demoShareProduct [demoShareCarton] 1 y hy
      rw [hb3, runStrategyLoop_singleton bfdSelect bfdSelect_itemsPacked_pos
        demoShareProduct [demoShareCarton] y (by decide) hy
        (by have hq : demoShareProduct.quantity = 1 := rfl; omega)]
      simp

end ShipWise

namespace ShipWise

/-- The orientation fold keeps a feasible layout of maximal layout score
(strictly-greater wins; the incumbent survives ties). -/
theorem chooseBestLayoutFold_max (product : Product) (carton : Carton) (maxQ : ℕ) :
    ∀ (os : List Orientation) (acc : Option (Layout × Orientation × ℚ)),
      (∀ bl bo bs, acc = some (bl, bo, bs) →
        bs = calculateLayoutScore bl product carton ∧
        calculateOptimal3DLayout product carton bo maxQ = some bl) →
      ∀ (l : Layout) (o : Orientation) (s : ℚ),
      os.foldl (chooseBestLayoutStep product carton maxQ) acc = some (l, o, s) →
      (s = calculateLayoutScore l product carton ∧
        calculateOptimal3DLayout product carton o maxQ = some l) ∧
      (∀ bl bo bs, acc = some (bl, bo, bs) → bs ≤ s) ∧
      (∀ o' ∈ os, ∀ l', calculateOptimal3DLayout product carton o' maxQ = some l' →
        calculateLayoutScore l' product carton ≤ s) := by
  intro os
  induction os with
  | nil =>
    intro acc hacc l o s h
    simp only [List.foldl_nil] at h
    refine ⟨hacc l o s h, ?_, ?_⟩
    · intro bl bo bs hb
      rw [h] at hb
      have ht := Option.some.inj hb
      exact le_of_eq (congrArg (fun t => t.2.2) ht).symm
    · intro o' ho'
      exact absurd ho' (List.not_mem_nil o')
  | cons o₀ rest ih =>
    intro acc hacc l o s h
    simp only [List.foldl_cons] at h
    cases hc : calculateOptimal3DLayout product carton o₀ maxQ with
    | none =>
      have hstep : chooseBestLayoutStep product carton maxQ acc o₀ = acc := by
        unfold chooseBestLayoutStep
        rw [hc]
      rw [hstep] at h
      obtain ⟨h1, h2, h3⟩ := ih acc hacc l o s h
      refine ⟨h1, h2, ?_⟩
      intro o' ho' l' hl'
      rcases List.mem_cons.mp ho' with rfl | ho'
      · rw [hc] at hl'
        exact Option.noConfusion hl'
      · exact h3 o' ho' l' hl'
    | some layout₀ =>
      have hpos : 0 < layout₀.itemsPacked := by
        obtain ⟨-, -, -, -, -, -, hne, -, -, -⟩ :=
          calculateOptimal3DLayout_eq_some product carton o₀ maxQ layout₀ hc
        omega
      cases hacc0 : acc with
      | none =>
        rw [hacc0] at h
        have hstep : chooseBestLayoutStep product carton maxQ none o₀ =
            some (layout₀, o₀, calculateLayoutScore layout₀ product carton) := by
          unfold chooseBestLayoutStep
          rw [hc]
          simp [hpos]
        rw [hstep] at h
        have hacc' : ∀ bl bo bs,
            (some (layout₀, o₀, calculateLayoutScore layout₀ product carton) :
              Option (Layout × Orientation × ℚ)) = some (bl, bo, bs) →
            bs = calculateLayoutScore bl product carton ∧
            calculateOptimal3DLayout product carton bo maxQ = some bl := by
          intro bl bo bs hb
          have ht := Option.some.inj hb
          have e1 : bl = layout₀ := (congrArg (fun t => t.1) ht).symm
          have e2 : bo = o₀ := (congrArg (fun t => t.2.1) ht).symm
          have e3 : bs = calculateLayoutScore layout₀ product carton :=
            (congrArg (fun t => t.2.2) ht).symm
          subst e1; subst e2; subst e3
          exact ⟨rfl, hc⟩
        obtain ⟨h1, h2, h3⟩ := ih _ hacc' l o s h
        refine ⟨h1, ?_, ?_⟩
        · intro bl bo bs hb
          exact Option.noConfusion hb
        · intro o' ho' l' hl'
          rcases List.mem_cons.mp ho' with rfl | ho'
          · rw [hc] at hl'
            have he := Option.some.inj hl'
            subst he
            exact h2 _ _ _ rfl
          · exact h3 o' ho' l' hl'
      | some b =>
        obtain ⟨bl₀, bo₀, bs₀⟩ := b
        rw [hacc0] at h
        by_cases hlt : bs₀ < calculateLayoutScore layout₀ product carton
        · have hstep : chooseBestLayoutStep product carton maxQ
              (some (bl₀, bo₀, bs₀)) o₀ =
              some (layout₀, o₀, calculateLayoutScore layout₀ product carton) := by
            unfold chooseBestLayoutStep
            rw [hc]
            simp [hpos, hlt]
          rw [hstep] at h
          have hacc' : ∀ bl bo bs,
              (some (layout₀, o₀, calculateLayoutScore layout₀ product carton) :
                Option (Layout × Orientation × ℚ)) = some (bl, bo, bs) →
              bs = calculateLayoutScore bl product carton ∧
              calculateOptimal3DLayout product carton bo maxQ = some bl := by
            intro bl bo bs hb
            have ht := Option.some.inj hb
            have e1 : bl = layout₀ := (congrArg (fun t => t.1) ht).symm
            have e2 : bo = o₀ := (congrArg (fun t => t.2.1) ht).symm
            have e3 : bs = calculateLayoutScore layout₀ product carton :=
              (congrArg (fun t => t.2.2) ht).symm
            subst e1; subst e2; subst e3
            exact ⟨rfl, hc⟩
          obtain ⟨h1, h2, h3⟩ := ih _ hacc' l o s h
          refine ⟨h1, ?_, ?_⟩
          · intro bl bo bs hb
            have ht := Option.some.inj hb
            have e3 : bs = bs₀ := (congrArg (fun t => t.2.2) ht).symm
            subst e3
            exact le_trans (le_of_lt hlt) (h2 _ _ _ rfl)
          · intro o' ho' l' hl'
            rcases List.mem_cons.mp ho' with rfl | ho'
            · rw [hc] at hl'
              have he := Option.some.inj hl'
              subst he
              exact h2 _ _ _ rfl
            · exact h3 o' ho' l' hl'
        · have hstep : chooseBestLayoutStep product carton maxQ
              (some (bl₀, bo₀, bs₀)) o₀ = some (bl₀, bo₀, bs₀) := by
            unfold chooseBestLayoutStep
            rw [hc]
            simp [hpos, hlt]
          rw [hstep] at h
          have hacc' : ∀ bl bo bs,
              (some (bl₀, bo₀, bs₀) : Option (Layout × Orientation × ℚ)) =
                some (bl, bo, bs) →
              bs = calculateLayoutScore bl product carton ∧
              calculateOptimal3DLayout product carton bo maxQ = some bl := by
            intro bl bo bs hb
            refine hacc bl bo bs ?_
            rw [hacc0]
            exact hb
          obtain ⟨h1, h2, h3⟩ := ih _ hacc' l o s h
          refine ⟨h1, ?_, ?_⟩
          · exact h2
          · intro o' ho' l' hl'
            rcases List.mem_cons.mp ho' with rfl | ho'
            · rw [hc] at hl'
              have he := Option.some.inj hl'
              subst he
              exact le_trans (not_lt.mp hlt) (h2 _ _ _ rfl)
            · exact h3 o' ho' l' hl'

end ShipWise

namespace ShipWise

/-- C7 (amended): FFD's per-carton fit uses `packProductInCarton`, which
chooses among the product's orientations by **maximal layout score**
(space utilisation, stacking and stability weighted), not by maximal
items-fit; the placement's item count is the chosen layout's, and every
feasible orientation's layout scores at most the chosen one. -/
theorem C7_orientation_by_layout_score (product : Product) (carton : Carton)
    (maxQuantity : ℕ) (r : PackingResult)
    (h : packProductInCarton product carton maxQuantity = some r) :
    calculateOptimal3DLayout product carton r.orientation maxQuantity =
      some r.layout ∧
    r.itemsPacked = r.layout.itemsPacked ∧
    (∀ o' ∈ getAllOrientations product, ∀ l',
      calculateOptimal3DLayout product carton o' maxQuantity = some l' →
      calculateLayoutScore l' product carton ≤
        calculateLayoutScore r.layout product carton) := by
  obtain ⟨l, o, s, hcb, hr⟩ := packProductInCarton_eq_some product carton maxQuantity r h
  subst hr
  obtain ⟨⟨hs, hcalc⟩, -, hmax⟩ := chooseBestLayoutFold_max product carton maxQuantity
    (getAllOrientations product) none (fun bl bo bs hb => Option.noConfusion hb)
    l o s hcb
  refine ⟨hcalc, rfl, ?_⟩
  intro o' ho' l' hl'
  have hle := hmax o' ho' l' hl'
  rw [hs] at hle
  exact hle

/-- A rotatable product whose orientation 0 fits 6 items per carton while
orientation 1 fits only 5 at a higher layout score. -/
def demoOrientProduct : Product :=
  ⟨6, 6, 57/2, 2, 10, 1, 6, false, 100, 100, true, 1, 0, 0⟩

/-- The carton exposing the orientation choice of `packProductInCarton`. -/
def demoOrientCarton : Carton :=
  ⟨6, 6, 57/2, 12, 10, 100, 5, 5, 1, 1, 1, true, 10⟩

/-- The result the Fit Calculator returns on the demo orientation inputs. -/
def demoOrientResult : PackingResult :=
  (packProductInCarton demoOrientProduct demoOrientCarton 6).getD
    ⟨demoOrientProduct, demoOrientCarton, 0,
      ⟨0, 0, 0, 0, 0, [], ⟨0, 0, 0, false, 0, false⟩, 0, ⟨0, 0, 0⟩⟩,
      0, ⟨(0, 0, 0), 0⟩, ⟨0, 0, 0⟩, 0, 0⟩

unseal Rat.mul Rat.inv Rat.add Rat.sub Rat.ofScientific in
theorem C7_orientation_by_layout_score_witness :
    (packProductInCarton demoOrientProduct demoOrientCarton 6 =
      some demoOrientResult) ∧
    (calculateOptimal3DLayout demoOrientProduct demoOrientCarton
        demoOrientResult.orientation 6 = some demoOrientResult.layout ∧
      demoOrientResult.itemsPacked = demoOrientResult.layout.itemsPacked ∧
      (∀ o' ∈ getAllOrientations demoOrientProduct, ∀ l',
        calculateOptimal3DLayout demoOrientProduct demoOrientCarton o' 6 = some l' →
        calculateLayoutScore l' demoOrientProduct demoOrientCarton ≤
          calculateLayoutScore demoOrientResult.layout demoOrientProduct
            demoOrientCarton)) :=
  ⟨by decide,
    C7_orientation_by_layout_score demoOrientProduct demoOrientCarton 6
      demoOrientResult (by decide)⟩

unseal Rat.mul Rat.inv Rat.add Rat.sub Rat.ofScientific in
/-- Orientation 0 of the demo product fits 6 items, yet the Fit Calculator
packs only 5 (orientation 1 has the higher layout score): the orientation is
not chosen by maximal items-fit. -/
theorem C7_orientation_counterexample :
    (calculateOptimal3DLayout demoOrientProduct demoOrientCarton
        ⟨(demoOrientProduct.length, demoOrientProduct.breadth,
          demoOrientProduct.height), 0⟩ 6).map (fun l => l.itemsPacked) =
      some 6 ∧
    (packProductInCarton demoOrientProduct demoOrientCarton 6).map
      (fun r => r.itemsPacked) = some 5 := by
  constructor
  · decide
  · decide

end ShipWise

namespace ShipWise

/-- A unit product for the carton-cost tie scenario. -/
def demoTieProduct : Product := ⟨7, 7, 1, 1, 1, 1, 1, false, 10, 10, false, 1, 0, 0⟩

/-- The higher-cost carton, listed first. -/
def demoTieCartonExp : Carton := ⟨7, 7, 1, 1, 1, 10, 5, 9, 1, 1, 1, true, 5⟩

/-- The lower-cost carton of identical dimensions, listed second. -/
def demoTieCartonCheap : Carton := ⟨8, 8, 1, 1, 1, 10, 5, 1, 1, 1, 1, true, 5⟩

unseal Rat.mul Rat.inv Rat.add Rat.sub Rat.ofScientific in
/-- C6 (amended): BFD ranks feasible candidates by the packing score — whose
`1 / (cost + 1)` term makes it pick the cheaper of two volume-identical
cartons, as in the concrete two-carton catalog below — and a candidate only
displaces the incumbent on a strictly greater score; the waste-minimizing
variant only displaces the incumbent on a strictly smaller waste ratio, so on
ties the first-scanned carton wins and neither items-fit nor cost is
consulted. -/
theorem C6_tie_breaking :
    ((bfdSelect demoTieProduct [demoTieCartonExp, demoTieCartonCheap] 1).map
      Prod.fst = some 1) ∧
    (∀ (p : Product) (rem : ℕ) (b : ℚ × ℕ × PackingResult) (x : ℕ × Carton),
      bfdStep p rem (some b) x = some b ∨
      ∃ r, packProductInCarton p x.2 rem = some r ∧
        bfdStep p rem (some b) x = some (calculatePackingScore r, x.1, r) ∧
        b.1 < calculatePackingScore r) ∧
    (∀ (p : Product) (rem : ℕ) (b : ℕ × PackingResult) (x : ℕ × Carton),
      guillotineStep p rem (some b) x = some b ∨
      ∃ r, packWithGuillotineConstraints p x.2 rem = some r ∧
        guillotineStep p rem (some b) x = some (x.1, r) ∧
        r.wasteRatio < b.2.wasteRatio) := by
  refine ⟨by decide, ?_, ?_⟩
  · intro p rem b x
    obtain ⟨bs, brest⟩ := b
    by_cases ha : 0 < x.2.availableQuantity
    · cases hx : packProductInCarton p x.2 rem with
      | none =>
        left
        unfold bfdStep
        rw [hx]
        simp [ha]
      | some r =>
        by_cases hp : 0 < r.itemsPacked
        · by_cases hlt : bs < calculatePackingScore r
          · right
            refine ⟨r, rfl, ?_, hlt⟩
            unfold bfdStep
            rw [hx]
            simp [ha, hp, hlt]
          · left
            unfold bfdStep
            rw [hx]
            simp [ha, hp, hlt]
        · left
          unfold bfdStep
          rw [hx]
          simp [ha, hp]
    · left
      unfold bfdStep
      simp [ha]
  · intro p rem b x
    by_cases ha : 0 < x.2.availableQuantity
    · cases hx : packWithGuillotineConstraints p x.2 rem with
      | none =>
        left
        unfold guillotineStep
        rw [hx]
        simp [ha]
      | some r =>
        by_cases hw : r.wasteRatio < b.2.wasteRatio
        · right
          refine ⟨r, rfl, ?_, hw⟩
          unfold guillotineStep
          rw [hx]
          simp [ha, hw]
        · left
          unfold guillotineStep
          rw [hx]
          simp [ha, hw]
    · left
      unfold guillotineStep
      simp [ha]

unseal Rat.mul Rat.inv Rat.add Rat.sub Rat.ofScientific in
/-- Two cartons of identical volume, the more expensive listed first: the
waste-minimizing scan keeps the first-encountered carton on the waste-ratio
tie, placing items into the **higher**-cost type. -/
theorem C6_tie_breaking_counterexample :
    (guillotineSelect demoTieProduct [demoTieCartonExp, demoTieCartonCheap] 1).map
      Prod.fst = some 0 ∧
    demoTieCartonCheap.cost < demoTieCartonExp.cost ∧
    Carton.volume demoTieCartonExp = Carton.volume demoTieCartonCheap := by
  refine ⟨by decide, by decide, by decide⟩

end ShipWise

namespace ShipWise

/-- Evaluation of the engine's product loop on a single product whose
strategy run returns exactly one placement result. -/
theorem engineProductLoop_one (now : ℕ) (alg : Algorithm) (p : Product)
    (acc : List Placement) (unp : List UnpackedProduct) (w : List Carton)
    (x : ℕ × PackingResult)
    (hpack : packItems [{ p with quantity := p.quantity }] w alg =
      ([x], decrementAt w x.1))
    (hpos : 0 < x.2.itemsPacked) :
    (engineProductLoop now alg [p] acc unp w).1 =
      acc ++ [mkPlacement now (acc.length + 1) p x.2] := by
  simp only [engineProductLoop]
  rw [hpack]
  dsimp only
  have hproc1 : (processPackingResults now acc.length p ([x].map Prod.snd)
      (decrementAt w x.1)).1 = [mkPlacement now (acc.length + 1) p x.2] := by
    unfold processPackingResults
    simp only [List.map_cons, List.map_nil, List.foldl_cons, List.foldl_nil]
    unfold processStep
    rw [if_pos hpos]
    simp
  rw [hproc1]

/-- A unit product requesting one item, for the availability-0 scenario. -/
def demoZeroAvailProduct : Product :=
  ⟨9, 9, 1, 1, 1, 1, 1, false, 10, 10, false, 1, 0, 0⟩

/-- A carton type declared with `availableQuantity = 0`. -/
def demoZeroAvailCarton : Carton := ⟨9, 9, 1, 1, 1, 10, 0, 1, 1, 1, 1, true, 5⟩

/-- The working copy the engine makes of it: `availableQuantity || 1`. -/
def demoZeroAvailCartonInit : Carton := ⟨9, 9, 1, 1, 1, 10, 1, 1, 1, 1, 1, true, 5⟩

unseal Rat.mul Rat.inv Rat.add Rat.sub Rat.ofScientific in
/-- A carton type declared unavailable (`availableQuantity = 0`) is still
consumed once: the working copy floors its availability at 1 (line 846), so
the run emits one placement of that type and the frozen bound
`countId ≤ availableQuantity` fails. -/
theorem C10_carton_usage_counterexample :
    demoZeroAvailCarton.availableQuantity = 0 ∧
    countId (calculateOptimalPacking 0 [demoZeroAvailProduct]
      [demoZeroAvailCarton] Algorithm.ffd).packingResults
      demoZeroAvailCarton.id = 1 := by
  refine ⟨rfl, ?_⟩
  rw [calculateOptimalPacking_packingResults]
  have hinit : initWorkingCartons [demoZeroAvailCarton] =
      [demoZeroAvailCartonInit] := by decide
  rw [hinit]
  have hsome : (ffdSelect [0] demoZeroAvailProduct [demoZeroAvailCartonInit] 1).map
      (fun y => (y.1, y.2.carton.id, y.2.itemsPacked)) = some (0, 9, 1) := by decide
  cases hx : ffdSelect [0] demoZeroAvailProduct [demoZeroAvailCartonInit] 1 with
  | none => rw [hx] at hsome; cases hsome
  | some x =>
    rw [hx] at hsome
    have ht := Option.some.inj hsome
    have hx1 : x.1 = 0 := congrArg (fun t => t.1) ht
    have hxc : x.2.carton.id = 9 := congrArg (fun t => t.2.1) ht
    have hxi : x.2.itemsPacked = 1 := congrArg (fun t => t.2.2) ht
    have hqe : ({ demoZeroAvailProduct with
        quantity := demoZeroAvailProduct.quantity } : Product).quantity = 1 := rfl
    have hpack : packItems [{ demoZeroAvailProduct with
        quantity := demoZeroAvailProduct.quantity }] [demoZeroAvailCartonInit]
        Algorithm.ffd = ([x], decrementAt [demoZeroAvailCartonInit] x.1) := by
      have hb : packItems [{ demoZeroAvailProduct with
          quantity := demoZeroAvailProduct.quantity }] [demoZeroAvailCartonInit]
          Algorithm.ffd =
          runStrategyLoop (fun p => ffdSelect [0] p)
            (fun p => ffdSelect_itemsPacked_pos [0] p)
            [{ demoZeroAvailProduct with
              quantity := demoZeroAvailProduct.quantity }]
            [demoZeroAvailCartonInit] := rfl
      rw [hb]
      exact runStrategyLoop_singleton (fun p => ffdSelect [0] p)
        (fun p => ffdSelect_itemsPacked_pos [0] p)
        { demoZeroAvailProduct with quantity := demoZeroAvailProduct.quantity }
        [demoZeroAvailCartonInit] x (by rw [hqe]; omega) hx
        (by rw [hqe]; omega)
    have hloop := engineProductLoop_one 0 Algorithm.ffd demoZeroAvailProduct [] []
      [demoZeroAvailCartonInit] x hpack (by omega)
    rw [hloop]
    have hcid : (mkPlacement 0 1 demoZeroAvailProduct x.2).cartonId =
        demoZeroAvailCarton.id := by
      rw [mkPlacement_cartonId]
      exact hxc
    simp [countId, hcid]

end ShipWise
